import Mathlib

/-!
Verification development for the Inbox Reader (arbnode/inbox_reader.go).

The Go source is shallowly embedded: the external collaborators (Inbox
Tracker, Delayed Bridge, Sequencer Inbox, Header Reader, L1 client) are
oracles given as structures of pure functions; the tracker is threaded as
an explicit state of an abstract type. Machine integers: Go uint64 counters
become Nat, big.Int block numbers become Int. Fallible Go calls return
Except. The long-running Reader Loop is modelled one outer iteration (one
pass) at a time, with fuel bounding the inner range-scan loop. Observable
behaviour (parent-chain queries, writes of the published progress counters,
the caught-up signal) is recorded in an event trace.
-/

namespace InboxReaderModel

/-- Accumulator hashes are opaque values compared only for equality. -/
abbrev Hash := Nat

/-- Error values crossing the modelled interfaces. The named constructors
stand for the sentinel errors the source distinguishes with errors.Is or
errors.New; all other errors are coded. -/
inductive InboxErr where
  | accumulatorNotFound
  | delayedMessagesMismatch
  | cantGetOlderMessages
  | sequencerBatchNotFound
  | other (code : Nat)
deriving DecidableEq

instance {ε : Type u} {α : Type v} [DecidableEq ε] [DecidableEq α] :
    DecidableEq (Except ε α)
  | .error e, .error f =>
    if h : e = f then .isTrue (by rw [h])
    else .isFalse (by intro hh; cases hh; exact h rfl)
  | .error _, .ok _ => .isFalse (by intro h; cases h)
  | .ok _, .error _ => .isFalse (by intro h; cases h)
  | .ok a, .ok b =>
    if h : a = b then .isTrue (by rw [h])
    else .isFalse (by intro hh; cases hh; exact h rfl)

/-- Header of a delayed inbox message. SeqNum() parses the request id and
can fail, hence the Except. -/
structure DelayedHeader where
  seqNum : Except InboxErr Nat
  blockNumber : Nat
deriving DecidableEq

/-- Modelled from the spec: ParseInitMessage (arbostypes, not under src/)
parses delayed message 0 as the init message and yields the L2 chain id;
here the parse outcome is carried on the message itself.
A delayed inbox message as the Delayed Bridge returns it. -/
structure DelayedInboxMessage where
  header : DelayedHeader
  beforeInboxAcc : Hash
  initChainId : Except InboxErr Int
deriving DecidableEq

/-- A sequencer batch as the Sequencer Inbox returns it. Serialize(ctx,
client) is modelled as a precomputed fallible byte string. -/
structure SequencerInboxBatch where
  sequenceNumber : Nat
  beforeInboxAcc : Hash
  afterInboxAcc : Hash
  serialize : Except InboxErr (List Nat)
deriving DecidableEq

instance : Inhabited SequencerInboxBatch := ⟨⟨0, 0, 0, Except.ok []⟩⟩

/-- Stored batch metadata (only the L1 block field is read here). -/
structure BatchMetadata where
  l1Block : Nat
deriving DecidableEq

/-- InboxReaderConfig. CheckDelay is a duration; the timer it drives is
modelled as an explicit wait event instead. -/
structure InboxReaderConfig where
  delayBlocks : Nat
  hardReorg : Bool
  minBlocksToRead : Nat
deriving DecidableEq

/-- The collaborators of the reader, as pure oracles. The tracker is
stateful: its operations take and return an abstract state σ. The two
parent-chain adapters are fixed for the duration of a pass. -/
structure InboxEnv (σ : Type) where
  dbGetMessageCount : Int → Except InboxErr Nat
  dbGetAccumulator : Nat → Int → Except InboxErr Hash
  dbLookupMessagesInRange : Int → Int → Except InboxErr (List DelayedInboxMessage)
  siGetBatchCount : Int → Except InboxErr Nat
  siGetAccumulator : Nat → Int → Except InboxErr Hash
  siLookupBatchesInRange : Int → Int → Except InboxErr (List SequencerInboxBatch)
  trGetBatchCount : σ → Except InboxErr Nat
  trGetBatchAcc : σ → Nat → Except InboxErr Hash
  trGetBatchMetadata : σ → Nat → Except InboxErr BatchMetadata
  trGetDelayedCount : σ → Except InboxErr Nat
  trGetDelayedAcc : σ → Nat → Except InboxErr Hash
  trGetDelayedMessage : σ → Nat → Except InboxErr DelayedInboxMessage
  trReorgDelayedTo : σ → Nat → Except InboxErr σ
  trReorgBatchesTo : σ → Nat → Except InboxErr σ
  trAddDelayedMessages : σ → List DelayedInboxMessage → Except InboxErr σ
  trAddSequencerBatches : σ → List SequencerInboxBatch → Except InboxErr σ

/-- The published progress counters and the caught-up flag. -/
structure ReaderPub where
  lastReadBlock : Nat
  lastReadBatchCount : Nat
  lastSeenBatchCount : Nat
  caughtUp : Bool
deriving DecidableEq

/-- Observable events of a pass: a parent-chain query touching a block, a
delayed message handed to the tracker, a write of the published counters
(the snapshot readers can observe right after the write), the caught-up
channel send, and a retreat computed by the reorg walker. -/
inductive REvent where
  | queryBlock (b : Int)
  | appliedMsgBlock (b : Int)
  | snap (lastReadBlock lastReadBatchCount lastSeenBatchCount : Nat)
  | caughtUpSent (toBlock currentHeight : Int)
  | retreatForReorg (fromBlock : Int)
deriving DecidableEq

/-- State carried between passes of one run invocation: the next block to
read from, the run-local seenBatchCount and the sentinel of the last stored
value, the tracker state, the published counters and the event trace. -/
structure PassSt (σ : Type) where
  fromBlock : Int
  seenBatchCount : Nat
  seenBatchCountStored : Nat
  tracker : σ
  pub : ReaderPub
  events : List REvent
deriving DecidableEq

/-- Sentinel initial value of seenBatchCountStored (math.MaxUint64). -/
def maxUint64 : Nat := 2 ^ 64 - 1

/-- Conversion of a big.Int block number to uint64 (heights are
non-negative in practice). -/
def toUint64 (i : Int) : Nat := i.toNat % 2 ^ 64

/-- storeSeenBatchCount: store the run-local seen count atomically into the
published counter, unless it equals the last value stored. -/
def storeSeenBatchCount {σ : Type} (st : PassSt σ) : PassSt σ :=
  if st.seenBatchCountStored ≠ st.seenBatchCount then
    { st with
      pub := { st.pub with lastSeenBatchCount := st.seenBatchCount },
      seenBatchCountStored := st.seenBatchCount,
      events := st.events ++
        [.snap st.pub.lastReadBlock st.pub.lastReadBatchCount st.seenBatchCount] }
  else st

/-- Write lastReadBlock and lastReadBatchCount under the mutex; the
snapshot right after the write is observable. -/
def publishRead {σ : Type} (blk cnt : Nat) (st : PassSt σ) : PassSt σ :=
  { st with
    pub := { st.pub with lastReadBlock := blk, lastReadBatchCount := cnt },
    events := st.events ++ [.snap blk cnt st.pub.lastSeenBatchCount] }

/-- Record a parent-chain query touching block b. -/
def logQuery {σ : Type} (b : Int) (st : PassSt σ) : PassSt σ :=
  { st with events := st.events ++ [.queryBlock b] }

/-- getPrevBlockForReorg: step ten blocks into the past, floored at
firstMessageBlock; fail if already at or below the floor. -/
def getPrevBlockForReorg (firstMessageBlock fromBlock : Int) : Except InboxErr Int :=
  if fromBlock ≤ firstMessageBlock then .error .cantGetOlderMessages
  else
    let newFrom := fromBlock - 10
    if newFrom < firstMessageBlock then .ok firstMessageBlock else .ok newFrom

/-- getNextBlockToRead: firstMessageBlock when the tracker holds no delayed
messages, else the last delayed message block floored at firstMessageBlock. -/
def getNextBlockToRead {σ : Type} (env : InboxEnv σ) (firstMessageBlock : Int) (tr : σ) :
    Except InboxErr Int :=
  match env.trGetDelayedCount tr with
  | .error e => .error e
  | .ok delayedCount =>
    if delayedCount = 0 then .ok firstMessageBlock
    else
      match env.trGetDelayedMessage tr (delayedCount - 1) with
      | .error e => .error e
      | .ok msg =>
        let msgBlock : Int := msg.header.blockNumber
        if msgBlock < firstMessageBlock then .ok firstMessageBlock else .ok msgBlock

/-- The range loop of GetSequencerMessageBytes: first batch with the wanted
sequence number. -/
def findBatchBySeqNum (seqNum : Nat) :
    List SequencerInboxBatch → Option SequencerInboxBatch
  | [] => none
  | b :: rest =>
    if b.sequenceNumber = seqNum then some b else findBatchBySeqNum seqNum rest

/-- GetSequencerMessageBytes: metadata lookup, range query at exactly the
metadata block, scan for the matching sequence number. -/
def GetSequencerMessageBytes {σ : Type} (env : InboxEnv σ) (tr : σ) (seqNum : Nat) :
    Except InboxErr (List Nat) :=
  match env.trGetBatchMetadata tr seqNum with
  | .error e => .error e
  | .ok metadata =>
    match env.siLookupBatchesInRange (metadata.l1Block : Int) (metadata.l1Block : Int) with
    | .error e => .error e
    | .ok seqBatches =>
      match findBatchBySeqNum seqNum seqBatches with
      | some batch => batch.serialize
      | none => .error .sequencerBatchNotFound

/-- addMessages: persist the delayed messages, then the sequencer batches
on the resulting tracker state; a delayedMessagesMismatch from the latter
is turned into the Boolean signal instead of an error. -/
def addMessages {σ : Type} (env : InboxEnv σ) (tr : σ)
    (sequencerBatches : List SequencerInboxBatch)
    (delayedMessages : List DelayedInboxMessage) : Except InboxErr (Bool × σ) :=
  match env.trAddDelayedMessages tr delayedMessages with
  | .error e => .error e
  | .ok tr1 =>
    match env.trAddSequencerBatches tr1 sequencerBatches with
    | .error .delayedMessagesMismatch => .ok (true, tr1)
    | .error e => .error e
    | .ok tr2 => .ok (false, tr2)

/-- Outcome of Start. chainIdMismatch carries both the configured and the
parsed chain id, as the Go error message names both. -/
inductive StartResult where
  | ok
  | chainIdMismatch (configChainId initChainId : Int)
  | failedToReadInitMessage
  | fail (e : InboxErr)
deriving DecidableEq

/-- One poll of the bootstrap gate: none means the batch count was still
zero, so the gate must keep polling; some r ends the gate with result r. -/
def startPollOnce {σ : Type} (env : InboxEnv σ) (tr : σ) (configChainId : Int) :
    Option StartResult :=
  match env.trGetBatchCount tr with
  | .error e => some (.fail e)
  | .ok batchCount =>
    if 0 < batchCount then
      some (match env.trGetDelayedMessage tr 0 with
        | .error e => .fail e
        | .ok message =>
          match message.initChainId with
          | .error e => .fail e
          | .ok initChainId =>
            if initChainId ≠ configChainId then
              .chainIdMismatch configChainId initChainId
            else .ok)
    else none

/-- The bootstrap polling loop of Start: poll i with `remaining` further
polls allowed; trackerAt i is the tracker state seen by poll i. -/
def startPollLoop {σ : Type} (env : InboxEnv σ) (trackerAt : Nat → σ)
    (configChainId : Int) : Nat → Nat → StartResult
  | i, 0 =>
    match startPollOnce env (trackerAt i) configChainId with
    | some r => r
    | none => .failedToReadInitMessage
  | i, r + 1 =>
    match startPollOnce env (trackerAt i) configChainId with
    | some fin => fin
    | none => startPollLoop env trackerAt configChainId (i + 1) r

/-- Start: the bootstrap gate polls the batch count every 100 ms, giving up
after poll index 30*10. -/
def Start {σ : Type} (env : InboxEnv σ) (trackerAt : Nat → σ) (configChainId : Int) :
    StartResult :=
  startPollLoop env trackerAt configChainId 0 (30 * 10)

/-- Events the pacing phase can observe while waiting for the needed
height: a header from the subscription (none means shutdown), context
cancellation, or the checkDelay timer firing. -/
inductive WaitEvent where
  | newHeader (h : Option Int)
  | cancelled
  | timerFired
deriving DecidableEq

/-- The WaitForHeight loop: while the current height is below the needed
height, consume wait events; a nil header or cancellation ends the run
(none), the timer ends the wait with the height reached so far. An
exhausted event list stands for the checkDelay timer firing. -/
def waitForHeight (neededBlockHeight : Int) : Int → List WaitEvent → Option Int
  | currentHeight, evs =>
    if currentHeight < neededBlockHeight then
      match evs with
      | [] => some currentHeight
      | .newHeader none :: _ => none
      | .newHeader (some h) :: rest => waitForHeight neededBlockHeight h rest
      | .cancelled :: _ => none
      | .timerFired :: _ => some currentHeight
    else some currentHeight

/-- The delay window: with delayBlocks positive, back off the current
height by delayBlocks, floored at firstMessageBlock. -/
def applyDelayWindow (cfg : InboxReaderConfig) (firstMessageBlock currentHeight : Int) : Int :=
  if 0 < cfg.delayBlocks then
    let ch := currentHeight - (cfg.delayBlocks : Int)
    if ch < firstMessageBlock then firstMessageBlock else ch
  else currentHeight

/-- The effective height a pass probes and scans at (none when the pass
shuts down during the prologue). -/
def passHeight (cfg : InboxReaderConfig) (firstMessageBlock : Int)
    (lastHeader : Except InboxErr Int) (waitEvents : List WaitEvent)
    (fromBlock : Int) : Option Int :=
  match lastHeader with
  | .error _ => none
  | .ok latest =>
    let neededBlockAdvance : Nat := cfg.delayBlocks + (cfg.minBlocksToRead - 1)
    match waitForHeight (fromBlock + (neededBlockAdvance : Int)) latest waitEvents with
    | none => none
    | some h => some (applyDelayWindow cfg firstMessageBlock h)

/-- Result of a probe sub-phase: an error return (with the state at that
point) or a value with the updated state. -/
inductive PRes (α : Type) (σ : Type) where
  | fail (e : InboxErr) (st : PassSt σ)
  | ok (a : α) (st : PassSt σ)

/-- The count-comparison step both probe halves share: with the tracker
behind the chain count, lower checking to the tracker count and flag
missing; with the tracker ahead and hard-reorg enabled, truncate through
the given reorg operation. Returns (checking count, missing flag). -/
def probeCountAdjust {σ : Type} (reorgTo : σ → Nat → Except InboxErr σ)
    (hardReorg : Bool) (c0 our : Nat) (st : PassSt σ) : PRes (Nat × Bool) σ :=
  if our < c0 then .ok (our, true) st
  else if c0 < our then
    if hardReorg then
      match reorgTo st.tracker c0 with
      | .error e => .fail e st
      | .ok tr1 => .ok (c0, false) { st with tracker := tr1 }
    else .ok (c0, false) st
  else .ok (c0, false) st

/-- The delayed-stream half of the divergence probe: counts at the current
height, optional hard-reorg truncation, accumulator comparison at the last
common entry. Returns (missingDelayed, reorgingDelayed). -/
def probeDelayedCore {σ : Type} (env : InboxEnv σ) (cfg : InboxReaderConfig)
    (currentHeight : Int) (st : PassSt σ) : PRes (Bool × Bool) σ :=
  let st := logQuery currentHeight st
  match env.dbGetMessageCount currentHeight with
  | .error e => .fail e st
  | .ok checkingDelayedCount0 =>
    match env.trGetDelayedCount st.tracker with
    | .error e => .fail e st
    | .ok ourLatestDelayedCount =>
      match probeCountAdjust env.trReorgDelayedTo cfg.hardReorg
          checkingDelayedCount0 ourLatestDelayedCount st with
      | .fail e st => .fail e st
      | .ok (checkingDelayedCount, missingDelayed) st =>
        if 0 < checkingDelayedCount then
          let checkingDelayedSeqNum := checkingDelayedCount - 1
          let st := logQuery currentHeight st
          match env.dbGetAccumulator checkingDelayedSeqNum currentHeight with
          | .error e => .fail e st
          | .ok l1DelayedAcc =>
            match env.trGetDelayedAcc st.tracker checkingDelayedSeqNum with
            | .error e => .fail e st
            | .ok dbDelayedAcc =>
              .ok (missingDelayed, dbDelayedAcc ≠ l1DelayedAcc) st
        else .ok (missingDelayed, false) st

/-- Assignment of the run-local seenBatchCount. -/
def setSeenCount {σ : Type} (n : Nat) (st : PassSt σ) : PassSt σ :=
  { st with seenBatchCount := n }

/-- The sequencer-stream half of the divergence probe. Also assigns the
run-local seenBatchCount: the count read from the parent chain, or 0 when
that query fails. Returns (missingSequencer, reorgingSequencer,
checkingBatchCount). -/
def probeSequencerCore {σ : Type} (env : InboxEnv σ) (cfg : InboxReaderConfig)
    (currentHeight : Int) (st : PassSt σ) : PRes (Bool × Bool × Nat) σ :=
  let st := logQuery currentHeight st
  match env.siGetBatchCount currentHeight with
  | .error e => .fail e (setSeenCount 0 st)
  | .ok n =>
    let st := setSeenCount n st
    match env.trGetBatchCount st.tracker with
    | .error e => .fail e st
    | .ok ourLatestBatchCount =>
      match probeCountAdjust env.trReorgBatchesTo cfg.hardReorg
          n ourLatestBatchCount st with
      | .fail e st => .fail e st
      | .ok (checkingBatchCount, missingSequencer) st =>
        if 0 < checkingBatchCount then
          let checkingBatchSeqNum := checkingBatchCount - 1
          let st := logQuery currentHeight st
          match env.siGetAccumulator checkingBatchSeqNum currentHeight with
          | .error e => .fail e st
          | .ok l1BatchAcc =>
            match env.trGetBatchAcc st.tracker checkingBatchSeqNum with
            | .error e => .fail e st
            | .ok dbBatchAcc =>
              .ok (missingSequencer, dbBatchAcc ≠ l1BatchAcc, checkingBatchCount) st
        else .ok (missingSequencer, false, checkingBatchCount) st

/-- Outcome of a pass prologue plus divergence probe. -/
inductive ProbeOut (σ : Type) where
  | shutdown (st : PassSt σ)
  | fail (e : InboxErr) (st : PassSt σ)
  | go (currentHeight : Int)
       (missingDelayed reorgingDelayed missingSequencer reorgingSequencer : Bool)
       (checkingBatchCount : Nat) (st : PassSt σ)
deriving DecidableEq

/-- Prologue (LastHeader, WaitForHeight, delay window) followed by the
divergence probe of both streams. -/
def passProbe {σ : Type} (env : InboxEnv σ) (cfg : InboxReaderConfig)
    (firstMessageBlock : Int) (lastHeader : Except InboxErr Int)
    (waitEvents : List WaitEvent) (st : PassSt σ) : ProbeOut σ :=
  match lastHeader with
  | .error e => .fail e st
  | .ok latest =>
    let neededBlockAdvance : Nat := cfg.delayBlocks + (cfg.minBlocksToRead - 1)
    match waitForHeight (st.fromBlock + (neededBlockAdvance : Int)) latest waitEvents with
    | none => .shutdown st
    | some h =>
      let currentHeight := applyDelayWindow cfg firstMessageBlock h
      match probeDelayedCore env cfg currentHeight st with
      | .fail e st => .fail e st
      | .ok (missingDelayed, reorgingDelayed) st =>
        match probeSequencerCore env cfg currentHeight st with
        | .fail e st => .fail e st
        | .ok (missingSequencer, reorgingSequencer, checkingBatchCount) st =>
          .go currentHeight missingDelayed reorgingDelayed
            missingSequencer reorgingSequencer checkingBatchCount st

/-- Skip already-present batches from the front of the returned slice: a
batch whose stored accumulator equals its beforeInboxAcc is already in the
database; stop at the first not-found or mismatch. -/
def skipKnownBatches {σ : Type} (env : InboxEnv σ) (tr : σ) :
    List SequencerInboxBatch → Except InboxErr (List SequencerInboxBatch)
  | [] => .ok []
  | batch :: rest =>
    match env.trGetBatchAcc tr batch.sequenceNumber with
    | .error .accumulatorNotFound => .ok (batch :: rest)
    | .error e => .error e
    | .ok haveAcc =>
      if haveAcc = batch.beforeInboxAcc then skipKnownBatches env tr rest
      else .ok (batch :: rest)

/-- The sequencer-analysis step of a scan iteration: clear the flags when
batches were returned, re-raise reorgingSequencer if the first batch does
not chain onto the tracker (skipped for sequence number 0), then trim
already-known batches; with no batches returned, promote missingSequencer
to reorgingSequencer once the scan reached the current height. Returns
(missingSequencer, reorgingSequencer, trimmed batches). -/
def analyzeSequencer {σ : Type} (env : InboxEnv σ) (tr : σ)
    (missingSequencer reorgingSequencer : Bool) (toBlock currentHeight : Int)
    (sequencerBatches : List SequencerInboxBatch) :
    Except InboxErr (Bool × Bool × List SequencerInboxBatch) :=
  match sequencerBatches with
  | [] =>
    if missingSequencer && decide (currentHeight ≤ toBlock) then
      .ok (missingSequencer, true, [])
    else .ok (missingSequencer, reorgingSequencer, [])
  | firstBatch :: rest =>
    let check : Except InboxErr Bool :=
      if 0 < firstBatch.sequenceNumber then
        match env.trGetBatchAcc tr (firstBatch.sequenceNumber - 1) with
        | .error .accumulatorNotFound => .ok true
        | .error e => .error e
        | .ok haveAcc => .ok (haveAcc ≠ firstBatch.beforeInboxAcc)
      else .ok false
    match check with
    | .error e => .error e
    | .ok reorging =>
      if reorging then .ok (false, true, firstBatch :: rest)
      else
        match skipKnownBatches env tr (firstBatch :: rest) with
        | .error e => .error e
        | .ok trimmed => .ok (false, false, trimmed)

/-- The delayed-analysis step of a scan iteration, symmetric to the
sequencer analysis (the chaining check is skipped for header seq num 0; no
skipping of known messages is performed). Returns (missingDelayed,
reorgingDelayed). -/
def analyzeDelayed {σ : Type} (env : InboxEnv σ) (tr : σ)
    (missingDelayed reorgingDelayed : Bool) (toBlock currentHeight : Int)
    (delayedMessages : List DelayedInboxMessage) :
    Except InboxErr (Bool × Bool) :=
  match delayedMessages with
  | [] =>
    if missingDelayed && decide (currentHeight ≤ toBlock) then
      .ok (missingDelayed, true)
    else .ok (missingDelayed, reorgingDelayed)
  | firstMsg :: _ =>
    match firstMsg.header.seqNum with
    | .error e => .error e
    | .ok beforeCount =>
      if 0 < beforeCount then
        match env.trGetDelayedAcc tr (beforeCount - 1) with
        | .error .accumulatorNotFound => .ok (false, true)
        | .error e => .error e
        | .ok haveAcc => .ok (false, haveAcc ≠ firstMsg.beforeInboxAcc)
      else .ok (false, false)

/-- The apply step of a scan iteration: when no reorg flag is set and a
slice is non-empty, hand the bundle to the tracker; a delayed-messages
mismatch sets reorgingDelayed; with any batches applied, publish
lastReadBlock = to and lastReadBatchCount = last batch sequence number + 1
and store the seen count. Returns (reorgingDelayed, readAnyBatches). -/
def applyAndPublish {σ : Type} (env : InboxEnv σ) (toBlock : Int)
    (reorgingDelayed reorgingSequencer : Bool)
    (delayedMessages : List DelayedInboxMessage)
    (sequencerBatches : List SequencerInboxBatch)
    (readAnyBatches : Bool) (st : PassSt σ) : PRes (Bool × Bool) σ :=
  if !reorgingDelayed && !reorgingSequencer &&
      (!delayedMessages.isEmpty || !sequencerBatches.isEmpty) then
    match addMessages env st.tracker sequencerBatches delayedMessages with
    | .error e => .fail e st
    | .ok (delayedMismatch, tr1) =>
      let st := { st with
                  tracker := tr1,
                  events := st.events ++
                    delayedMessages.map
                      (fun m => .appliedMsgBlock (m.header.blockNumber : Int)) }
      let reorgingDelayed := if delayedMismatch then true else reorgingDelayed
      if sequencerBatches.isEmpty then .ok (reorgingDelayed, readAnyBatches) st
      else
        let lastSeq := (sequencerBatches.getLastD default).sequenceNumber
        let st := publishRead (toUint64 toBlock) (lastSeq + 1) st
        let st := storeSeenBatchCount st
        .ok (reorgingDelayed, true) st
  else .ok (reorgingDelayed, readAnyBatches) st

/-- Outcome of the inner range-scan loop. -/
inductive ScanOut (σ : Type) where
  | done (readAnyBatches : Bool) (st : PassSt σ)
  | shutdown (st : PassSt σ)
  | fail (e : InboxErr) (st : PassSt σ)
  | fuelOut (st : PassSt σ)

/-- One iteration of the range scan, from an in-range start block: pick
to = min(from + 100, height), range-query both adapters, send the one-shot
caught-up signal when the scan reaches the current height, analyze both
streams, apply, and advance (reorg walker on a reorg flag, to + 1
otherwise) into the given continuation. -/
def scanIter {σ : Type} (env : InboxEnv σ) (firstMessageBlock currentHeight : Int)
    (recurse : Bool → Bool → Bool → Bool → Bool → PassSt σ → ScanOut σ)
    (missingDelayed reorgingDelayed missingSequencer reorgingSequencer
      readAnyBatches : Bool) (st : PassSt σ) : ScanOut σ :=
  let fromBlock := st.fromBlock
  let toBlock :=
    if currentHeight < fromBlock + 100 then currentHeight else fromBlock + 100
  let st := logQuery toBlock (logQuery fromBlock st)
  match env.dbLookupMessagesInRange fromBlock toBlock with
  | .error e => .fail e st
  | .ok delayedMessages =>
    match env.siLookupBatchesInRange fromBlock toBlock with
    | .error e => .fail e st
    | .ok sequencerBatches0 =>
      let st :=
        if !st.pub.caughtUp && decide (toBlock = currentHeight) then
          { st with
            pub := { st.pub with caughtUp := true },
            events := st.events ++ [.caughtUpSent toBlock currentHeight] }
        else st
      match analyzeSequencer env st.tracker missingSequencer reorgingSequencer
          toBlock currentHeight sequencerBatches0 with
      | .error e => .fail e st
      | .ok (missingSequencer, reorgingSequencer, sequencerBatches) =>
        match analyzeDelayed env st.tracker missingDelayed reorgingDelayed
            toBlock currentHeight delayedMessages with
        | .error e => .fail e st
        | .ok (missingDelayed, reorgingDelayed) =>
          match applyAndPublish env toBlock reorgingDelayed reorgingSequencer
              delayedMessages sequencerBatches readAnyBatches st with
          | .fail e st => .fail e st
          | .ok (reorgingDelayed, readAnyBatches) st =>
            if reorgingDelayed || reorgingSequencer then
              match getPrevBlockForReorg firstMessageBlock st.fromBlock with
              | .error e => .fail e st
              | .ok newFrom =>
                recurse missingDelayed reorgingDelayed missingSequencer
                  reorgingSequencer readAnyBatches
                  { st with
                    fromBlock := newFrom,
                    events := st.events ++ [.retreatForReorg newFrom] }
            else
              recurse missingDelayed reorgingDelayed missingSequencer
                reorgingSequencer readAnyBatches
                { st with fromBlock := toBlock + 1 }

/-- The inner range-scan loop of a pass, one iteration per unit of fuel:
check cancellation, handle from beyond the current height (promote missing
to reorging and either exit or reset from to the height), then run one
scan iteration. -/
def scanLoop {σ : Type} (env : InboxEnv σ) (firstMessageBlock currentHeight : Int)
    (ctxDone : Bool) :
    Nat → Bool → Bool → Bool → Bool → Bool → PassSt σ → ScanOut σ
  | 0, _, _, _, _, _, st => .fuelOut st
  | fuel + 1, missingDelayed, reorgingDelayed, missingSequencer, reorgingSequencer,
      readAnyBatches, st =>
    if ctxDone then .shutdown st
    else if currentHeight < st.fromBlock then
      let rD := reorgingDelayed || missingDelayed
      let rS := reorgingSequencer || missingSequencer
      if !rD && !rS then .done readAnyBatches st
      else
        scanIter env firstMessageBlock currentHeight
          (scanLoop env firstMessageBlock currentHeight ctxDone fuel)
          missingDelayed rD missingSequencer rS readAnyBatches
          { st with fromBlock := currentHeight }
    else
      scanIter env firstMessageBlock currentHeight
        (scanLoop env firstMessageBlock currentHeight ctxDone fuel)
        missingDelayed reorgingDelayed missingSequencer reorgingSequencer
        readAnyBatches st

/-- Outcome of one pass of the Reader Loop. -/
inductive PassOut (σ : Type) where
  | nextPass (st : PassSt σ)
  | shutdown (st : PassSt σ)
  | fail (e : InboxErr) (st : PassSt σ)
  | fuelOut (st : PassSt σ)
deriving DecidableEq

/-- The deferred storeSeenBatchCount that runs when run returns. -/
def runReturn {σ : Type} (st : PassSt σ) : PassSt σ := storeSeenBatchCount st

/-- One pass (one outer-loop iteration) of run: prologue and probe; with no
flag raised publish progress and continue; otherwise run the range scan and,
if it applied no batches, publish the pass-epilogue progress. On an error
or shutdown return the deferred seen-count store runs. -/
def runPass {σ : Type} (env : InboxEnv σ) (cfg : InboxReaderConfig)
    (firstMessageBlock : Int) (lastHeader : Except InboxErr Int)
    (waitEvents : List WaitEvent) (ctxDone : Bool) (fuel : Nat)
    (st : PassSt σ) : PassOut σ :=
  match passProbe env cfg firstMessageBlock lastHeader waitEvents st with
  | .fail e st => .fail e (runReturn st)
  | .shutdown st => .shutdown (runReturn st)
  | .go currentHeight missingDelayed reorgingDelayed missingSequencer
      reorgingSequencer checkingBatchCount st =>
    if !missingDelayed && !reorgingDelayed && !missingSequencer && !reorgingSequencer then
      let st := { st with fromBlock := currentHeight + 1 }
      let st := publishRead (toUint64 currentHeight) checkingBatchCount st
      let st := storeSeenBatchCount st
      .nextPass st
    else
      match scanLoop env firstMessageBlock currentHeight ctxDone fuel
          missingDelayed reorgingDelayed missingSequencer reorgingSequencer false st with
      | .fail e st => .fail e (runReturn st)
      | .shutdown st => .shutdown (runReturn st)
      | .fuelOut st => .fuelOut st
      | .done readAnyBatches st =>
        if readAnyBatches then .nextPass st
        else
          let st := publishRead (toUint64 currentHeight) checkingBatchCount st
          let st := storeSeenBatchCount st
          .nextPass st

/-- State projection of a pass outcome. -/
def PassOut.state {σ : Type} : PassOut σ → PassSt σ
  | .nextPass st => st
  | .shutdown st => st
  | .fail _ st => st
  | .fuelOut st => st

/-- Per-pass inputs of a run: the LastHeader result, the wait events, the
cancellation flag and the scan fuel. -/
structure PassInput where
  lastHeader : Except InboxErr Int
  waitEvents : List WaitEvent
  ctxDone : Bool
  fuel : Nat

/-- A sequence of passes of one run invocation, stopping at the first pass
that does not continue. -/
def runSeq {σ : Type} (env : InboxEnv σ) (cfg : InboxReaderConfig)
    (firstMessageBlock : Int) : List PassInput → PassSt σ → PassSt σ
  | [], st => st
  | inp :: rest, st =>
    match runPass env cfg firstMessageBlock inp.lastHeader inp.waitEvents
        inp.ctxDone inp.fuel st with
    | .nextPass st => runSeq env cfg firstMessageBlock rest st
    | .shutdown st => st
    | .fail _ st => st
    | .fuelOut st => st

/-- State projection of a probe sub-phase result. -/
def PRes.state {α : Type} {σ : Type} : PRes α σ → PassSt σ
  | .fail _ st => st
  | .ok _ st => st

/-- State projection of a probe outcome. -/
def ProbeOut.state {σ : Type} : ProbeOut σ → PassSt σ
  | .shutdown st => st
  | .fail _ st => st
  | .go _ _ _ _ _ _ st => st

/-- State projection of a scan outcome. -/
def ScanOut.state {σ : Type} : ScanOut σ → PassSt σ
  | .done _ st => st
  | .shutdown st => st
  | .fail _ st => st
  | .fuelOut st => st

/-- Outcome classifier: the pass ended in an error return. -/
def PassOut.isFail {σ : Type} : PassOut σ → Bool
  | .fail _ _ => true
  | _ => false

/-- Outcome classifier: the pass continued into the next pass. -/
def PassOut.isNextPass {σ : Type} : PassOut σ → Bool
  | .nextPass _ => true
  | _ => false

/-- Event classifier used to witness that a trace is reorg-free. -/
def REvent.isRetreat : REvent → Bool
  | .retreatForReorg _ => true
  | _ => false

section ConcreteEnvs

/-- Default test configuration: no delay blocks, no hard reorg, minimum
read of one block. -/
def cfg0 : InboxReaderConfig := ⟨0, false, 1⟩

/-- Environment of the C1 counterexample: one new batch on chain at the
scan start, and every range query beyond block 100 fails. -/
def envC1 : InboxEnv Unit where
  dbGetMessageCount _ := .ok 0
  dbGetAccumulator _ _ := .error (.other 9)
  dbLookupMessagesInRange f _ := if f = 0 then .ok [] else .error (.other 1)
  siGetBatchCount _ := .ok 1
  siGetAccumulator _ _ := .error (.other 9)
  siLookupBatchesInRange f _ :=
    if f = 0 then .ok [⟨0, 0, 1, .ok []⟩] else .error (.other 2)
  trGetBatchCount _ := .ok 0
  trGetBatchAcc _ _ := .error .accumulatorNotFound
  trGetBatchMetadata _ _ := .error (.other 9)
  trGetDelayedCount _ := .ok 0
  trGetDelayedAcc _ _ := .error (.other 9)
  trGetDelayedMessage _ _ := .error (.other 9)
  trReorgDelayedTo s _ := .ok s
  trReorgBatchesTo s _ := .ok s
  trAddDelayedMessages s _ := .ok s
  trAddSequencerBatches s _ := .ok s

/-- Initial state of the C1 counterexample: published counters
(0, 0, 5) from before this run invocation. -/
def stC1 : PassSt Unit := ⟨0, 0, maxUint64, (), ⟨0, 0, 5, false⟩, []⟩

/-- Environment of the C7 counterexample: the chain holds five batches, the
tracker none beyond batch 3 worth of accumulator knowledge; batch 4 chains
correctly, so the pass applies it with no reorg anywhere. -/
def envC7 : InboxEnv Unit where
  dbGetMessageCount _ := .ok 0
  dbGetAccumulator _ _ := .error (.other 9)
  dbLookupMessagesInRange _ _ := .ok []
  siGetBatchCount _ := .ok 5
  siGetAccumulator _ _ := .error (.other 9)
  siLookupBatchesInRange _ _ := .ok [⟨4, 7, 8, .ok []⟩]
  trGetBatchCount _ := .ok 0
  trGetBatchAcc _ n := if n = 3 then .ok 7 else .error .accumulatorNotFound
  trGetBatchMetadata _ _ := .error (.other 9)
  trGetDelayedCount _ := .ok 0
  trGetDelayedAcc _ _ := .error (.other 9)
  trGetDelayedMessage _ _ := .error (.other 9)
  trReorgDelayedTo s _ := .ok s
  trReorgBatchesTo s _ := .ok s
  trAddDelayedMessages s _ := .ok s
  trAddSequencerBatches s _ := .ok s

/-- Initial state of the C7 counterexample: fresh run, all published
counters zero. -/
def stC7 : PassSt Unit := ⟨0, 0, maxUint64, (), ⟨0, 0, 0, false⟩, []⟩

/-- Configuration of the C3 counterexample: thirty delay blocks. -/
def cfgC3 : InboxReaderConfig := ⟨30, false, 1⟩

/-- Environment of the C3 counterexample: the first probe query fails, so
the pass stops right after issuing it. -/
def envC3 : InboxEnv Unit where
  dbGetMessageCount _ := .error (.other 3)
  dbGetAccumulator _ _ := .error (.other 9)
  dbLookupMessagesInRange _ _ := .ok []
  siGetBatchCount _ := .ok 0
  siGetAccumulator _ _ := .error (.other 9)
  siLookupBatchesInRange _ _ := .ok []
  trGetBatchCount _ := .ok 0
  trGetBatchAcc _ _ := .error .accumulatorNotFound
  trGetBatchMetadata _ _ := .error (.other 9)
  trGetDelayedCount _ := .ok 0
  trGetDelayedAcc _ _ := .error (.other 9)
  trGetDelayedMessage _ _ := .error (.other 9)
  trReorgDelayedTo s _ := .ok s
  trReorgBatchesTo s _ := .ok s
  trAddDelayedMessages s _ := .ok s
  trAddSequencerBatches s _ := .ok s

/-- Initial state of the C3 counterexample. -/
def stC3 : PassSt Unit := ⟨20, 0, maxUint64, (), ⟨0, 0, 0, false⟩, []⟩

/-- Environment of the C5 witness: tracker state true holds two delayed
messages, the last at block 9; tracker state false holds none. -/
def envC5 : InboxEnv Bool where
  dbGetMessageCount _ := .ok 0
  dbGetAccumulator _ _ := .error (.other 9)
  dbLookupMessagesInRange _ _ := .ok []
  siGetBatchCount _ := .ok 0
  siGetAccumulator _ _ := .error (.other 9)
  siLookupBatchesInRange _ _ := .ok []
  trGetBatchCount _ := .ok 0
  trGetBatchAcc _ _ := .error .accumulatorNotFound
  trGetBatchMetadata _ _ := .error (.other 9)
  trGetDelayedCount s := if s then .ok 2 else .ok 0
  trGetDelayedAcc _ _ := .error (.other 9)
  trGetDelayedMessage s n :=
    if s && n == 1 then .ok ⟨⟨.ok 1, 9⟩, 0, .error (.other 0)⟩ else .error (.other 9)
  trReorgDelayedTo s _ := .ok s
  trReorgBatchesTo s _ := .ok s
  trAddDelayedMessages s _ := .ok s
  trAddSequencerBatches s _ := .ok s

/-- Environment of the C8 witness: tracker state true maps batch 7 to
block 42, where the inbox returns the matching entry; state false maps it
to block 41, where only a non-matching entry is returned. -/
def envC8 : InboxEnv Bool where
  dbGetMessageCount _ := .ok 0
  dbGetAccumulator _ _ := .error (.other 9)
  dbLookupMessagesInRange _ _ := .ok []
  siGetBatchCount _ := .ok 0
  siGetAccumulator _ _ := .error (.other 9)
  siLookupBatchesInRange f _ :=
    if f == 42 then .ok [⟨7, 1, 2, .ok [3, 4]⟩]
    else if f == 41 then .ok [⟨6, 1, 2, .ok [3, 4]⟩]
    else .error (.other 9)
  trGetBatchCount _ := .ok 0
  trGetBatchAcc _ _ := .error .accumulatorNotFound
  trGetBatchMetadata s _ := if s then .ok ⟨42⟩ else .ok ⟨41⟩
  trGetDelayedCount _ := .ok 0
  trGetDelayedAcc _ _ := .error (.other 9)
  trGetDelayedMessage _ _ := .error (.other 9)
  trReorgDelayedTo s _ := .ok s
  trReorgBatchesTo s _ := .ok s
  trAddDelayedMessages s _ := .ok s
  trAddSequencerBatches s _ := .ok s

/-- Environment of the C9 witness: the tracker answers every accumulator
query with 99, disagreeing with every batch. -/
def envC9 : InboxEnv Unit where
  dbGetMessageCount _ := .ok 0
  dbGetAccumulator _ _ := .error (.other 9)
  dbLookupMessagesInRange _ _ := .ok []
  siGetBatchCount _ := .ok 0
  siGetAccumulator _ _ := .error (.other 9)
  siLookupBatchesInRange _ _ := .ok []
  trGetBatchCount _ := .ok 0
  trGetBatchAcc _ _ := .ok 99
  trGetBatchMetadata _ _ := .error (.other 9)
  trGetDelayedCount _ := .ok 0
  trGetDelayedAcc _ _ := .ok 99
  trGetDelayedMessage _ _ := .error (.other 9)
  trReorgDelayedTo s _ := .ok s
  trReorgBatchesTo s _ := .ok s
  trAddDelayedMessages s _ := .ok s
  trAddSequencerBatches s _ := .ok s

/-- Environment of the C2 witness: tracker states are counters; adding
delayed messages increments, adding batches from state 1 signals the
delayed-messages mismatch and otherwise lands in state s + 10. -/
def envC2 : InboxEnv Nat where
  dbGetMessageCount _ := .ok 0
  dbGetAccumulator _ _ := .error (.other 9)
  dbLookupMessagesInRange _ _ := .ok []
  siGetBatchCount _ := .ok 0
  siGetAccumulator _ _ := .error (.other 9)
  siLookupBatchesInRange _ _ := .ok []
  trGetBatchCount _ := .ok 0
  trGetBatchAcc _ _ := .error .accumulatorNotFound
  trGetBatchMetadata _ _ := .error (.other 9)
  trGetDelayedCount _ := .ok 0
  trGetDelayedAcc _ _ := .error (.other 9)
  trGetDelayedMessage _ _ := .error (.other 9)
  trReorgDelayedTo s _ := .ok s
  trReorgBatchesTo s _ := .ok s
  trAddDelayedMessages s _ := .ok (s + 1)
  trAddSequencerBatches s _ :=
    if s == 1 then .error .delayedMessagesMismatch else .ok (s + 10)

/-- Initial state of the C2 witness with tracker state 5. -/
def stC2 : PassSt Nat := ⟨0, 0, maxUint64, 5, ⟨0, 0, 0, false⟩, []⟩

/-- Environment of the C6 witness: tracker states are poll indices; the
batch count turns positive from state 1 on, and delayed message 0 parses
to chain id 5. -/
def envC6 : InboxEnv Nat where
  dbGetMessageCount _ := .ok 0
  dbGetAccumulator _ _ := .error (.other 9)
  dbLookupMessagesInRange _ _ := .ok []
  siGetBatchCount _ := .ok 0
  siGetAccumulator _ _ := .error (.other 9)
  siLookupBatchesInRange _ _ := .ok []
  trGetBatchCount s := if s == 0 then .ok 0 else .ok 1
  trGetBatchAcc _ _ := .error .accumulatorNotFound
  trGetBatchMetadata _ _ := .error (.other 9)
  trGetDelayedCount _ := .ok 0
  trGetDelayedAcc _ _ := .error (.other 9)
  trGetDelayedMessage _ n :=
    if n == 0 then .ok ⟨⟨.ok 0, 0⟩, 0, .ok 5⟩ else .error (.other 9)
  trReorgDelayedTo s _ := .ok s
  trReorgBatchesTo s _ := .ok s
  trAddDelayedMessages s _ := .ok s
  trAddSequencerBatches s _ := .ok s

/-- Environment of the C6 timeout witness: the batch count never turns
positive. -/
def envC6stuck : InboxEnv Nat where
  dbGetMessageCount _ := .ok 0
  dbGetAccumulator _ _ := .error (.other 9)
  dbLookupMessagesInRange _ _ := .ok []
  siGetBatchCount _ := .ok 0
  siGetAccumulator _ _ := .error (.other 9)
  siLookupBatchesInRange _ _ := .ok []
  trGetBatchCount _ := .ok 0
  trGetBatchAcc _ _ := .error .accumulatorNotFound
  trGetBatchMetadata _ _ := .error (.other 9)
  trGetDelayedCount _ := .ok 0
  trGetDelayedAcc _ _ := .error (.other 9)
  trGetDelayedMessage _ _ := .error (.other 9)
  trReorgDelayedTo s _ := .ok s
  trReorgBatchesTo s _ := .ok s
  trAddDelayedMessages s _ := .ok s
  trAddSequencerBatches s _ := .ok s

/-- Environment of the C7 amended-claim witness: the chain and the tracker
agree on a single batch at every height, the batch counts are constant in
the queried height and the range lookups are empty, so every pass takes
the no-work path and republishes the advancing height. -/
def envC7w : InboxEnv Unit where
  dbGetMessageCount _ := .ok 0
  dbGetAccumulator _ _ := .error (.other 9)
  dbLookupMessagesInRange _ _ := .ok []
  siGetBatchCount _ := .ok 1
  siGetAccumulator _ _ := .ok 7
  siLookupBatchesInRange _ _ := .ok []
  trGetBatchCount _ := .ok 1
  trGetBatchAcc _ _ := .ok 7
  trGetBatchMetadata _ _ := .error (.other 9)
  trGetDelayedCount _ := .ok 0
  trGetDelayedAcc _ _ := .error (.other 9)
  trGetDelayedMessage _ _ := .error (.other 9)
  trReorgDelayedTo s _ := .ok s
  trReorgBatchesTo s _ := .ok s
  trAddDelayedMessages s _ := .ok s
  trAddSequencerBatches _ _ := .error (.other 9)

/-- Initial state of the C7 witness. -/
def stC7w : PassSt Unit := ⟨0, 0, maxUint64, (), ⟨0, 0, 0, false⟩, []⟩

/-- Environment of the C10 witness, clean half: tracker and chain always
agree, so the probe never raises a flag. -/
def envC10 : InboxEnv Unit where
  dbGetMessageCount _ := .ok 0
  dbGetAccumulator _ _ := .error (.other 9)
  dbLookupMessagesInRange _ _ := .ok []
  siGetBatchCount _ := .ok 0
  siGetAccumulator _ _ := .error (.other 9)
  siLookupBatchesInRange _ _ := .ok []
  trGetBatchCount _ := .ok 0
  trGetBatchAcc _ _ := .error .accumulatorNotFound
  trGetBatchMetadata _ _ := .error (.other 9)
  trGetDelayedCount _ := .ok 0
  trGetDelayedAcc _ _ := .error (.other 9)
  trGetDelayedMessage _ _ := .error (.other 9)
  trReorgDelayedTo s _ := .ok s
  trReorgBatchesTo s _ := .ok s
  trAddDelayedMessages s _ := .ok s
  trAddSequencerBatches s _ := .ok s

/-- Environment of the C10 witness, signalling half: the tracker is behind
one chain batch, so a scan runs, reaches the height and sends the
caught-up signal. -/
def envC10sig : InboxEnv Unit where
  dbGetMessageCount _ := .ok 0
  dbGetAccumulator _ _ := .error (.other 9)
  dbLookupMessagesInRange _ _ := .ok []
  siGetBatchCount _ := .ok 5
  siGetAccumulator _ _ := .error (.other 9)
  siLookupBatchesInRange _ _ := .ok [⟨4, 7, 8, .ok []⟩]
  trGetBatchCount _ := .ok 0
  trGetBatchAcc _ n := if n = 3 then .ok 7 else .error .accumulatorNotFound
  trGetBatchMetadata _ _ := .error (.other 9)
  trGetDelayedCount _ := .ok 0
  trGetDelayedAcc _ _ := .error (.other 9)
  trGetDelayedMessage _ _ := .error (.other 9)
  trReorgDelayedTo s _ := .ok s
  trReorgBatchesTo s _ := .ok s
  trAddDelayedMessages s _ := .ok s
  trAddSequencerBatches s _ := .ok s

/-- Initial state of the C10 witness. -/
def stC10 : PassSt Unit := ⟨0, 0, maxUint64, (), ⟨0, 0, 0, false⟩, []⟩

end ConcreteEnvs


/-- C4: for every block from, if from > first_message_block the Reorg
Walker returns max(from - 10, first_message_block); if
from ≤ first_message_block it fails with the cannot-look-further-back
error. -/
theorem c4_reorg_walker_spec (firstMessageBlock fromBlock : Int) :
    (fromBlock ≤ firstMessageBlock →
      getPrevBlockForReorg firstMessageBlock fromBlock = .error .cantGetOlderMessages) ∧
    (firstMessageBlock < fromBlock →
      getPrevBlockForReorg firstMessageBlock fromBlock =
        .ok (max (fromBlock - 10) firstMessageBlock)) := by
  constructor
  · intro h
    simp [getPrevBlockForReorg, h]
  · intro h
    rw [getPrevBlockForReorg, if_neg (by omega)]
    by_cases h10 : fromBlock - 10 < firstMessageBlock
    · simp only [h10, if_true]
      congr 1
      omega
    · simp only [h10, if_false]
      congr 1
      omega

/-- Witness for C4 at concrete inputs: a as-stated application on both
sides of the floor. -/
theorem c4_reorg_walker_witness :
    getPrevBlockForReorg 5 20 = .ok (max (20 - 10) 5) ∧
    getPrevBlockForReorg 5 3 = .error .cantGetOlderMessages :=
  ⟨(c4_reorg_walker_spec 5 20).2 (by norm_num),
   (c4_reorg_walker_spec 5 3).1 (by norm_num)⟩

/-- C5: the next-start-block helper returns first_message_block when the
tracker holds no delayed messages, and otherwise the block number of the
last stored delayed message floored at first_message_block. -/
theorem c5_next_start_block_spec {σ : Type} (env : InboxEnv σ)
    (firstMessageBlock : Int) (tr : σ) :
    (env.trGetDelayedCount tr = .ok 0 →
      getNextBlockToRead env firstMessageBlock tr = .ok firstMessageBlock) ∧
    (∀ n msg, env.trGetDelayedCount tr = .ok (n + 1) →
      env.trGetDelayedMessage tr n = .ok msg →
      getNextBlockToRead env firstMessageBlock tr =
        .ok (max (msg.header.blockNumber : Int) firstMessageBlock)) := by
  constructor
  · intro h
    simp [getNextBlockToRead, h]
  · intro n msg h1 h2
    rw [getNextBlockToRead, h1]
    simp only [Nat.succ_ne_zero, if_false, Nat.add_sub_cancel, h2]
    by_cases hb : (msg.header.blockNumber : Int) < firstMessageBlock
    · simp only [hb, if_true]
      congr 1
      omega
    · simp only [hb, if_false]
      congr 1
      omega

/-- Witness for C5: a two-message tracker whose last message sits above the
first message block, and an empty tracker. -/
theorem c5_next_start_block_witness :
    getNextBlockToRead envC5 3 true = .ok (max (9 : Int) 3) ∧
    getNextBlockToRead envC5 3 false = .ok 3 :=
  ⟨(c5_next_start_block_spec envC5 3 true).2 1 ⟨⟨.ok 1, 9⟩, 0, .error (.other 0)⟩
      (by decide) (by decide),
   (c5_next_start_block_spec envC5 3 false).1 (by decide)⟩

/-- A scan that matches nothing returns none. -/
theorem findBatchBySeqNum_eq_none (seqNum : Nat) (bs : List SequencerInboxBatch)
    (h : ∀ b ∈ bs, b.sequenceNumber ≠ seqNum) : findBatchBySeqNum seqNum bs = none := by
  induction bs with
  | nil => rfl
  | cons x rest ih =>
    rw [findBatchBySeqNum, if_neg (h x (List.mem_cons_self x rest))]
    exact ih fun b hb => h b (List.mem_cons_of_mem x hb)

/-- A successful scan returns a member with the wanted sequence number. -/
theorem findBatchBySeqNum_some (seqNum : Nat) (bs : List SequencerInboxBatch)
    (b : SequencerInboxBatch) (h : findBatchBySeqNum seqNum bs = some b) :
    b.sequenceNumber = seqNum ∧ b ∈ bs := by
  induction bs with
  | nil => exact absurd h (by simp [findBatchBySeqNum])
  | cons x rest ih =>
    rw [findBatchBySeqNum] at h
    by_cases hx : x.sequenceNumber = seqNum
    · rw [if_pos hx] at h
      injection h with h
      subst h
      exact ⟨hx, List.mem_cons_self x rest⟩
    · rw [if_neg hx] at h
      obtain ⟨h1, h2⟩ := ih h
      exact ⟨h1, List.mem_cons_of_mem x h2⟩

/-- C8: GetSequencerMessageBytes looks up the batch metadata, range-queries
the Sequencer Inbox exactly at the metadata block, returns the serialized
bytes of the returned entry whose sequence_number equals seq_num, and
fails with the not-found error when no returned entry matches. -/
theorem c8_get_sequencer_message_bytes_spec {σ : Type} (env : InboxEnv σ) (tr : σ)
    (seqNum : Nat) (md : BatchMetadata) (bs : List SequencerInboxBatch)
    (hmd : env.trGetBatchMetadata tr seqNum = .ok md)
    (hlk : env.siLookupBatchesInRange (md.l1Block : Int) (md.l1Block : Int) = .ok bs) :
    ((∀ b ∈ bs, b.sequenceNumber ≠ seqNum) →
      GetSequencerMessageBytes env tr seqNum = .error .sequencerBatchNotFound) ∧
    (∀ b, findBatchBySeqNum seqNum bs = some b →
      b.sequenceNumber = seqNum ∧ b ∈ bs ∧
      GetSequencerMessageBytes env tr seqNum = b.serialize) := by
  constructor
  · intro h
    simp only [GetSequencerMessageBytes, hmd, hlk, findBatchBySeqNum_eq_none seqNum bs h]
  · intro b hb
    obtain ⟨h1, h2⟩ := findBatchBySeqNum_some seqNum bs b hb
    exact ⟨h1, h2, by simp only [GetSequencerMessageBytes, hmd, hlk, hb]⟩

/-- Witness for C8: a concrete metadata block and a batch list holding the
wanted sequence number, plus a list not holding it. -/
theorem c8_get_sequencer_message_bytes_witness :
    GetSequencerMessageBytes envC8 true 7 = .ok [3, 4] ∧
    GetSequencerMessageBytes envC8 false 7 = .error .sequencerBatchNotFound :=
  ⟨((c8_get_sequencer_message_bytes_spec envC8 true 7 ⟨42⟩ [⟨7, 1, 2, .ok [3, 4]⟩]
      (by decide) (by decide)).2 ⟨7, 1, 2, .ok [3, 4]⟩ (by decide)).2.2,
   (c8_get_sequencer_message_bytes_spec envC8 false 7 ⟨41⟩ [⟨6, 1, 2, .ok [3, 4]⟩]
      (by decide) (by decide)).1 (by decide)⟩

/-- storeSeenBatchCount leaves the read counters, the caught-up flag and
the loop variables untouched. -/
theorem storeSeen_preserves {σ : Type} (st : PassSt σ) :
    (storeSeenBatchCount st).pub.lastReadBlock = st.pub.lastReadBlock ∧
    (storeSeenBatchCount st).pub.lastReadBatchCount = st.pub.lastReadBatchCount ∧
    (storeSeenBatchCount st).pub.caughtUp = st.pub.caughtUp ∧
    (storeSeenBatchCount st).fromBlock = st.fromBlock ∧
    (storeSeenBatchCount st).tracker = st.tracker ∧
    (storeSeenBatchCount st).seenBatchCount = st.seenBatchCount := by
  rw [storeSeenBatchCount]
  split <;> exact ⟨rfl, rfl, rfl, rfl, rfl, rfl⟩

/-- C9: a genesis-position first entry skips the before-accumulator
chaining verification entirely: with sequence number 0 (batches) or header
seq num 0 (delayed), a successful analysis step always reports the
reorging flag cleared, whatever the tracker answers, so such an entry can
never raise reorging_sequencer or reorging_delayed through the first-entry
chaining check. -/
theorem c9_genesis_skips_chaining_check {σ : Type} (env : InboxEnv σ) (tr : σ)
    (mS rS mD rD : Bool) (toBlock currentHeight : Int)
    (b : SequencerInboxBatch) (bs : List SequencerInboxBatch)
    (m : DelayedInboxMessage) (ms : List DelayedInboxMessage) :
    (b.sequenceNumber = 0 →
      ∀ out, analyzeSequencer env tr mS rS toBlock currentHeight (b :: bs) = .ok out →
        out.1 = false ∧ out.2.1 = false) ∧
    (m.header.seqNum = .ok 0 →
      ∀ out, analyzeDelayed env tr mD rD toBlock currentHeight (m :: ms) = .ok out →
        out.1 = false ∧ out.2 = false) := by
  constructor
  · intro h0 out hout
    simp only [analyzeSequencer, h0, lt_self_iff_false, if_false] at hout
    cases hsk : skipKnownBatches env tr (b :: bs) with
    | error e => rw [hsk] at hout; cases hout
    | ok trimmed =>
      rw [hsk] at hout
      injection hout with hout
      rw [← hout]
      exact ⟨rfl, rfl⟩
  · intro h0 out hout
    simp only [analyzeDelayed, h0, lt_self_iff_false, if_false] at hout
    injection hout with hout
    rw [← hout]
    exact ⟨rfl, rfl⟩

/-- Witness for C9: a genesis batch whose stored accumulator disagrees with
the tracker still clears both flags. -/
theorem c9_genesis_witness :
    ∃ out, analyzeSequencer envC9 () true true 5 9 [⟨0, 5, 6, .ok []⟩] = .ok out ∧
      out.1 = false ∧ out.2.1 = false :=
  ⟨(false, false, [⟨0, 5, 6, .ok []⟩]), by decide,
    (c9_genesis_skips_chaining_check envC9 () true true true true 5 9
      ⟨0, 5, 6, .ok []⟩ [] ⟨⟨.ok 0, 0⟩, 0, .error (.other 0)⟩ []).1 rfl
      (false, false, [⟨0, 5, 6, .ok []⟩]) (by decide)⟩

/-- C2: when applying a fetched bundle the delayed messages are persisted
first and the batches are added to the tracker state that results; a
delayed-messages-mismatch from the tracker is converted into the
reorging_delayed signal, not an error; and a mismatch-free apply with at
least one batch publishes lastReadBlock = to and lastReadBatchCount = the
last applied batch sequence number + 1. -/
theorem c2_apply_bundle_spec {σ : Type} (env : InboxEnv σ) (st : PassSt σ) (toBlock : Int)
    (msgs : List DelayedInboxMessage) (batches : List SequencerInboxBatch) (ra : Bool) :
    (∀ e, env.trAddDelayedMessages st.tracker msgs = .error e →
      addMessages env st.tracker batches msgs = .error e) ∧
    (∀ tr1, env.trAddDelayedMessages st.tracker msgs = .ok tr1 →
      env.trAddSequencerBatches tr1 batches = .error .delayedMessagesMismatch →
      addMessages env st.tracker batches msgs = .ok (true, tr1)) ∧
    (∀ tr1 tr2, env.trAddDelayedMessages st.tracker msgs = .ok tr1 →
      env.trAddSequencerBatches tr1 batches = .ok tr2 →
      addMessages env st.tracker batches msgs = .ok (false, tr2)) ∧
    (∀ tr1, (msgs ≠ [] ∨ batches ≠ []) →
      addMessages env st.tracker batches msgs = .ok (true, tr1) →
      ∃ ra2 st2, applyAndPublish env toBlock false false msgs batches ra st =
        .ok (true, ra2) st2) ∧
    (∀ tr1 b bs, batches = b :: bs →
      addMessages env st.tracker batches msgs = .ok (false, tr1) →
      ∃ st2, applyAndPublish env toBlock false false msgs batches ra st =
          .ok (false, true) st2 ∧
        st2.pub.lastReadBlock = toUint64 toBlock ∧
        st2.pub.lastReadBatchCount = (batches.getLastD default).sequenceNumber + 1) := by
  refine ⟨?_, ?_, ?_, ?_, ?_⟩
  · intro e h
    simp only [addMessages, h]
  · intro tr1 h1 h2
    simp only [addMessages, h1, h2]
  · intro tr1 tr2 h1 h2
    simp only [addMessages, h1, h2]
  · intro tr1 hne hadd
    have hcond : (!msgs.isEmpty || !batches.isEmpty) = true := by
      rcases hne with h | h <;> cases msgs <;> cases batches <;> simp_all
    rw [applyAndPublish]
    simp only [Bool.not_false, Bool.true_and, hcond, if_true, hadd]
    cases hbe : batches.isEmpty
    · simp only [Bool.false_eq_true, if_false]
      exact ⟨true, _, rfl⟩
    · simp only [if_true]
      exact ⟨ra, _, rfl⟩
  · intro tr1 b bs hb hadd
    subst hb
    rw [applyAndPublish]
    simp only [Bool.not_false, Bool.true_and, List.isEmpty_cons, Bool.not_false,
      Bool.or_true, if_true, hadd, Bool.false_eq_true, if_false]
    refine ⟨_, rfl, ?_, ?_⟩
    · exact ((storeSeen_preserves _).1).trans rfl
    · exact ((storeSeen_preserves _).2.1).trans rfl

/-- Witness for C2: a tracker that signals a mismatch from state 1 and
accepts from state 6, applied to a single batch with sequence number 3. -/
theorem c2_apply_bundle_witness :
    addMessages envC2 0 [⟨3, 0, 1, .ok []⟩] [] = .ok (true, 1) ∧
    (∃ st2, applyAndPublish envC2 5 false false [] [⟨3, 0, 1, .ok []⟩] false stC2 =
        .ok (false, true) st2 ∧
      st2.pub.lastReadBlock = toUint64 5 ∧
      st2.pub.lastReadBatchCount =
        (([⟨3, 0, 1, .ok []⟩] : List SequencerInboxBatch).getLastD default).sequenceNumber + 1) :=
  ⟨(c2_apply_bundle_spec envC2 ⟨0, 0, 0, 0, ⟨0, 0, 0, false⟩, []⟩ 5 [] [⟨3, 0, 1, .ok []⟩]
      false).2.1 1 (by decide) (by decide),
   (c2_apply_bundle_spec envC2 stC2 5 [] [⟨3, 0, 1, .ok []⟩] false).2.2.2.2 16
      ⟨3, 0, 1, .ok []⟩ [] rfl (by decide)⟩

/-- A poll that reads batch count zero keeps the gate polling. -/
theorem startPollOnce_zero {σ : Type} (env : InboxEnv σ) (tr : σ) (cid : Int)
    (h : env.trGetBatchCount tr = .ok 0) : startPollOnce env tr cid = none := by
  simp [startPollOnce, h]

/-- A poll that reads a positive batch count decides the gate by the parsed
init chain id. -/
theorem startPollOnce_pos {σ : Type} (env : InboxEnv σ) (tr : σ) (cid : Int)
    (c : Nat) (msg : DelayedInboxMessage) (initId : Int)
    (hc : env.trGetBatchCount tr = .ok c) (hpos : 0 < c)
    (hmsg : env.trGetDelayedMessage tr 0 = .ok msg)
    (hinit : msg.initChainId = .ok initId) :
    startPollOnce env tr cid =
      some (if initId ≠ cid then .chainIdMismatch cid initId else .ok) := by
  simp only [startPollOnce, hc, hpos, if_true, hmsg, hinit]

/-- A run of polls that all read batch count zero exhausts the budget. -/
theorem startPollLoop_stuck {σ : Type} (env : InboxEnv σ) (trackerAt : Nat → σ)
    (cid : Int) :
    ∀ r i, (∀ k, k ≤ r → env.trGetBatchCount (trackerAt (i + k)) = .ok 0) →
      startPollLoop env trackerAt cid i r = .failedToReadInitMessage := by
  intro r
  induction r with
  | zero =>
    intro i h
    have h0 := h 0 (Nat.le_refl 0)
    rw [Nat.add_zero] at h0
    simp [startPollLoop, startPollOnce_zero env (trackerAt i) cid h0]
  | succ r ih =>
    intro i h
    have h0 := h 0 (Nat.zero_le _)
    rw [Nat.add_zero] at h0
    simp only [startPollLoop, startPollOnce_zero env (trackerAt i) cid h0]
    exact ih (i + 1) fun k hk => by
      have hh := h (k + 1) (by omega)
      rwa [show i + (k + 1) = i + 1 + k by omega] at hh

/-- The first poll with a positive batch count decides the bootstrap gate. -/
theorem startPollLoop_found {σ : Type} (env : InboxEnv σ) (trackerAt : Nat → σ)
    (cid : Int) :
    ∀ j r i, j ≤ r →
      (∀ k, k < j → env.trGetBatchCount (trackerAt (i + k)) = .ok 0) →
      ∀ c, env.trGetBatchCount (trackerAt (i + j)) = .ok c → 0 < c →
      ∀ msg, env.trGetDelayedMessage (trackerAt (i + j)) 0 = .ok msg →
      ∀ initId, msg.initChainId = .ok initId →
      startPollLoop env trackerAt cid i r =
        if initId ≠ cid then .chainIdMismatch cid initId else .ok := by
  intro j
  induction j with
  | zero =>
    intro r i _ _ c hc hpos msg hmsg initId hinit
    rw [Nat.add_zero] at hc hmsg
    have hone := startPollOnce_pos env (trackerAt i) cid c msg initId hc hpos hmsg hinit
    cases r with
    | zero => simp [startPollLoop, hone]
    | succ r2 => simp [startPollLoop, hone]
  | succ j ih =>
    intro r i hjr hbefore c hc hpos msg hmsg initId hinit
    have h0 := hbefore 0 (Nat.succ_pos j)
    rw [Nat.add_zero] at h0
    cases r with
    | zero => omega
    | succ r2 =>
      simp only [startPollLoop, startPollOnce_zero env (trackerAt i) cid h0]
      exact ih r2 (i + 1) (by omega)
        (fun k hk => by
          have hh := hbefore (k + 1) (by omega)
          rwa [show i + (k + 1) = i + 1 + k by omega] at hh)
        c (by rwa [show i + (j + 1) = i + 1 + j by omega] at hc) hpos
        msg (by rwa [show i + (j + 1) = i + 1 + j by omega] at hmsg) initId hinit

/-- C6: Start returns an error naming both chain ids when the init message
parses to a different chain id, "failed to read init message" when the
batch count never turns positive within the 300-poll budget, and success
when the count turns positive and the parsed chain id matches. -/
theorem c6_start_spec {σ : Type} (env : InboxEnv σ) (trackerAt : Nat → σ)
    (configChainId : Int) :
    ((∀ i, i ≤ 300 → env.trGetBatchCount (trackerAt i) = .ok 0) →
      Start env trackerAt configChainId = .failedToReadInitMessage) ∧
    (∀ j c msg initId, j ≤ 300 →
      (∀ i, i < j → env.trGetBatchCount (trackerAt i) = .ok 0) →
      env.trGetBatchCount (trackerAt j) = .ok c → 0 < c →
      env.trGetDelayedMessage (trackerAt j) 0 = .ok msg →
      msg.initChainId = .ok initId →
      ((initId ≠ configChainId →
        Start env trackerAt configChainId = .chainIdMismatch configChainId initId) ∧
       (initId = configChainId → Start env trackerAt configChainId = .ok))) := by
  constructor
  · intro h
    exact startPollLoop_stuck env trackerAt configChainId 300 0
      fun k hk => by rw [Nat.zero_add]; exact h k hk
  · intro j c msg initId hj hbefore hc hpos hmsg hinit
    have key := startPollLoop_found env trackerAt configChainId j 300 0 hj
      (fun k hk => by rw [Nat.zero_add]; exact hbefore k hk)
      c (by rw [Nat.zero_add]; exact hc) hpos
      msg (by rw [Nat.zero_add]; exact hmsg) initId hinit
    constructor
    · intro hne
      rw [Start, key, if_pos hne]
    · intro heq
      rw [Start, key, if_neg fun hne => hne heq]

/-- Witness for C6: a tracker populated from poll 1 on, with init chain id
5; Start succeeds against config 5, mismatches against config 4 naming
both ids, and a never-populated tracker runs out the budget. -/
theorem c6_start_witness :
    Start envC6 id 5 = .ok ∧
    Start envC6 id 4 = .chainIdMismatch 4 5 ∧
    Start envC6stuck id 7 = .failedToReadInitMessage :=
  ⟨((c6_start_spec envC6 id 5).2 1 1 ⟨⟨.ok 0, 0⟩, 0, .ok 5⟩ 5 (by norm_num)
      (fun i hi => by
        have hz : i = 0 := by omega
        subst hz
        decide)
      (by decide) (by decide) (by decide) (by decide)).2 rfl,
   ((c6_start_spec envC6 id 4).2 1 1 ⟨⟨.ok 0, 0⟩, 0, .ok 5⟩ 5 (by norm_num)
      (fun i hi => by
        have hz : i = 0 := by omega
        subst hz
        decide)
      (by decide) (by decide) (by decide) (by decide)).1 (by decide),
   (c6_start_spec envC6stuck id 7).1 fun i _ => rfl⟩

/-- An event of a state extended by one logged query is an old event or
that query. -/
theorem mem_logQuery {σ : Type} (b : Int) (st : PassSt σ) (e : REvent)
    (he : e ∈ (logQuery b st).events) : e ∈ st.events ∨ e = .queryBlock b := by
  simpa only [logQuery, List.mem_append, List.mem_singleton] using he

/-- The count-adjust step keeps every pass field except possibly the
tracker, and never raises the checking count above the chain count. -/
theorem probeCountAdjust_facts {σ : Type} (reorgTo : σ → Nat → Except InboxErr σ)
    (hardReorg : Bool) (c0 our : Nat) (st : PassSt σ) :
    (probeCountAdjust reorgTo hardReorg c0 our st).state.pub = st.pub ∧
    (probeCountAdjust reorgTo hardReorg c0 our st).state.fromBlock = st.fromBlock ∧
    (probeCountAdjust reorgTo hardReorg c0 our st).state.seenBatchCount =
      st.seenBatchCount ∧
    (probeCountAdjust reorgTo hardReorg c0 our st).state.seenBatchCountStored =
      st.seenBatchCountStored ∧
    (probeCountAdjust reorgTo hardReorg c0 our st).state.events = st.events ∧
    (∀ a st', probeCountAdjust reorgTo hardReorg c0 our st = .ok a st' → a.1 ≤ c0) := by
  rw [probeCountAdjust]
  by_cases h1 : our < c0
  · rw [if_pos h1]
    refine ⟨rfl, rfl, rfl, rfl, rfl, fun a st' h => ?_⟩
    injection h with ha _
    rw [← ha]
    exact Nat.le_of_lt h1
  · rw [if_neg h1]
    by_cases h2 : c0 < our
    · rw [if_pos h2]
      cases hardReorg with
      | false =>
        refine ⟨rfl, rfl, rfl, rfl, rfl, fun a st' h => ?_⟩
        injection h with ha _
        rw [← ha]
      | true =>
        cases hr : reorgTo st.tracker c0 with
        | error e =>
          simp only [if_true, hr]
          exact ⟨rfl, rfl, rfl, rfl, rfl, fun a st' h => PRes.noConfusion h⟩
        | ok tr1 =>
          simp only [if_true, hr]
          refine ⟨rfl, rfl, rfl, rfl, rfl, fun a st' h => ?_⟩
          injection h with ha _
          rw [← ha]
    · rw [if_neg h2]
      refine ⟨rfl, rfl, rfl, rfl, rfl, fun a st' h => ?_⟩
      injection h with ha _
      rw [← ha]

/-- The delayed probe never touches the published counters, the from
block, or the seen-count bookkeeping, and only logs queries at the current
height. -/
theorem probeDelayedCore_facts {σ : Type} (env : InboxEnv σ) (cfg : InboxReaderConfig)
    (ch : Int) (st : PassSt σ) :
    ∀ x, probeDelayedCore env cfg ch st = x →
      x.state.pub = st.pub ∧
      x.state.fromBlock = st.fromBlock ∧
      x.state.seenBatchCount = st.seenBatchCount ∧
      x.state.seenBatchCountStored = st.seenBatchCountStored ∧
      (∀ e ∈ x.state.events, e ∈ st.events ∨ e = .queryBlock ch) := by
  intro x hx
  rw [probeDelayedCore] at hx
  cases hmc : env.dbGetMessageCount ch with
  | error e =>
    rw [hmc] at hx
    subst hx
    exact ⟨rfl, rfl, rfl, rfl, fun e he => mem_logQuery ch st e he⟩
  | ok c0 =>
    rw [hmc] at hx
    dsimp only [] at hx
    cases hdc : env.trGetDelayedCount (logQuery ch st).tracker with
    | error e =>
      rw [hdc] at hx
      subst hx
      exact ⟨rfl, rfl, rfl, rfl, fun e he => mem_logQuery ch st e he⟩
    | ok our =>
      rw [hdc] at hx
      dsimp only [] at hx
      have hf := probeCountAdjust_facts env.trReorgDelayedTo cfg.hardReorg c0 our
        (logQuery ch st)
      cases hadj : probeCountAdjust env.trReorgDelayedTo cfg.hardReorg c0 our
          (logQuery ch st) with
      | fail e st1 =>
        rw [hadj] at hx hf
        subst hx
        refine ⟨hf.1, hf.2.1, hf.2.2.1, hf.2.2.2.1, fun e he => ?_⟩
        exact mem_logQuery ch st e (hf.2.2.2.2.1 ▸ he)
      | ok a st1 =>
        obtain ⟨c, m⟩ := a
        rw [hadj] at hx hf
        dsimp only [] at hx
        have hmem : ∀ e ∈ st1.events, e ∈ st.events ∨ e = REvent.queryBlock ch :=
          fun e he => mem_logQuery ch st e (hf.2.2.2.2.1 ▸ he)
        by_cases hc : 0 < c
        · rw [if_pos hc] at hx
          try dsimp only [] at hx
          have hstep : ∀ st2 : PassSt σ,
              st2.pub = st1.pub → st2.fromBlock = st1.fromBlock →
              st2.seenBatchCount = st1.seenBatchCount →
              st2.seenBatchCountStored = st1.seenBatchCountStored →
              (∀ e ∈ st2.events, e ∈ st1.events ∨ e = REvent.queryBlock ch) →
              st2.pub = st.pub ∧ st2.fromBlock = st.fromBlock ∧
              st2.seenBatchCount = st.seenBatchCount ∧
              st2.seenBatchCountStored = st.seenBatchCountStored ∧
              (∀ e ∈ st2.events, e ∈ st.events ∨ e = REvent.queryBlock ch) := by
            intro st2 a1 a2 a3 a4 a5
            refine ⟨a1.trans hf.1, a2.trans hf.2.1, a3.trans hf.2.2.1,
              a4.trans hf.2.2.2.1, fun e he => ?_⟩
            rcases a5 e he with he2 | he2
            · exact hmem e he2
            · exact Or.inr he2
          cases hacc : env.dbGetAccumulator (c - 1) ch with
          | error e =>
            rw [hacc] at hx
            subst hx
            exact hstep _ rfl rfl rfl rfl (fun e he => mem_logQuery ch st1 e he)
          | ok l1Acc =>
            rw [hacc] at hx
            dsimp only [] at hx
            cases hdb : env.trGetDelayedAcc (logQuery ch st1).tracker (c - 1) with
            | error e =>
              rw [hdb] at hx
              subst hx
              exact hstep _ rfl rfl rfl rfl (fun e he => mem_logQuery ch st1 e he)
            | ok dbAcc =>
              rw [hdb] at hx
              subst hx
              exact hstep _ rfl rfl rfl rfl (fun e he => mem_logQuery ch st1 e he)
        · rw [if_neg hc] at hx
          subst hx
          refine ⟨hf.1, hf.2.1, hf.2.2.1, hf.2.2.2.1, hmem⟩

/-- The sequencer probe never touches the published counters, the from
block, or the stored-seen sentinel; it logs queries only at the current
height; and a successful probe returns a checking count bounded by the
run-local seen count assigned to the result state. -/
theorem probeSequencerCore_facts {σ : Type} (env : InboxEnv σ) (cfg : InboxReaderConfig)
    (ch : Int) (st : PassSt σ) :
    ∀ x, probeSequencerCore env cfg ch st = x →
      x.state.pub = st.pub ∧
      x.state.fromBlock = st.fromBlock ∧
      x.state.seenBatchCountStored = st.seenBatchCountStored ∧
      (∀ e ∈ x.state.events, e ∈ st.events ∨ e = .queryBlock ch) ∧
      (∀ a st', x = .ok a st' → a.2.2 ≤ st'.seenBatchCount) := by
  intro x hx
  rw [probeSequencerCore] at hx
  cases hbc : env.siGetBatchCount ch with
  | error e =>
    rw [hbc] at hx
    subst hx
    exact ⟨rfl, rfl, rfl, fun e he => mem_logQuery ch st e he,
      fun a st' h => PRes.noConfusion h⟩
  | ok n =>
    rw [hbc] at hx
    dsimp only [] at hx
    cases htc : env.trGetBatchCount (setSeenCount n (logQuery ch st)).tracker with
    | error e =>
      rw [htc] at hx
      subst hx
      exact ⟨rfl, rfl, rfl, fun e he => mem_logQuery ch st e he,
        fun a st' h => PRes.noConfusion h⟩
    | ok our =>
      rw [htc] at hx
      dsimp only [] at hx
      have hf := probeCountAdjust_facts env.trReorgBatchesTo cfg.hardReorg n our
        (setSeenCount n (logQuery ch st))
      cases hadj : probeCountAdjust env.trReorgBatchesTo cfg.hardReorg n our
          (setSeenCount n (logQuery ch st)) with
      | fail e st1 =>
        rw [hadj] at hx hf
        subst hx
        refine ⟨hf.1, hf.2.1, hf.2.2.2.1, fun e he => ?_,
          fun a st' h => PRes.noConfusion h⟩
        exact mem_logQuery ch st e (hf.2.2.2.2.1 ▸ he)
      | ok a st1 =>
        obtain ⟨c, m⟩ := a
        rw [hadj] at hx hf
        dsimp only [] at hx
        have hmem : ∀ e ∈ st1.events, e ∈ st.events ∨ e = REvent.queryBlock ch :=
          fun e he => mem_logQuery ch st e (hf.2.2.2.2.1 ▸ he)
        have hseen1 : st1.seenBatchCount = n := hf.2.2.1
        have hle : c ≤ n := hf.2.2.2.2.2 (c, m) st1 rfl
        by_cases hc : 0 < c
        · rw [if_pos hc] at hx
          try dsimp only [] at hx
          have hstep : ∀ e ∈ (logQuery ch st1).events,
              e ∈ st.events ∨ e = REvent.queryBlock ch := by
            intro e he
            rcases mem_logQuery ch st1 e he with he2 | he2
            · exact hmem e he2
            · exact Or.inr he2
          cases hacc : env.siGetAccumulator (c - 1) ch with
          | error e =>
            rw [hacc] at hx
            subst hx
            exact ⟨hf.1, hf.2.1, hf.2.2.2.1, hstep, fun a st' h => PRes.noConfusion h⟩
          | ok l1Acc =>
            rw [hacc] at hx
            dsimp only [] at hx
            cases hdb : env.trGetBatchAcc (logQuery ch st1).tracker (c - 1) with
            | error e =>
              rw [hdb] at hx
              subst hx
              exact ⟨hf.1, hf.2.1, hf.2.2.2.1, hstep, fun a st' h => PRes.noConfusion h⟩
            | ok dbAcc =>
              rw [hdb] at hx
              subst hx
              refine ⟨hf.1, hf.2.1, hf.2.2.2.1, hstep, fun a st' h => ?_⟩
              injection h with ha hst
              subst hst
              rw [← ha]
              show c ≤ (logQuery ch st1).seenBatchCount
              show c ≤ st1.seenBatchCount
              rw [hseen1]
              exact hle
        · rw [if_neg hc] at hx
          subst hx
          refine ⟨hf.1, hf.2.1, hf.2.2.2.1, hmem, fun a st' h => ?_⟩
          injection h with ha hst
          subst hst
          rw [← ha]
          show c ≤ st1.seenBatchCount
          rw [hseen1]
          exact hle

/-- The prologue and divergence probe of a pass never touch the published
counters, the from block, or the stored-seen sentinel; every event they
add is a query at the effective pass height; and the checking count handed
to the rest of the pass is bounded by the run-local seen count. -/
theorem passProbe_facts {σ : Type} (env : InboxEnv σ) (cfg : InboxReaderConfig)
    (fmb : Int) (lh : Except InboxErr Int) (evs : List WaitEvent) (st : PassSt σ) :
    ∀ x, passProbe env cfg fmb lh evs st = x →
      x.state.pub = st.pub ∧
      x.state.fromBlock = st.fromBlock ∧
      x.state.seenBatchCountStored = st.seenBatchCountStored ∧
      (∀ e ∈ x.state.events, e ∈ st.events ∨
        ∃ ch, passHeight cfg fmb lh evs st.fromBlock = some ch ∧ e = .queryBlock ch) ∧
      (∀ ch mD rD mS rS cbc st', x = .go ch mD rD mS rS cbc st' →
        passHeight cfg fmb lh evs st.fromBlock = some ch ∧
        cbc ≤ st'.seenBatchCount) := by
  intro x hx
  rw [passProbe.eq_def] at hx
  cases lh with
  | error e =>
    subst hx
    exact ⟨rfl, rfl, rfl, fun e he => Or.inl he,
      fun ch mD rD mS rS cbc st' h => ProbeOut.noConfusion h⟩
  | ok latest =>
    dsimp only [] at hx
    cases hw : waitForHeight
        (st.fromBlock + ((cfg.delayBlocks + (cfg.minBlocksToRead - 1) : Nat) : Int))
        latest evs with
    | none =>
      rw [hw] at hx
      subst hx
      exact ⟨rfl, rfl, rfl, fun e he => Or.inl he,
        fun ch mD rD mS rS cbc st' h => ProbeOut.noConfusion h⟩
    | some hgt =>
      rw [hw] at hx
      dsimp only [] at hx
      have hph : passHeight cfg fmb (.ok latest) evs st.fromBlock =
          some (applyDelayWindow cfg fmb hgt) := by
        rw [passHeight]
        try dsimp only []
        rw [hw]
      cases hpd : probeDelayedCore env cfg (applyDelayWindow cfg fmb hgt) st with
      | fail e st1 =>
        have hf1 := probeDelayedCore_facts env cfg (applyDelayWindow cfg fmb hgt) st _ hpd
        rw [hpd] at hx
        subst hx
        refine ⟨hf1.1, hf1.2.1, hf1.2.2.2.1, fun e he => ?_,
          fun ch mD rD mS rS cbc st' h => ProbeOut.noConfusion h⟩
        rcases hf1.2.2.2.2 e he with he2 | he2
        · exact Or.inl he2
        · exact Or.inr ⟨_, hph, he2⟩
      | ok ab st1 =>
        obtain ⟨mD, rD⟩ := ab
        have hf1 := probeDelayedCore_facts env cfg (applyDelayWindow cfg fmb hgt) st _ hpd
        rw [hpd] at hx
        dsimp only [] at hx
        cases hps : probeSequencerCore env cfg (applyDelayWindow cfg fmb hgt) st1 with
        | fail e st2 =>
          have hf2 := probeSequencerCore_facts env cfg (applyDelayWindow cfg fmb hgt) st1 _ hps
          rw [hps] at hx
          subst hx
          refine ⟨hf2.1.trans hf1.1, hf2.2.1.trans hf1.2.1,
            hf2.2.2.1.trans hf1.2.2.2.1, fun e he => ?_,
            fun ch mD2 rD2 mS2 rS2 cbc st' h => ProbeOut.noConfusion h⟩
          rcases hf2.2.2.2.1 e he with he2 | he2
          · rcases hf1.2.2.2.2 e he2 with he3 | he3
            · exact Or.inl he3
            · exact Or.inr ⟨_, hph, he3⟩
          · exact Or.inr ⟨_, hph, he2⟩
        | ok abc st2 =>
          obtain ⟨mS, rS, cbc⟩ := abc
          have hf2 := probeSequencerCore_facts env cfg (applyDelayWindow cfg fmb hgt) st1 _ hps
          rw [hps] at hx
          dsimp only [] at hx
          subst hx
          refine ⟨hf2.1.trans hf1.1, hf2.2.1.trans hf1.2.1,
            hf2.2.2.1.trans hf1.2.2.2.1, fun e he => ?_,
            fun ch mD2 rD2 mS2 rS2 cbc2 st' h => ?_⟩
          · rcases hf2.2.2.2.1 e he with he2 | he2
            · rcases hf1.2.2.2.2 e he2 with he3 | he3
              · exact Or.inl he3
              · exact Or.inr ⟨_, hph, he3⟩
            · exact Or.inr ⟨_, hph, he2⟩
          · injection h with h1 h2 h3 h4 h5 h6 h7
            subst h1
            subst h6
            subst h7
            exact ⟨hph, hf2.2.2.2.2 (mS, rS, cbc) st2 rfl⟩

/-- Snapshot classifier: the event is a counter-write snapshot. -/
def REvent.isSnap : REvent → Bool
  | .snap _ _ _ => true
  | _ => false

/-- Range queries of the delayed bridge return messages whose header block
numbers lie at or below the end of the queried range (a consistency
property of the parent-chain adapter). -/
def RangeFaithful {σ : Type} (env : InboxEnv σ) : Prop :=
  ∀ f t msgs, env.dbLookupMessagesInRange f t = .ok msgs →
    ∀ m ∈ msgs, (m.header.blockNumber : Int) ≤ t

/-- Events a pass may add beyond its inherited trace, all bounded by the
effective height ch: queries at blocks ≤ ch; applied delayed messages at
blocks ≤ ch provided the delayed adapter is range-faithful; caught-up
sends exactly when the scan `to` equals ch; snapshots and reorg retreats. -/
def EventWithin {σ : Type} (env : InboxEnv σ) (ch : Int) : REvent → Prop
  | .queryBlock b => b ≤ ch
  | .appliedMsgBlock b => RangeFaithful env → b ≤ ch
  | .caughtUpSent t c => t = c ∧ c = ch
  | .snap _ _ _ => True
  | .retreatForReorg _ => True

/-- The trace cur extends base only by events within the height bound. -/
def EventsBelow {σ : Type} (env : InboxEnv σ) (ch : Int)
    (base cur : List REvent) : Prop :=
  ∀ e ∈ cur, e ∈ base ∨ EventWithin env ch e

theorem EventsBelow.base {σ : Type} (env : InboxEnv σ) (ch : Int)
    (base : List REvent) : EventsBelow env ch base base :=
  fun _ he => Or.inl he

theorem EventsBelow.trans {σ : Type} {env : InboxEnv σ} {ch : Int}
    {base mid cur : List REvent} (h1 : EventsBelow env ch base mid)
    (h2 : EventsBelow env ch mid cur) : EventsBelow env ch base cur :=
  fun e he => (h2 e he).elim (fun hm => h1 e hm) Or.inr

theorem EventsBelow.push {σ : Type} {env : InboxEnv σ} {ch : Int}
    {base cur : List REvent} {ev : REvent} (h : EventWithin env ch ev)
    (hb : EventsBelow env ch base cur) : EventsBelow env ch base (cur ++ [ev]) := by
  intro e he
  rcases List.mem_append.1 he with he2 | he2
  · exact hb e he2
  · rw [List.mem_singleton.1 he2]
    exact Or.inr h

theorem EventsBelow.pushMany {σ : Type} {env : InboxEnv σ} {ch : Int}
    {base cur add : List REvent} (h : ∀ e ∈ add, EventWithin env ch e)
    (hb : EventsBelow env ch base cur) : EventsBelow env ch base (cur ++ add) := by
  intro e he
  rcases List.mem_append.1 he with he2 | he2
  · exact hb e he2
  · exact Or.inr (h e he2)

/-- A snapshot event is within any bound. -/
theorem EventWithin.ofSnap {σ : Type} {env : InboxEnv σ} {ch : Int} {e : REvent}
    (h : e.isSnap = true) : EventWithin env ch e := by
  cases e
  all_goals trivial

/-- storeSeenBatchCount adds at most one snapshot event. -/
theorem mem_storeSeen {σ : Type} (st : PassSt σ) (e : REvent)
    (he : e ∈ (storeSeenBatchCount st).events) :
    e ∈ st.events ∨ e.isSnap = true := by
  rw [storeSeenBatchCount] at he
  split at he
  · rcases List.mem_append.1 he with he2 | he2
    · exact Or.inl he2
    · rw [List.mem_singleton.1 he2]
      exact Or.inr rfl
  · exact Or.inl he

/-- publishRead adds exactly one snapshot event. -/
theorem mem_publishRead {σ : Type} (blk cnt : Nat) (st : PassSt σ) (e : REvent)
    (he : e ∈ (publishRead blk cnt st).events) :
    e ∈ st.events ∨ e.isSnap = true := by
  rcases List.mem_append.1 he with he2 | he2
  · exact Or.inl he2
  · rw [List.mem_singleton.1 he2]
    exact Or.inr rfl

/-- The apply step adds only applied-message records (for the delayed
messages of its bundle) and snapshots, and leaves the caught-up flag, the
from block and the seen bookkeeping untouched. -/
theorem applyAndPublish_facts {σ : Type} (env : InboxEnv σ) (toBlock : Int)
    (rD rS : Bool) (msgs : List DelayedInboxMessage)
    (batches : List SequencerInboxBatch) (ra : Bool) (st : PassSt σ) :
    ∀ x, applyAndPublish env toBlock rD rS msgs batches ra st = x →
      x.state.fromBlock = st.fromBlock ∧
      x.state.pub.caughtUp = st.pub.caughtUp ∧
      x.state.seenBatchCount = st.seenBatchCount ∧
      (∀ e ∈ x.state.events, e ∈ st.events ∨
        (∃ m, m ∈ msgs ∧ e = .appliedMsgBlock (m.header.blockNumber : Int)) ∨
        e.isSnap = true) := by
  intro x hx
  rw [applyAndPublish] at hx
  split at hx
  · cases hadd : addMessages env st.tracker batches msgs with
    | error e =>
      rw [hadd] at hx
      subst hx
      exact ⟨rfl, rfl, rfl, fun e he => Or.inl he⟩
    | ok a =>
      obtain ⟨mismatch, tr1⟩ := a
      rw [hadd] at hx
      dsimp only [] at hx
      have hmid : ∀ e ∈ st.events ++
          msgs.map (fun m => REvent.appliedMsgBlock (m.header.blockNumber : Int)),
          e ∈ st.events ∨
          (∃ m, m ∈ msgs ∧ e = .appliedMsgBlock (m.header.blockNumber : Int)) ∨
          e.isSnap = true := by
        intro e he
        rcases List.mem_append.1 he with he2 | he2
        · exact Or.inl he2
        · obtain ⟨m, hm, hme⟩ := List.mem_map.1 he2
          exact Or.inr (Or.inl ⟨m, hm, hme.symm⟩)
      split at hx
      · subst hx
        exact ⟨rfl, rfl, rfl, hmid⟩
      · subst hx
        refine ⟨?_, ?_, ?_, fun e he => ?_⟩
        · exact ((storeSeen_preserves _).2.2.2.1).trans rfl
        · exact ((storeSeen_preserves _).2.2.1).trans rfl
        · exact ((storeSeen_preserves _).2.2.2.2.2).trans rfl
        · rcases mem_storeSeen _ e he with he2 | he2
          · rcases mem_publishRead _ _ _ e he2 with he3 | he3
            · exact hmid e he3
            · exact Or.inr (Or.inr he3)
          · exact Or.inr (Or.inr he2)
  · subst hx
    exact ⟨rfl, rfl, rfl, fun e he => Or.inl he⟩

/-- Every event one scan iteration adds is within the current-height
bound, provided the start block is within it and the continuation also
only adds bounded events. -/
theorem scanIter_events {σ : Type} (env : InboxEnv σ) (fmb ch : Int)
    (recurse : Bool → Bool → Bool → Bool → Bool → PassSt σ → ScanOut σ)
    (hrec : ∀ mD rD mS rS ra st x, recurse mD rD mS rS ra st = x →
      EventsBelow env ch st.events x.state.events)
    (mD rD mS rS ra : Bool) (st : PassSt σ) (hfrom : st.fromBlock ≤ ch) :
    ∀ x, scanIter env fmb ch recurse mD rD mS rS ra st = x →
      EventsBelow env ch st.events x.state.events := by
  intro x hx
  rw [scanIter] at hx
  dsimp only [] at hx
  generalize hTo : (if ch < st.fromBlock + 100 then ch else st.fromBlock + 100) = tB at hx
  have hto : tB ≤ ch := by
    rw [← hTo]
    split
    · exact le_refl ch
    · omega
  have hq2 : EventsBelow env ch st.events (logQuery tB (logQuery st.fromBlock st)).events := by
    intro e he
    rcases mem_logQuery _ _ e he with he2 | he2
    · rcases mem_logQuery _ _ e he2 with he3 | he3
      · exact Or.inl he3
      · rw [he3]
        exact Or.inr hfrom
    · rw [he2]
      exact Or.inr hto
  cases hdb : env.dbLookupMessagesInRange st.fromBlock tB with
  | error e =>
    rw [hdb] at hx
    subst hx
    exact hq2
  | ok delayedMessages =>
    rw [hdb] at hx
    dsimp only [] at hx
    cases hsb : env.siLookupBatchesInRange st.fromBlock tB with
    | error e =>
      rw [hsb] at hx
      subst hx
      exact hq2
    | ok sequencerBatches0 =>
      rw [hsb] at hx
      dsimp only [] at hx
      set st2 := logQuery tB (logQuery st.fromBlock st) with hst2
      have hcu : ∀ st3, (if !st2.pub.caughtUp && decide (tB = ch) then
            { st2 with
              pub := { st2.pub with caughtUp := true },
              events := st2.events ++ [.caughtUpSent tB ch] }
          else st2) = st3 →
          EventsBelow env ch st.events st3.events := by
        intro st3 h3
        by_cases hcond : (!st2.pub.caughtUp && decide (tB = ch)) = true
        · rw [if_pos hcond] at h3
          subst h3
          refine EventsBelow.push ?_ hq2
          have h4 : tB = ch := by
            rw [Bool.and_eq_true] at hcond
            exact of_decide_eq_true hcond.2
          exact ⟨h4, rfl⟩
        · rw [if_neg hcond] at h3
          subst h3
          exact hq2
      generalize hst3 : (if !st2.pub.caughtUp && decide (tB = ch) then
          { st2 with
            pub := { st2.pub with caughtUp := true },
            events := st2.events ++ [.caughtUpSent tB ch] }
        else st2) = st3 at hx
      have hb3 : EventsBelow env ch st.events st3.events := hcu st3 hst3
      cases hse : analyzeSequencer env st3.tracker mS rS tB ch sequencerBatches0 with
      | error e =>
        rw [hse] at hx
        subst hx
        exact hb3
      | ok aS =>
        obtain ⟨mS2, rS2, sequencerBatches⟩ := aS
        rw [hse] at hx
        dsimp only [] at hx
        cases hde : analyzeDelayed env st3.tracker mD rD tB ch delayedMessages with
        | error e =>
          rw [hde] at hx
          subst hx
          exact hb3
        | ok aD =>
          obtain ⟨mD2, rD2⟩ := aD
          rw [hde] at hx
          dsimp only [] at hx
          cases hap : applyAndPublish env tB rD2 rS2 delayedMessages sequencerBatches
              ra st3 with
          | fail e st4 =>
            have hf := applyAndPublish_facts env tB rD2 rS2 delayedMessages
              sequencerBatches ra st3 _ hap
            rw [hap] at hx
            subst hx
            refine EventsBelow.trans hb3 (fun e he => ?_)
            rcases hf.2.2.2 e he with he2 | he2 | he2
            · exact Or.inl he2
            · obtain ⟨m, hm, hme⟩ := he2
              refine Or.inr ?_
              rw [hme]
              intro hrf
              exact le_trans (hrf st.fromBlock tB delayedMessages hdb m hm) hto
            · exact Or.inr (EventWithin.ofSnap he2)
          | ok aA st4 =>
            obtain ⟨rD3, ra3⟩ := aA
            have hf := applyAndPublish_facts env tB rD2 rS2 delayedMessages
              sequencerBatches ra st3 _ hap
            rw [hap] at hx
            dsimp only [] at hx
            have hb4 : EventsBelow env ch st.events st4.events := by
              refine EventsBelow.trans hb3 (fun e he => ?_)
              rcases hf.2.2.2 e he with he2 | he2 | he2
              · exact Or.inl he2
              · obtain ⟨m, hm, hme⟩ := he2
                refine Or.inr ?_
                rw [hme]
                intro hrf
                exact le_trans (hrf st.fromBlock tB delayedMessages hdb m hm) hto
              · exact Or.inr (EventWithin.ofSnap he2)
            by_cases hflag : (rD3 || rS2) = true
            · rw [if_pos hflag] at hx
              cases hpr : getPrevBlockForReorg fmb st4.fromBlock with
              | error e =>
                rw [hpr] at hx
                subst hx
                exact hb4
              | ok newFrom =>
                rw [hpr] at hx
                have hb5 := hrec mD2 rD3 mS2 rS2 ra3
                  { st4 with
                    fromBlock := newFrom,
                    events := st4.events ++ [.retreatForReorg newFrom] } x hx
                refine EventsBelow.trans ?_ hb5
                exact EventsBelow.push trivial hb4
            · rw [if_neg hflag] at hx
              have hb5 := hrec mD2 rD3 mS2 rS2 ra3 { st4 with fromBlock := tB + 1 } x hx
              exact EventsBelow.trans hb4 hb5

/-- Every event the range scan adds is within the current-height bound. -/
theorem scanLoop_events {σ : Type} (env : InboxEnv σ) (fmb ch : Int) (cd : Bool) :
    ∀ fuel mD rD mS rS ra st x,
      scanLoop env fmb ch cd fuel mD rD mS rS ra st = x →
      EventsBelow env ch st.events x.state.events := by
  intro fuel
  induction fuel with
  | zero =>
    intro mD rD mS rS ra st x hx
    rw [scanLoop] at hx
    subst hx
    exact EventsBelow.base env ch st.events
  | succ fuel ih =>
    intro mD rD mS rS ra st x hx
    rw [scanLoop] at hx
    by_cases hcd : cd = true
    · rw [if_pos hcd] at hx
      subst hx
      exact EventsBelow.base env ch st.events
    · rw [if_neg hcd] at hx
      by_cases hlt : ch < st.fromBlock
      · rw [if_pos hlt] at hx
        dsimp only [] at hx
        by_cases hfl : (!(rD || mD) && !(rS || mS)) = true
        · rw [if_pos hfl] at hx
          subst hx
          exact EventsBelow.base env ch st.events
        · rw [if_neg hfl] at hx
          exact scanIter_events env fmb ch _ ih mD (rD || mD) mS (rS || mS) ra
            { st with fromBlock := ch } (le_refl ch) x hx
      · rw [if_neg hlt] at hx
        exact scanIter_events env fmb ch _ ih mD rD mS rS ra st
          (le_of_not_lt hlt) x hx

/-- Every event a whole pass adds is a counter snapshot or is within the
effective pass height (in particular the pass performed a prologue that
produced that height). -/
theorem runPass_events {σ : Type} (env : InboxEnv σ) (cfg : InboxReaderConfig)
    (fmb : Int) (lh : Except InboxErr Int) (evs : List WaitEvent) (cd : Bool)
    (fuel : Nat) (st : PassSt σ) :
    ∀ x, runPass env cfg fmb lh evs cd fuel st = x →
      ∀ e ∈ x.state.events, e ∈ st.events ∨ e.isSnap = true ∨
        ∃ ch, passHeight cfg fmb lh evs st.fromBlock = some ch ∧
          EventWithin env ch e := by
  intro x hx
  rw [runPass] at hx
  cases hpp : passProbe env cfg fmb lh evs st with
  | fail err st1 =>
    have hf := passProbe_facts env cfg fmb lh evs st _ hpp
    rw [hpp] at hx
    subst hx
    intro e he
    rcases mem_storeSeen st1 e he with he2 | he2
    · rcases hf.2.2.2.1 e he2 with he3 | he3
      · exact Or.inl he3
      · obtain ⟨ch, hch, hq⟩ := he3
        refine Or.inr (Or.inr ⟨ch, hch, ?_⟩)
        rw [hq]
        exact le_refl ch
    · exact Or.inr (Or.inl he2)
  | shutdown st1 =>
    have hf := passProbe_facts env cfg fmb lh evs st _ hpp
    rw [hpp] at hx
    subst hx
    intro e he
    rcases mem_storeSeen st1 e he with he2 | he2
    · rcases hf.2.2.2.1 e he2 with he3 | he3
      · exact Or.inl he3
      · obtain ⟨ch, hch, hq⟩ := he3
        refine Or.inr (Or.inr ⟨ch, hch, ?_⟩)
        rw [hq]
        exact le_refl ch
    · exact Or.inr (Or.inl he2)
  | go ch mD rD mS rS cbc st1 =>
    have hf := passProbe_facts env cfg fmb lh evs st _ hpp
    have hprobe : ∀ e ∈ st1.events, e ∈ st.events ∨ e.isSnap = true ∨
        ∃ ch2, passHeight cfg fmb lh evs st.fromBlock = some ch2 ∧
          EventWithin env ch2 e := by
      intro e he
      rcases hf.2.2.2.1 e he with he2 | he2
      · exact Or.inl he2
      · obtain ⟨ch2, hch, hq⟩ := he2
        refine Or.inr (Or.inr ⟨ch2, hch, ?_⟩)
        rw [hq]
        exact le_refl ch2
    have hph : passHeight cfg fmb lh evs st.fromBlock = some ch :=
      (hf.2.2.2.2 ch mD rD mS rS cbc st1 rfl).1
    rw [hpp] at hx
    dsimp only [] at hx
    by_cases hfl : (!mD && !rD && !mS && !rS) = true
    · rw [if_pos hfl] at hx
      subst hx
      intro e he
      rcases mem_storeSeen _ e he with he2 | he2
      · rcases mem_publishRead _ _ _ e he2 with he3 | he3
        · exact hprobe e he3
        · exact Or.inr (Or.inl he3)
      · exact Or.inr (Or.inl he2)
    · rw [if_neg hfl] at hx
      cases hsc : scanLoop env fmb ch cd fuel mD rD mS rS false st1 with
      | done ra st4 =>
        have hbel := scanLoop_events env fmb ch cd fuel mD rD mS rS false st1 _ hsc
        have hcomp : ∀ e ∈ st4.events, e ∈ st.events ∨ e.isSnap = true ∨
            ∃ ch2, passHeight cfg fmb lh evs st.fromBlock = some ch2 ∧
              EventWithin env ch2 e := by
          intro e he
          rcases hbel e he with he2 | he2
          · exact hprobe e he2
          · exact Or.inr (Or.inr ⟨ch, hph, he2⟩)
        rw [hsc] at hx
        dsimp only [] at hx
        cases ra with
        | true =>
          rw [if_pos rfl] at hx
          subst hx
          exact hcomp
        | false =>
          rw [if_neg (by simp)] at hx
          subst hx
          intro e he
          rcases mem_storeSeen _ e he with he2 | he2
          · rcases mem_publishRead _ _ _ e he2 with he3 | he3
            · exact hcomp e he3
            · exact Or.inr (Or.inl he3)
          · exact Or.inr (Or.inl he2)
      | shutdown st4 =>
        have hbel := scanLoop_events env fmb ch cd fuel mD rD mS rS false st1 _ hsc
        rw [hsc] at hx
        subst hx
        intro e he
        rcases mem_storeSeen _ e he with he2 | he2
        · rcases hbel e he2 with he3 | he3
          · exact hprobe e he3
          · exact Or.inr (Or.inr ⟨ch, hph, he3⟩)
        · exact Or.inr (Or.inl he2)
      | fail err st4 =>
        have hbel := scanLoop_events env fmb ch cd fuel mD rD mS rS false st1 _ hsc
        rw [hsc] at hx
        subst hx
        intro e he
        rcases mem_storeSeen _ e he with he2 | he2
        · rcases hbel e he2 with he3 | he3
          · exact hprobe e he3
          · exact Or.inr (Or.inr ⟨ch, hph, he3⟩)
        · exact Or.inr (Or.inl he2)
      | fuelOut st4 =>
        have hbel := scanLoop_events env fmb ch cd fuel mD rD mS rS false st1 _ hsc
        rw [hsc] at hx
        subst hx
        intro e he
        rcases hbel e he with he2 | he2
        · exact hprobe e he2
        · exact Or.inr (Or.inr ⟨ch, hph, he2⟩)

/-- Counterexample to C1 as stated: a pass of the Reader Loop that ends in
a parent-chain query error (a range lookup fails after one applied batch);
after the failed pass all three published counters differ from their
values before it — lastReadBlock 0 to 100, lastReadBatchCount 0 to 1, and
lastSeenBatchCount 5 to 1 (the deferred store publishes the run-local
seen count on the error return). -/
theorem c1_counterexample :
    (runPass envC1 cfg0 0 (.ok 250) [] false 5 stC1).isFail = true ∧
    stC1.pub.lastReadBlock = 0 ∧
    stC1.pub.lastReadBatchCount = 0 ∧
    stC1.pub.lastSeenBatchCount = 5 ∧
    (runPass envC1 cfg0 0 (.ok 250) [] false 5 stC1).state.pub.lastReadBlock = 100 ∧
    (runPass envC1 cfg0 0 (.ok 250) [] false 5 stC1).state.pub.lastReadBatchCount = 1 ∧
    (runPass envC1 cfg0 0 (.ok 250) [] false 5 stC1).state.pub.lastSeenBatchCount = 1 := by
  decide

/-- C1 (amended): a pass failing in the prologue or the divergence probe
leaves last_read_block and last_read_batch_count unchanged, but
last_seen_batch_count is not preserved: the deferred store publishes the
run-local seen count whenever it differs from the last stored value. A
pass that fails later, during the range scan, may additionally have
updated the read counters at a successful apply before failing. -/
theorem c1_error_pass_counters {σ : Type} (env : InboxEnv σ) (cfg : InboxReaderConfig)
    (fmb : Int) (lh : Except InboxErr Int) (evs : List WaitEvent) (cd : Bool)
    (fuel : Nat) (st : PassSt σ) (e : InboxErr) (st1 : PassSt σ)
    (hp : passProbe env cfg fmb lh evs st = .fail e st1) :
    runPass env cfg fmb lh evs cd fuel st = .fail e (runReturn st1) ∧
    (runReturn st1).pub.lastReadBlock = st.pub.lastReadBlock ∧
    (runReturn st1).pub.lastReadBatchCount = st.pub.lastReadBatchCount ∧
    (runReturn st1).pub.lastSeenBatchCount =
      (if st1.seenBatchCountStored ≠ st1.seenBatchCount then st1.seenBatchCount
       else st.pub.lastSeenBatchCount) := by
  have hpub : st1.pub = st.pub := (passProbe_facts env cfg fmb lh evs st _ hp).1
  refine ⟨by rw [runPass, hp], ?_, ?_, ?_⟩
  · rw [runReturn, (storeSeen_preserves st1).1, hpub]
  · rw [runReturn, (storeSeen_preserves st1).2.1, hpub]
  · rw [runReturn, storeSeenBatchCount]
    by_cases hcond : st1.seenBatchCountStored ≠ st1.seenBatchCount
    · rw [if_pos hcond, if_pos hcond]
    · rw [if_neg hcond, if_neg hcond, hpub]

/-- Witness for C1 (amended) at a concrete probe failure: the header query
fails, the read counters keep their values 0 and 0, and the seen counter
is overwritten by the deferred store. -/
theorem c1_error_pass_witness :
    runPass envC1 cfg0 0 (.error (.other 7)) [] false 1 stC1 =
      .fail (.other 7) (runReturn stC1) ∧
    (runReturn stC1).pub.lastReadBlock = stC1.pub.lastReadBlock ∧
    (runReturn stC1).pub.lastReadBatchCount = stC1.pub.lastReadBatchCount ∧
    (runReturn stC1).pub.lastSeenBatchCount =
      (if stC1.seenBatchCountStored ≠ stC1.seenBatchCount then stC1.seenBatchCount
       else stC1.pub.lastSeenBatchCount) :=
  c1_error_pass_counters envC1 cfg0 0 (.error (.other 7)) [] false 1 stC1
    (.other 7) stC1 rfl

/-- Counterexample to C3 as stated: with delay_blocks = 30, latest header
50 and first_message_block 100, the pass queries the delayed bridge at
block 100, above latest - delay_blocks = 20 (the delay window is floored
at first_message_block). -/
theorem c3_counterexample :
    REvent.queryBlock 100 ∈
      (runPass envC3 cfgC3 100 (.ok 50) [] false 5 stC3).state.events ∧
    ¬ ((100 : Int) ≤ 50 - 30) := by
  decide

/-- C3 (amended): every parent-chain query a pass performs, and, for a
range-faithful delayed adapter, every applied delayed message, refers to a
block at most the effective pass height max(latest - delay_blocks,
first_message_block) — not latest - delay_blocks alone, which the
first-message-block floor can exceed. -/
theorem c3_queries_within_window {σ : Type} (env : InboxEnv σ)
    (cfg : InboxReaderConfig) (fmb : Int) (lh : Except InboxErr Int)
    (evs : List WaitEvent) (cd : Bool) (fuel : Nat) (st : PassSt σ)
    (x : PassOut σ) (hx : runPass env cfg fmb lh evs cd fuel st = x) :
    ∀ e ∈ x.state.events, e ∈ st.events ∨ e.isSnap = true ∨
      ∃ ch, passHeight cfg fmb lh evs st.fromBlock = some ch ∧
        EventWithin env ch e :=
  runPass_events env cfg fmb lh evs cd fuel st x hx

/-- Witness for C3 (amended): the query at block 100 of the counterexample
scenario is accounted for by the effective height 100. -/
theorem c3_witness :
    REvent.queryBlock 100 ∈ stC3.events ∨
    REvent.isSnap (.queryBlock 100) = true ∨
    ∃ ch, passHeight cfgC3 100 (.ok 50) [] stC3.fromBlock = some ch ∧
      EventWithin envC3 ch (.queryBlock 100) :=
  c3_queries_within_window envC3 cfgC3 100 (.ok 50) [] false 5 stC3 _ rfl
    (.queryBlock 100) (by decide)

/-- Counterexample to C7 as stated: a reorg-free pass (no retreat event,
hard reorg disabled) that applies the chain's batch 4 publishes
last_read_batch_count = 5 while last_seen_batch_count is still 0, an
observable instant — the snapshot right after the mutex write — where
last_seen_batch_count < last_read_batch_count. -/
theorem c7_counterexample :
    (runPass envC7 cfg0 0 (.ok 20) [] false 5 stC7).isNextPass = true ∧
    REvent.snap 20 5 0 ∈ (runPass envC7 cfg0 0 (.ok 20) [] false 5 stC7).state.events ∧
    ((runPass envC7 cfg0 0 (.ok 20) [] false 5 stC7).state.events.all
      (fun e => ! e.isRetreat) = true) ∧
    (0 : Nat) < 5 := by
  decide

/-- Read-counter components of the snapshot events of a trace, checked to
be componentwise non-decreasing starting from the anchor values b and c. -/
def readSnapsMono : Nat → Nat → List REvent → Bool
  | _, _, [] => true
  | b, c, .snap b1 c1 _ :: rest =>
    decide (b ≤ b1) && decide (c ≤ c1) && readSnapsMono b1 c1 rest
  | b, c, .queryBlock _ :: rest => readSnapsMono b c rest
  | b, c, .appliedMsgBlock _ :: rest => readSnapsMono b c rest
  | b, c, .caughtUpSent _ _ :: rest => readSnapsMono b c rest
  | b, c, .retreatForReorg _ :: rest => readSnapsMono b c rest

/-- The read-counter pair recorded by the last snapshot of a trace, or the
anchor pair when the trace holds no snapshot. -/
def lastReads : Nat → Nat → List REvent → Nat × Nat
  | b, c, [] => (b, c)
  | _, _, .snap b1 c1 _ :: rest => lastReads b1 c1 rest
  | b, c, .queryBlock _ :: rest => lastReads b c rest
  | b, c, .appliedMsgBlock _ :: rest => lastReads b c rest
  | b, c, .caughtUpSent _ _ :: rest => lastReads b c rest
  | b, c, .retreatForReorg _ :: rest => lastReads b c rest

/-- Splitting a trace splits the monotonicity check at the last snapshot
of the first part. -/
theorem lastReads_append (l t : List REvent) : ∀ b c,
    lastReads b c (l ++ t) = lastReads (lastReads b c l).1 (lastReads b c l).2 t := by
  induction l with
  | nil => intro b c; rfl
  | cons e rest ih =>
    intro b c
    cases e with
    | snap b1 c1 s1 => simp only [List.cons_append, List.append_eq, lastReads, ih]
    | queryBlock b2 => simp only [List.cons_append, List.append_eq, lastReads, ih]
    | appliedMsgBlock b2 => simp only [List.cons_append, List.append_eq, lastReads, ih]
    | caughtUpSent t2 c2 => simp only [List.cons_append, List.append_eq, lastReads, ih]
    | retreatForReorg f2 => simp only [List.cons_append, List.append_eq, lastReads, ih]

/-- The snapshot monotonicity check composes over trace concatenation. -/
theorem readSnapsMono_append (l t : List REvent) : ∀ b c,
    readSnapsMono b c (l ++ t) =
      (readSnapsMono b c l &&
        readSnapsMono (lastReads b c l).1 (lastReads b c l).2 t) := by
  induction l with
  | nil => intro b c; simp only [List.nil_append, readSnapsMono, lastReads, Bool.true_and]
  | cons e rest ih =>
    intro b c
    cases e with
    | snap b1 c1 s1 =>
      simp only [List.cons_append, List.append_eq, readSnapsMono, lastReads, ih, Bool.and_assoc]
    | queryBlock b2 => simp only [List.cons_append, List.append_eq, readSnapsMono, lastReads, ih]
    | appliedMsgBlock b2 => simp only [List.cons_append, List.append_eq, readSnapsMono, lastReads, ih]
    | caughtUpSent t2 c2 => simp only [List.cons_append, List.append_eq, readSnapsMono, lastReads, ih]
    | retreatForReorg f2 => simp only [List.cons_append, List.append_eq, readSnapsMono, lastReads, ih]

/-- A trace without snapshots passes the monotonicity check trivially. -/
theorem readSnapsMono_nosnap : ∀ (t : List REvent),
    (∀ e ∈ t, e.isSnap = false) → ∀ b c, readSnapsMono b c t = true := by
  intro t
  induction t with
  | nil => intro _ b c; rfl
  | cons e rest ih =>
    intro h b c
    have hrest : ∀ e ∈ rest, e.isSnap = false :=
      fun e2 he2 => h e2 (List.mem_cons_of_mem _ he2)
    cases e with
    | snap b1 c1 s1 =>
      have := h _ (List.mem_cons_self _ _)
      simp [REvent.isSnap] at this
    | queryBlock b2 => exact ih hrest b c
    | appliedMsgBlock b2 => exact ih hrest b c
    | caughtUpSent t2 c2 => exact ih hrest b c
    | retreatForReorg f2 => exact ih hrest b c

/-- A trace without snapshots does not move the last-snapshot pair. -/
theorem lastReads_nosnap : ∀ (t : List REvent),
    (∀ e ∈ t, e.isSnap = false) → ∀ b c, lastReads b c t = (b, c) := by
  intro t
  induction t with
  | nil => intro _ b c; rfl
  | cons e rest ih =>
    intro h b c
    have hrest : ∀ e ∈ rest, e.isSnap = false :=
      fun e2 he2 => h e2 (List.mem_cons_of_mem _ he2)
    cases e with
    | snap b1 c1 s1 =>
      have := h _ (List.mem_cons_self _ _)
      simp [REvent.isSnap] at this
    | queryBlock b2 => exact ih hrest b c
    | appliedMsgBlock b2 => exact ih hrest b c
    | caughtUpSent t2 c2 => exact ih hrest b c
    | retreatForReorg f2 => exact ih hrest b c

/-- A monotone snapshot trace ends at or above its anchor. -/
theorem readSnapsMono_le : ∀ (l : List REvent) (b c : Nat),
    readSnapsMono b c l = true →
    b ≤ (lastReads b c l).1 ∧ c ≤ (lastReads b c l).2 := by
  intro l
  induction l with
  | nil => intro b c _; exact ⟨le_refl b, le_refl c⟩
  | cons e rest ih =>
    intro b c h
    cases e with
    | snap b1 c1 s1 =>
      rw [readSnapsMono, Bool.and_eq_true, Bool.and_eq_true] at h
      obtain ⟨⟨hb, hc⟩, hr⟩ := h
      have := ih b1 c1 hr
      exact ⟨le_trans (of_decide_eq_true hb) this.1,
        le_trans (of_decide_eq_true hc) this.2⟩
    | queryBlock b2 => exact ih b c h
    | appliedMsgBlock b2 => exact ih b c h
    | caughtUpSent t2 c2 => exact ih b c h
    | retreatForReorg f2 => exact ih b c h

/-- The snapshot invariant: the trace so far is snapshot-monotone from the
anchor pair, and its last snapshot records the currently published read
counters. -/
def SnapInv {σ : Type} (b0 c0 : Nat) (st : PassSt σ) : Prop :=
  readSnapsMono b0 c0 st.events = true ∧
  lastReads b0 c0 st.events = (st.pub.lastReadBlock, st.pub.lastReadBatchCount)

/-- The published read counters of a snapshot-invariant state dominate the
anchor pair. -/
theorem SnapInv.endpoint {σ : Type} {b0 c0 : Nat} {st : PassSt σ}
    (h : SnapInv b0 c0 st) :
    b0 ≤ st.pub.lastReadBlock ∧ c0 ≤ st.pub.lastReadBatchCount := by
  have h2 := readSnapsMono_le st.events b0 c0 h.1
  rw [h.2] at h2
  exact h2

/-- A counter publish at or above the current read counters preserves the
snapshot invariant. -/
theorem SnapInv.publishOk {σ : Type} {b0 c0 blk cnt : Nat} {st : PassSt σ}
    (h : SnapInv b0 c0 st) (hb : st.pub.lastReadBlock ≤ blk)
    (hc : st.pub.lastReadBatchCount ≤ cnt) :
    SnapInv b0 c0 (publishRead blk cnt st) := by
  obtain ⟨h1, h2⟩ := h
  constructor
  · show readSnapsMono b0 c0
      (st.events ++ [.snap blk cnt st.pub.lastSeenBatchCount]) = true
    rw [readSnapsMono_append, h1, h2]
    simp only [readSnapsMono, Bool.true_and, Bool.and_eq_true, Bool.and_true,
      decide_eq_true_eq]
    exact ⟨hb, hc⟩
  · show lastReads b0 c0
      (st.events ++ [.snap blk cnt st.pub.lastSeenBatchCount]) = (blk, cnt)
    rw [lastReads_append, h2]
    rfl

/-- The seen-count store preserves the snapshot invariant: the snapshot it
may add repeats the current read counters. -/
theorem SnapInv.storeSeenOk {σ : Type} {b0 c0 : Nat} {st : PassSt σ}
    (h : SnapInv b0 c0 st) : SnapInv b0 c0 (storeSeenBatchCount st) := by
  rw [storeSeenBatchCount]
  split
  · obtain ⟨h1, h2⟩ := h
    constructor
    · show readSnapsMono b0 c0 (st.events ++
        [.snap st.pub.lastReadBlock st.pub.lastReadBatchCount st.seenBatchCount]) = true
      rw [readSnapsMono_append, h1, h2]
      simp only [readSnapsMono, Bool.true_and, Bool.and_eq_true, Bool.and_true,
        decide_eq_true_eq]
      exact ⟨le_refl _, le_refl _⟩
    · show lastReads b0 c0 (st.events ++
        [.snap st.pub.lastReadBlock st.pub.lastReadBatchCount st.seenBatchCount]) = _
      rw [lastReads_append, h2]
      rfl
  · exact h

/-- Appending snapshot-free events while keeping the read counters fixed
preserves the snapshot invariant. -/
theorem SnapInv.extendNosnap {σ : Type} {b0 c0 : Nat} {st st2 : PassSt σ}
    (h : SnapInv b0 c0 st) (t : List REvent)
    (hev : st2.events = st.events ++ t) (ht : ∀ e ∈ t, e.isSnap = false)
    (hb : st2.pub.lastReadBlock = st.pub.lastReadBlock)
    (hc : st2.pub.lastReadBatchCount = st.pub.lastReadBatchCount) :
    SnapInv b0 c0 st2 := by
  obtain ⟨h1, h2⟩ := h
  constructor
  · rw [hev, readSnapsMono_append, h1, readSnapsMono_nosnap t ht, Bool.and_self]
  · rw [hev, lastReads_append, lastReads_nosnap t ht, h2, hb, hc]

/-- The stored-seen mirror invariant: once the stored sentinel has left its
initial value, the published seen counter equals it. -/
def SeenMirror {σ : Type} (st : PassSt σ) : Prop :=
  st.seenBatchCountStored ≠ maxUint64 →
    st.pub.lastSeenBatchCount = st.seenBatchCountStored

/-- The seen-count store establishes or preserves the mirror invariant. -/
theorem SeenMirror.afterStore {σ : Type} {st : PassSt σ} (h : SeenMirror st) :
    SeenMirror (storeSeenBatchCount st) := by
  rw [storeSeenBatchCount]
  split
  · intro _; rfl
  · exact h

/-- A counter publish preserves the mirror invariant. -/
theorem SeenMirror.afterPublish {σ : Type} {blk cnt : Nat} {st : PassSt σ}
    (h : SeenMirror st) : SeenMirror (publishRead blk cnt st) := h

/-- After the seen-count store the published seen counter equals the
run-local seen count, provided the latter is below the sentinel. -/
theorem storeSeen_pubSeen {σ : Type} {st : PassSt σ} (h : SeenMirror st)
    (hne : st.seenBatchCount ≠ maxUint64) :
    (storeSeenBatchCount st).pub.lastSeenBatchCount = st.seenBatchCount := by
  rw [storeSeenBatchCount]
  split
  · rfl
  · next hcond =>
    have heq : st.seenBatchCountStored = st.seenBatchCount := not_ne_iff.1 hcond
    have h2 : st.seenBatchCountStored ≠ maxUint64 := by rw [heq]; exact hne
    rw [h h2]
    exact heq

/-- Coherence contract of the sequencer-batch adapters and the tracker
against a reorg-free parent chain: the chain batch count is non-decreasing
in the queried height and below the uint64 sentinel; every batch a range
query returns is counted by the batch count at any height at or beyond the
range end; adding delayed messages leaves the tracker batch count
untouched; and a successful non-empty batch add extends the tracker batch
count to the last added sequence number plus one. -/
structure SeqCoherent {σ : Type} (env : InboxEnv σ) : Prop where
  countMono : ∀ h1 h2 n1 n2, h1 ≤ h2 → env.siGetBatchCount h1 = .ok n1 →
    env.siGetBatchCount h2 = .ok n2 → n1 ≤ n2
  countBound : ∀ h n, env.siGetBatchCount h = .ok n → n < maxUint64
  rangeCounted : ∀ f t bs, env.siLookupBatchesInRange f t = .ok bs →
    ∀ b ∈ bs, ∀ h n, t ≤ h → env.siGetBatchCount h = .ok n →
      b.sequenceNumber + 1 ≤ n
  addDelayedKeepsCount : ∀ tr msgs tr1, env.trAddDelayedMessages tr msgs = .ok tr1 →
    env.trGetBatchCount tr1 = env.trGetBatchCount tr
  addBatchesNil : ∀ tr tr1, env.trAddSequencerBatches tr [] = .ok tr1 →
    env.trGetBatchCount tr1 = env.trGetBatchCount tr
  addBatchesExtend : ∀ tr bs tr1, env.trAddSequencerBatches tr bs = .ok tr1 →
    bs ≠ [] → ∃ m, env.trGetBatchCount tr = .ok m ∧
      m ≤ (bs.getLastD default).sequenceNumber + 1 ∧
      env.trGetBatchCount tr1 = .ok ((bs.getLastD default).sequenceNumber + 1)
  addBatchesNoMismatch : ∀ tr bs,
    env.trAddSequencerBatches tr bs ≠ .error .delayedMessagesMismatch

/-- A trace extension composes with a further trace extension. -/
theorem tail_trans {α : Type} {l1 l2 l3 : List α} (h1 : ∃ t, l2 = l1 ++ t)
    (h2 : ∃ t, l3 = l2 ++ t) : ∃ t, l3 = l1 ++ t := by
  obtain ⟨a, ha⟩ := h1
  obtain ⟨b, hb⟩ := h2
  exact ⟨a ++ b, by rw [hb, ha, List.append_assoc]⟩

/-- An all-quantified Boolean check descends from an extended trace to the
trace it extends. -/
theorem all_of_tail {α : Type} {p : α → Bool} {l1 l2 : List α}
    (h : ∃ t, l2 = l1 ++ t) (ha : l2.all p = true) : l1.all p = true := by
  obtain ⟨t, ht⟩ := h
  rw [ht, List.all_append, Bool.and_eq_true] at ha
  exact ha.1

/-- The seen-count store only appends events. -/
theorem storeSeen_tail {σ : Type} (st : PassSt σ) :
    ∃ t, (storeSeenBatchCount st).events = st.events ++ t := by
  rw [storeSeenBatchCount]
  split
  · exact ⟨_, rfl⟩
  · exact ⟨[], (List.append_nil _).symm⟩

/-- A counter publish only appends events. -/
theorem publishRead_tail {σ : Type} (blk cnt : Nat) (st : PassSt σ) :
    ∃ t, (publishRead blk cnt st).events = st.events ++ t := ⟨_, rfl⟩

/-- The last element drawn with a default from a non-empty list is a
member of the list. -/
theorem getLastD_mem {α : Type} : ∀ (l : List α) (d : α), l ≠ [] →
    l.getLastD d ∈ l := by
  intro l
  induction l with
  | nil => intro d h; exact absurd rfl h
  | cons a t ih =>
    intro d _
    rw [List.getLastD_cons]
    cases t with
    | nil => simp [List.getLastD]
    | cons b t2 => exact List.mem_cons_of_mem a (ih a (by simp))

/-- Conversion to uint64 is monotone below the word size. -/
theorem toUint64_mono {a b : Int} (hab : a ≤ b) (hb : b < 2 ^ 64) :
    toUint64 a ≤ toUint64 b := by
  rw [toUint64, toUint64]
  have h1 : a.toNat ≤ b.toNat := Int.toNat_le_toNat hab
  have h2 : b.toNat < 2 ^ 64 := by
    have hp : ((2 ^ 64 : Nat) : Int) = 2 ^ 64 := by norm_num
    omega
  have h3 : a.toNat < 2 ^ 64 := lt_of_le_of_lt h1 h2
  rw [Nat.mod_eq_of_lt h3, Nat.mod_eq_of_lt h2]
  exact h1

/-- The delay window is monotone in the current height. -/
theorem applyDelayWindow_mono (cfg : InboxReaderConfig) (fmb : Int) {a b : Int}
    (h : a ≤ b) : applyDelayWindow cfg fmb a ≤ applyDelayWindow cfg fmb b := by
  rw [applyDelayWindow, applyDelayWindow]
  split
  · dsimp only []
    split <;> split <;> omega
  · exact h

/-- The delay window of a height within the uint64 range stays within the
uint64 range when the floor does. -/
theorem applyDelayWindow_bounds (cfg : InboxReaderConfig) (fmb h : Int)
    (hf : 0 ≤ fmb) (hf2 : fmb < 2 ^ 64) (hh : 0 ≤ h) (hh2 : h < 2 ^ 64) :
    0 ≤ applyDelayWindow cfg fmb h ∧ applyDelayWindow cfg fmb h < 2 ^ 64 := by
  rw [applyDelayWindow]
  split
  · dsimp only []
    split <;> omega
  · exact ⟨hh, hh2⟩

/-- The header heights carried by a list of wait events. -/
def newHeaderVals : List WaitEvent → List Int
  | [] => []
  | .newHeader (some x) :: rest => x :: newHeaderVals rest
  | .newHeader none :: rest => newHeaderVals rest
  | .cancelled :: rest => newHeaderVals rest
  | .timerFired :: rest => newHeaderVals rest

/-- A height at which the wait loop ends is the height it started from or
one carried by a consumed header event. -/
theorem waitForHeight_mem (needed : Int) : ∀ (evs : List WaitEvent) (cur h : Int),
    waitForHeight needed cur evs = some h → h = cur ∨ h ∈ newHeaderVals evs := by
  intro evs
  induction evs with
  | nil =>
    intro cur h hx
    rw [waitForHeight.eq_def] at hx
    try dsimp only [] at hx
    by_cases hc : cur < needed
    · rw [if_pos hc] at hx
      try dsimp only [] at hx
      injection hx with hx
      exact Or.inl hx.symm
    · rw [if_neg hc] at hx
      injection hx with hx
      exact Or.inl hx.symm
  | cons e rest ih =>
    intro cur h hx
    rw [waitForHeight.eq_def] at hx
    try dsimp only [] at hx
    by_cases hc : cur < needed
    · rw [if_pos hc] at hx
      cases e with
      | newHeader o =>
        cases o with
        | none =>
          try dsimp only [] at hx
          exact Option.noConfusion hx
        | some v =>
          try dsimp only [] at hx
          rcases ih v h hx with h2 | h2
          · refine Or.inr ?_
            show h ∈ v :: newHeaderVals rest
            rw [h2]
            exact List.mem_cons_self _ _
          · refine Or.inr ?_
            show h ∈ v :: newHeaderVals rest
            exact List.mem_cons_of_mem _ h2
      | cancelled =>
        try dsimp only [] at hx
        exact Option.noConfusion hx
      | timerFired =>
        try dsimp only [] at hx
        injection hx with hx
        exact Or.inl hx.symm
    · rw [if_neg hc] at hx
      injection hx with hx
      exact Or.inl hx.symm

/-- The effective pass height is the delay window applied to the last
header value the prologue consumed. -/
theorem passHeight_inv (cfg : InboxReaderConfig) (fmb : Int)
    (lh : Except InboxErr Int) (we : List WaitEvent) (fb ch : Int)
    (h : passHeight cfg fmb lh we fb = some ch) :
    ∃ v, (lh = .ok v ∨ v ∈ newHeaderVals we) ∧
      ch = applyDelayWindow cfg fmb v := by
  rw [passHeight.eq_def] at h
  cases lh with
  | error e => exact Option.noConfusion h
  | ok latest =>
    dsimp only [] at h
    cases hw : waitForHeight
        (fb + ((cfg.delayBlocks + (cfg.minBlocksToRead - 1) : Nat) : Int))
        latest we with
    | none => rw [hw] at h; exact Option.noConfusion h
    | some hgt =>
      rw [hw] at h
      injection h with h
      rcases waitForHeight_mem _ we latest hgt hw with h2 | h2
      · exact ⟨hgt, Or.inl (by rw [h2]), h.symm⟩
      · exact ⟨hgt, Or.inr h2, h.symm⟩

/-- The header heights of one pass input: the latest-header value followed
by the heights of the wait events. -/
def headerVals (inp : PassInput) : List Int :=
  (match inp.lastHeader with
   | .ok l => [l]
   | .error _ => []) ++ newHeaderVals inp.waitEvents

/-- All header heights of a run, in the order the passes observe them. -/
def flattenHeights : List PassInput → List Int
  | [] => []
  | inp :: rest => headerVals inp ++ flattenHeights rest

/-- Snapshot-free trace extensions compose. -/
theorem nosnapTail_trans {l1 l2 l3 : List REvent}
    (h1 : ∃ t, l2 = l1 ++ t ∧ ∀ e ∈ t, e.isSnap = false)
    (h2 : ∃ t, l3 = l2 ++ t ∧ ∀ e ∈ t, e.isSnap = false) :
    ∃ t, l3 = l1 ++ t ∧ ∀ e ∈ t, e.isSnap = false := by
  obtain ⟨a, ha, hana⟩ := h1
  obtain ⟨b, hb, hbna⟩ := h2
  refine ⟨a ++ b, by rw [hb, ha, List.append_assoc], ?_⟩
  intro e he
  rcases List.mem_append.1 he with h | h
  · exact hana e h
  · exact hbna e h

/-- The count-adjust step leaves the tracker untouched when hard reorgs
are disabled, and its checking count equals the chain count unless the
missing flag is raised, in which case it equals the tracker count. -/
theorem probeCountAdjust_more {σ : Type} (reorgTo : σ → Nat → Except InboxErr σ)
    (hardReorg : Bool) (c0 our : Nat) (st : PassSt σ) :
    (hardReorg = false → ∀ x, probeCountAdjust reorgTo hardReorg c0 our st = x →
      x.state.tracker = st.tracker) ∧
    (∀ a st2, probeCountAdjust reorgTo hardReorg c0 our st = .ok a st2 →
      a.1 ≤ c0 ∧ a.1 ≤ our ∧ (a.2 = false → a.1 = c0) ∧ (a.2 = true → a.1 = our)) := by
  rw [probeCountAdjust]
  by_cases h1 : our < c0
  · rw [if_pos h1]
    constructor
    · intro _ x hx
      subst hx
      rfl
    · intro a st2 h
      injection h with ha hst
      rw [← ha]
      exact ⟨Nat.le_of_lt h1, le_refl our, fun hf => Bool.noConfusion hf, fun _ => rfl⟩
  · rw [if_neg h1]
    by_cases h2 : c0 < our
    · rw [if_pos h2]
      cases hardReorg with
      | false =>
        constructor
        · intro _ x hx
          subst hx
          rfl
        · intro a st2 h
          injection h with ha hst
          rw [← ha]
          exact ⟨le_refl c0, Nat.le_of_lt h2, fun _ => rfl, fun ht => Bool.noConfusion ht⟩
      | true =>
        cases hr : reorgTo st.tracker c0 with
        | error e =>
          simp only [if_true, hr]
          constructor
          · intro hfalse
            exact Bool.noConfusion hfalse
          · intro a st2 h
            exact PRes.noConfusion h
        | ok tr1 =>
          simp only [if_true, hr]
          constructor
          · intro hfalse
            exact Bool.noConfusion hfalse
          · intro a st2 h
            injection h with ha hst
            rw [← ha]
            exact ⟨le_refl c0, Nat.le_of_lt h2, fun _ => rfl, fun ht => Bool.noConfusion ht⟩
    · rw [if_neg h2]
      constructor
      · intro _ x hx
        subst hx
        rfl
      · intro a st2 h
        injection h with ha hst
        rw [← ha]
        exact ⟨le_refl c0, Nat.le_of_not_lt h1, fun _ => rfl, fun ht => Bool.noConfusion ht⟩

/-- The delayed probe leaves the tracker untouched when hard reorgs are
disabled and extends the trace only by snapshot-free events. -/
theorem probeDelayedCore_more {σ : Type} (env : InboxEnv σ) (cfg : InboxReaderConfig)
    (ch : Int) (st : PassSt σ) :
    ∀ x, probeDelayedCore env cfg ch st = x →
      (cfg.hardReorg = false → x.state.tracker = st.tracker) ∧
      ∃ t, x.state.events = st.events ++ t ∧ ∀ e ∈ t, e.isSnap = false := by
  have hq1 : ∀ e ∈ [REvent.queryBlock ch], e.isSnap = false := by
    intro e he
    rw [List.mem_singleton.1 he]
    rfl
  have hq2 : ∀ e ∈ [REvent.queryBlock ch, REvent.queryBlock ch], e.isSnap = false := by
    intro e he
    rcases List.mem_cons.1 he with h1 | h1
    · rw [h1]
      rfl
    · rw [List.mem_singleton.1 h1]
      rfl
  intro x hx
  rw [probeDelayedCore] at hx
  cases hmc : env.dbGetMessageCount ch with
  | error e =>
    rw [hmc] at hx
    subst hx
    exact ⟨fun _ => rfl, ⟨[.queryBlock ch], rfl, hq1⟩⟩
  | ok c0 =>
    rw [hmc] at hx
    dsimp only [] at hx
    cases hdc : env.trGetDelayedCount (logQuery ch st).tracker with
    | error e =>
      rw [hdc] at hx
      subst hx
      exact ⟨fun _ => rfl, ⟨[.queryBlock ch], rfl, hq1⟩⟩
    | ok our =>
      rw [hdc] at hx
      dsimp only [] at hx
      have hfa := probeCountAdjust_facts env.trReorgDelayedTo cfg.hardReorg c0 our
        (logQuery ch st)
      have hfm := probeCountAdjust_more env.trReorgDelayedTo cfg.hardReorg c0 our
        (logQuery ch st)
      cases hadj : probeCountAdjust env.trReorgDelayedTo cfg.hardReorg c0 our
          (logQuery ch st) with
      | fail e st1 =>
        rw [hadj] at hx hfa
        subst hx
        exact ⟨fun hhr => hfm.1 hhr _ hadj, ⟨[.queryBlock ch], hfa.2.2.2.2.1, hq1⟩⟩
      | ok a st1 =>
        obtain ⟨c, m⟩ := a
        rw [hadj] at hx hfa
        dsimp only [] at hx
        have htr1 : cfg.hardReorg = false → st1.tracker = st.tracker :=
          fun hhr => hfm.1 hhr _ hadj
        have hev1 : st1.events = st.events ++ [REvent.queryBlock ch] := hfa.2.2.2.2.1
        by_cases hc : 0 < c
        · rw [if_pos hc] at hx
          try dsimp only [] at hx
          cases hacc : env.dbGetAccumulator (c - 1) ch with
          | error e =>
            rw [hacc] at hx
            subst hx
            refine ⟨htr1, ⟨[.queryBlock ch, .queryBlock ch], ?_, hq2⟩⟩
            show st1.events ++ [REvent.queryBlock ch] = _
            rw [hev1, List.append_assoc]
            rfl
          | ok l1Acc =>
            rw [hacc] at hx
            dsimp only [] at hx
            cases hdb : env.trGetDelayedAcc (logQuery ch st1).tracker (c - 1) with
            | error e =>
              rw [hdb] at hx
              subst hx
              refine ⟨htr1, ⟨[.queryBlock ch, .queryBlock ch], ?_, hq2⟩⟩
              show st1.events ++ [REvent.queryBlock ch] = _
              rw [hev1, List.append_assoc]
              rfl
            | ok dbAcc =>
              rw [hdb] at hx
              subst hx
              refine ⟨htr1, ⟨[.queryBlock ch, .queryBlock ch], ?_, hq2⟩⟩
              show st1.events ++ [REvent.queryBlock ch] = _
              rw [hev1, List.append_assoc]
              rfl
        · rw [if_neg hc] at hx
          subst hx
          exact ⟨htr1, ⟨[.queryBlock ch], hev1, hq1⟩⟩

/-- The sequencer probe, when hard reorgs are disabled, leaves the tracker
untouched and extends the trace only by snapshot-free events; on success
the run-local seen count is the chain batch count at the probed height and
the checking count is bounded by the chain and tracker counts, matching
the chain count unless the missing flag is raised. -/
theorem probeSequencerCore_more {σ : Type} (env : InboxEnv σ) (cfg : InboxReaderConfig)
    (ch : Int) (st : PassSt σ) :
    (∀ x, probeSequencerCore env cfg ch st = x →
      (cfg.hardReorg = false → x.state.tracker = st.tracker) ∧
      ∃ t, x.state.events = st.events ++ t ∧ ∀ e ∈ t, e.isSnap = false) ∧
    (∀ mS rS cbc st2, probeSequencerCore env cfg ch st = .ok (mS, rS, cbc) st2 →
      ∃ n, env.siGetBatchCount ch = .ok n ∧ st2.seenBatchCount = n ∧ cbc ≤ n ∧
        (cfg.hardReorg = false →
          ∃ our, env.trGetBatchCount st.tracker = .ok our ∧ cbc ≤ our ∧
            (mS = false → cbc = n) ∧ (mS = true → cbc = our))) := by
  have hq1 : ∀ e ∈ [REvent.queryBlock ch], e.isSnap = false := by
    intro e he
    rw [List.mem_singleton.1 he]
    rfl
  have hq2 : ∀ e ∈ [REvent.queryBlock ch, REvent.queryBlock ch], e.isSnap = false := by
    intro e he
    rcases List.mem_cons.1 he with h1 | h1
    · rw [h1]
      rfl
    · rw [List.mem_singleton.1 h1]
      rfl
  have main : ∀ x, probeSequencerCore env cfg ch st = x →
      ((cfg.hardReorg = false → x.state.tracker = st.tracker) ∧
        ∃ t, x.state.events = st.events ++ t ∧ ∀ e ∈ t, e.isSnap = false) ∧
      (∀ mS rS cbc st2, x = .ok (mS, rS, cbc) st2 →
        ∃ n, env.siGetBatchCount ch = .ok n ∧ st2.seenBatchCount = n ∧ cbc ≤ n ∧
          (cfg.hardReorg = false →
            ∃ our, env.trGetBatchCount st.tracker = .ok our ∧ cbc ≤ our ∧
              (mS = false → cbc = n) ∧ (mS = true → cbc = our))) := by
    intro x hx
    rw [probeSequencerCore] at hx
    cases hbc : env.siGetBatchCount ch with
    | error e =>
      rw [hbc] at hx
      subst hx
      exact ⟨⟨fun _ => rfl, ⟨[.queryBlock ch], rfl, hq1⟩⟩,
        fun mS rS cbc st2 h => PRes.noConfusion h⟩
    | ok n =>
      rw [hbc] at hx
      dsimp only [] at hx
      cases htc : env.trGetBatchCount (setSeenCount n (logQuery ch st)).tracker with
      | error e =>
        rw [htc] at hx
        subst hx
        exact ⟨⟨fun _ => rfl, ⟨[.queryBlock ch], rfl, hq1⟩⟩,
          fun mS rS cbc st2 h => PRes.noConfusion h⟩
      | ok our =>
        rw [htc] at hx
        dsimp only [] at hx
        have hfa := probeCountAdjust_facts env.trReorgBatchesTo cfg.hardReorg n our
          (setSeenCount n (logQuery ch st))
        have hfm := probeCountAdjust_more env.trReorgBatchesTo cfg.hardReorg n our
          (setSeenCount n (logQuery ch st))
        cases hadj : probeCountAdjust env.trReorgBatchesTo cfg.hardReorg n our
            (setSeenCount n (logQuery ch st)) with
        | fail e st1 =>
          rw [hadj] at hx hfa
          subst hx
          exact ⟨⟨fun hhr => hfm.1 hhr _ hadj, ⟨[.queryBlock ch], hfa.2.2.2.2.1, hq1⟩⟩,
            fun mS rS cbc st2 h => PRes.noConfusion h⟩
        | ok a st1 =>
          obtain ⟨c, m⟩ := a
          rw [hadj] at hx hfa
          dsimp only [] at hx
          have htr1 : cfg.hardReorg = false → st1.tracker = st.tracker :=
            fun hhr => hfm.1 hhr _ hadj
          have hev1 : st1.events = st.events ++ [REvent.queryBlock ch] := hfa.2.2.2.2.1
          have hseen1 : st1.seenBatchCount = n := hfa.2.2.1
          have hval := hfm.2 (c, m) st1 hadj
          by_cases hc : 0 < c
          · rw [if_pos hc] at hx
            try dsimp only [] at hx
            cases hacc : env.siGetAccumulator (c - 1) ch with
            | error e =>
              rw [hacc] at hx
              subst hx
              refine ⟨⟨htr1, ⟨[.queryBlock ch, .queryBlock ch], ?_, hq2⟩⟩,
                fun mS rS cbc st2 h => PRes.noConfusion h⟩
              show st1.events ++ [REvent.queryBlock ch] = _
              rw [hev1, List.append_assoc]
              rfl
            | ok l1Acc =>
              rw [hacc] at hx
              dsimp only [] at hx
              cases hdb : env.trGetBatchAcc (logQuery ch st1).tracker (c - 1) with
              | error e =>
                rw [hdb] at hx
                subst hx
                refine ⟨⟨htr1, ⟨[.queryBlock ch, .queryBlock ch], ?_, hq2⟩⟩,
                  fun mS rS cbc st2 h => PRes.noConfusion h⟩
                show st1.events ++ [REvent.queryBlock ch] = _
                rw [hev1, List.append_assoc]
                rfl
              | ok dbAcc =>
                rw [hdb] at hx
                subst hx
                constructor
                · refine ⟨htr1, ⟨[.queryBlock ch, .queryBlock ch], ?_, hq2⟩⟩
                  show st1.events ++ [REvent.queryBlock ch] = _
                  rw [hev1, List.append_assoc]
                  rfl
                · intro mS rS cbc st2 h
                  injection h with h1 h2
                  injection h1 with h1a h1b
                  injection h1b with h1b h1c
                  subst h1a
                  subst h1c
                  refine ⟨n, rfl, ?_, hval.1, fun hhr => ?_⟩
                  · rw [← h2]
                    exact hseen1
                  · refine ⟨our, htc, hval.2.1, hval.2.2.1, hval.2.2.2⟩
          · rw [if_neg hc] at hx
            subst hx
            constructor
            · exact ⟨htr1, ⟨[.queryBlock ch], hev1, hq1⟩⟩
            · intro mS rS cbc st2 h
              injection h with h1 h2
              injection h1 with h1a h1b
              injection h1b with h1b h1c
              subst h1a
              subst h1c
              refine ⟨n, rfl, ?_, hval.1, fun hhr => ?_⟩
              · rw [← h2]
                exact hseen1
              · exact ⟨our, htc, hval.2.1, hval.2.2.1, hval.2.2.2⟩
  exact ⟨fun x hx => (main x hx).1,
    fun mS rS cbc st2 h => (main _ rfl).2 mS rS cbc st2 h⟩

/-- The pass prologue and divergence probe, when hard reorgs are disabled,
leave the tracker untouched and extend the trace only by snapshot-free
events; a successful probe moreover fixes the run-local seen count to the
chain batch count at the effective height, with the checking count bounded
by the chain and tracker counts. -/
theorem passProbe_more {σ : Type} (env : InboxEnv σ) (cfg : InboxReaderConfig)
    (fmb : Int) (lh : Except InboxErr Int) (we : List WaitEvent) (st : PassSt σ) :
    (∀ x, passProbe env cfg fmb lh we st = x →
      (cfg.hardReorg = false → x.state.tracker = st.tracker) ∧
      ∃ t, x.state.events = st.events ++ t ∧ ∀ e ∈ t, e.isSnap = false) ∧
    (∀ ch mD rD mS rS cbc st2,
      passProbe env cfg fmb lh we st = .go ch mD rD mS rS cbc st2 →
      ∃ n, env.siGetBatchCount ch = .ok n ∧ st2.seenBatchCount = n ∧ cbc ≤ n ∧
        (cfg.hardReorg = false →
          ∃ our, env.trGetBatchCount st.tracker = .ok our ∧ cbc ≤ our ∧
            (mS = false → cbc = n) ∧ (mS = true → cbc = our))) := by
  have main : ∀ x, passProbe env cfg fmb lh we st = x →
      ((cfg.hardReorg = false → x.state.tracker = st.tracker) ∧
        ∃ t, x.state.events = st.events ++ t ∧ ∀ e ∈ t, e.isSnap = false) ∧
      (∀ ch mD rD mS rS cbc st2, x = .go ch mD rD mS rS cbc st2 →
        ∃ n, env.siGetBatchCount ch = .ok n ∧ st2.seenBatchCount = n ∧ cbc ≤ n ∧
          (cfg.hardReorg = false →
            ∃ our, env.trGetBatchCount st.tracker = .ok our ∧ cbc ≤ our ∧
              (mS = false → cbc = n) ∧ (mS = true → cbc = our))) := by
    intro x hx
    rw [passProbe.eq_def] at hx
    cases lh with
    | error e =>
      subst hx
      exact ⟨⟨fun _ => rfl, ⟨[], (List.append_nil _).symm, fun e2 he2 => absurd he2
        (List.not_mem_nil e2)⟩⟩,
        fun ch mD rD mS rS cbc st2 h => ProbeOut.noConfusion h⟩
    | ok latest =>
      dsimp only [] at hx
      cases hw : waitForHeight
          (st.fromBlock + ((cfg.delayBlocks + (cfg.minBlocksToRead - 1) : Nat) : Int))
          latest we with
      | none =>
        rw [hw] at hx
        subst hx
        exact ⟨⟨fun _ => rfl, ⟨[], (List.append_nil _).symm, fun e2 he2 => absurd he2
          (List.not_mem_nil e2)⟩⟩,
          fun ch mD rD mS rS cbc st2 h => ProbeOut.noConfusion h⟩
      | some hgt =>
        rw [hw] at hx
        dsimp only [] at hx
        cases hpd : probeDelayedCore env cfg (applyDelayWindow cfg fmb hgt) st with
        | fail e st1 =>
          have hdm := probeDelayedCore_more env cfg (applyDelayWindow cfg fmb hgt) st _ hpd
          rw [hpd] at hx
          subst hx
          exact ⟨⟨hdm.1, hdm.2⟩, fun ch mD rD mS rS cbc st2 h => ProbeOut.noConfusion h⟩
        | ok ab st1 =>
          obtain ⟨mD, rD⟩ := ab
          have hdm := probeDelayedCore_more env cfg (applyDelayWindow cfg fmb hgt) st _ hpd
          rw [hpd] at hx
          dsimp only [] at hx
          cases hps : probeSequencerCore env cfg (applyDelayWindow cfg fmb hgt) st1 with
          | fail e st2 =>
            have hsm := (probeSequencerCore_more env cfg
              (applyDelayWindow cfg fmb hgt) st1).1 _ hps
            rw [hps] at hx
            subst hx
            refine ⟨⟨fun hhr => (hsm.1 hhr).trans (hdm.1 hhr), ?_⟩,
              fun ch mD2 rD2 mS2 rS2 cbc st3 h => ProbeOut.noConfusion h⟩
            exact nosnapTail_trans hdm.2 hsm.2
          | ok abc st2 =>
            obtain ⟨mS, rS, cbc⟩ := abc
            have hsm := (probeSequencerCore_more env cfg
              (applyDelayWindow cfg fmb hgt) st1).1 _ hps
            have hsv := (probeSequencerCore_more env cfg
              (applyDelayWindow cfg fmb hgt) st1).2 mS rS cbc st2 hps
            rw [hps] at hx
            dsimp only [] at hx
            subst hx
            constructor
            · exact ⟨fun hhr => (hsm.1 hhr).trans (hdm.1 hhr),
                nosnapTail_trans hdm.2 hsm.2⟩
            · intro ch mD2 rD2 mS2 rS2 cbc2 st3 h
              injection h with h1 h2 h3 h4 h5 h6 h7
              subst h1
              subst h4
              subst h6
              subst h7
              obtain ⟨n, hbc, hseen, hle, hpack⟩ := hsv
              refine ⟨n, hbc, hseen, hle, fun hhr => ?_⟩
              obtain ⟨our, hour, hcle, hmf, hmt⟩ := hpack hhr
              refine ⟨our, ?_, hcle, hmf, hmt⟩
              rw [← hdm.1 hhr]
              exact hour
  exact ⟨fun x hx => (main x hx).1,
    fun ch mD rD mS rS cbc st2 h => (main _ rfl).2 ch mD rD mS rS cbc st2 h⟩

/-- A successful mismatch-free bundle add either adds no batch and keeps
the tracker batch count, or extends it to the last added sequence number
plus one, never skipping past a count it did not reach. -/
theorem addMessages_count {σ : Type} {env : InboxEnv σ} (hcoh : SeqCoherent env)
    (tr : σ) (bs : List SequencerInboxBatch) (msgs : List DelayedInboxMessage)
    (tr1 : σ) (h : addMessages env tr bs msgs = .ok (false, tr1)) :
    (bs = [] ∧ env.trGetBatchCount tr1 = env.trGetBatchCount tr) ∨
    (bs ≠ [] ∧ ∃ m, env.trGetBatchCount tr = .ok m ∧
      m ≤ (bs.getLastD default).sequenceNumber + 1 ∧
      env.trGetBatchCount tr1 = .ok ((bs.getLastD default).sequenceNumber + 1)) := by
  rw [addMessages] at h
  cases hd : env.trAddDelayedMessages tr msgs with
  | error e =>
    rw [hd] at h
    exact Except.noConfusion h
  | ok trA =>
    rw [hd] at h
    dsimp only [] at h
    have hdc := hcoh.addDelayedKeepsCount tr msgs trA hd
    cases hs : env.trAddSequencerBatches trA bs with
    | error e =>
      rw [hs] at h
      cases e with
      | accumulatorNotFound => exact Except.noConfusion h
      | delayedMessagesMismatch =>
        injection h with h2
        injection h2 with h2a h2b
        exact Bool.noConfusion h2a
      | cantGetOlderMessages => exact Except.noConfusion h
      | sequencerBatchNotFound => exact Except.noConfusion h
      | other code => exact Except.noConfusion h
    | ok trB =>
      rw [hs] at h
      injection h with h2
      injection h2 with h2a h2b
      rw [← h2b]
      cases bs with
      | nil =>
        refine Or.inl ⟨rfl, ?_⟩
        rw [hcoh.addBatchesNil trA trB hs, hdc]
      | cons b rest =>
        refine Or.inr ⟨by simp, ?_⟩
        obtain ⟨m, hm, hle, hcnt⟩ := hcoh.addBatchesExtend trA (b :: rest) trB hs (by simp)
        refine ⟨m, ?_, hle, hcnt⟩
        rw [← hdc]
        exact hm

/-- Against a coherent adapter a bundle add never reports the
delayed-messages-mismatch signal. -/
theorem addMessages_noMismatch {σ : Type} {env : InboxEnv σ} (hcoh : SeqCoherent env)
    (tr : σ) (bs : List SequencerInboxBatch) (msgs : List DelayedInboxMessage)
    (fl : Bool) (tr1 : σ) (h : addMessages env tr bs msgs = .ok (fl, tr1)) :
    fl = false := by
  rw [addMessages] at h
  cases hd : env.trAddDelayedMessages tr msgs with
  | error e =>
    rw [hd] at h
    exact Except.noConfusion h
  | ok trA =>
    rw [hd] at h
    dsimp only [] at h
    cases hs : env.trAddSequencerBatches trA bs with
    | error e =>
      rw [hs] at h
      cases e with
      | accumulatorNotFound => exact Except.noConfusion h
      | delayedMessagesMismatch => exact absurd hs (hcoh.addBatchesNoMismatch trA bs)
      | cantGetOlderMessages => exact Except.noConfusion h
      | sequencerBatchNotFound => exact Except.noConfusion h
      | other code => exact Except.noConfusion h
    | ok trB =>
      rw [hs] at h
      injection h with h2
      injection h2 with h2a h2b
      exact h2a.symm

/-- Skipping already-known batches returns a subset of the given list. -/
theorem skipKnownBatches_subset {σ : Type} (env : InboxEnv σ) (tr : σ) :
    ∀ (bs bs2 : List SequencerInboxBatch), skipKnownBatches env tr bs = .ok bs2 →
      ∀ b ∈ bs2, b ∈ bs := by
  intro bs
  induction bs with
  | nil =>
    intro bs2 h b hb
    rw [skipKnownBatches] at h
    injection h with h
    rw [← h] at hb
    exact absurd hb (List.not_mem_nil b)
  | cons batch rest ih =>
    intro bs2 h b hb
    rw [skipKnownBatches] at h
    cases hacc : env.trGetBatchAcc tr batch.sequenceNumber with
    | error e =>
      rw [hacc] at h
      cases e with
      | accumulatorNotFound =>
        injection h with h
        rw [← h] at hb
        exact hb
      | delayedMessagesMismatch => exact Except.noConfusion h
      | cantGetOlderMessages => exact Except.noConfusion h
      | sequencerBatchNotFound => exact Except.noConfusion h
      | other code => exact Except.noConfusion h
    | ok haveAcc =>
      rw [hacc] at h
      dsimp only [] at h
      by_cases heq : haveAcc = batch.beforeInboxAcc
      · rw [if_pos heq] at h
        exact List.mem_cons_of_mem _ (ih bs2 h b hb)
      · rw [if_neg heq] at h
        injection h with h
        rw [← h] at hb
        exact hb

/-- The sequencer analysis returns a subset of the batches it was given. -/
theorem analyzeSequencer_subset {σ : Type} (env : InboxEnv σ) (tr : σ)
    (mS rS : Bool) (toBlock ch : Int) (bs : List SequencerInboxBatch) :
    ∀ mS2 rS2 bs2, analyzeSequencer env tr mS rS toBlock ch bs = .ok (mS2, rS2, bs2) →
      ∀ b ∈ bs2, b ∈ bs := by
  intro mS2 rS2 bs2 hx b hb
  rw [analyzeSequencer.eq_def] at hx
  cases bs with
  | nil =>
    dsimp only [] at hx
    split at hx
    · injection hx with hx
      injection hx with hxa hxb
      injection hxb with hxb hxc
      rw [← hxc] at hb
      exact absurd hb (List.not_mem_nil b)
    · injection hx with hx
      injection hx with hxa hxb
      injection hxb with hxb hxc
      rw [← hxc] at hb
      exact absurd hb (List.not_mem_nil b)
  | cons fb rest =>
    dsimp only [] at hx
    by_cases h0 : 0 < fb.sequenceNumber
    · rw [if_pos h0] at hx
      cases hacc : env.trGetBatchAcc tr (fb.sequenceNumber - 1) with
      | error e =>
        rw [hacc] at hx
        cases e with
        | accumulatorNotFound =>
          dsimp only [] at hx
          rw [if_pos rfl] at hx
          injection hx with hx
          injection hx with hxa hxb
          injection hxb with hxb hxc
          rw [← hxc] at hb
          exact hb
        | delayedMessagesMismatch => exact Except.noConfusion hx
        | cantGetOlderMessages => exact Except.noConfusion hx
        | sequencerBatchNotFound => exact Except.noConfusion hx
        | other code => exact Except.noConfusion hx
      | ok haveAcc =>
        rw [hacc] at hx
        dsimp only [] at hx
        by_cases hne : haveAcc = fb.beforeInboxAcc
        · rw [if_neg (by simpa using hne)] at hx
          cases hsk : skipKnownBatches env tr (fb :: rest) with
          | error e =>
            rw [hsk] at hx
            exact Except.noConfusion hx
          | ok trimmed =>
            rw [hsk] at hx
            injection hx with hx
            injection hx with hxa hxb
            injection hxb with hxb hxc
            rw [← hxc] at hb
            exact skipKnownBatches_subset env tr (fb :: rest) trimmed hsk b hb
        · rw [if_pos (by simpa using hne)] at hx
          injection hx with hx
          injection hx with hxa hxb
          injection hxb with hxb hxc
          rw [← hxc] at hb
          exact hb
    · rw [if_neg h0] at hx
      dsimp only [] at hx
      rw [if_neg (by simp)] at hx
      cases hsk : skipKnownBatches env tr (fb :: rest) with
      | error e =>
        rw [hsk] at hx
        exact Except.noConfusion hx
      | ok trimmed =>
        rw [hsk] at hx
        injection hx with hx
        injection hx with hxa hxb
        injection hxb with hxb hxc
        rw [← hxc] at hb
        exact skipKnownBatches_subset env tr (fb :: rest) trimmed hsk b hb

/-- The apply step only appends events. -/
theorem applyAndPublish_tail {σ : Type} (env : InboxEnv σ) (toBlock : Int)
    (rD rS : Bool) (msgs : List DelayedInboxMessage)
    (batches : List SequencerInboxBatch) (ra : Bool) (st : PassSt σ) :
    ∀ x, applyAndPublish env toBlock rD rS msgs batches ra st = x →
      ∃ t, x.state.events = st.events ++ t := by
  intro x hx
  rw [applyAndPublish] at hx
  split at hx
  · cases hadd : addMessages env st.tracker batches msgs with
    | error e =>
      rw [hadd] at hx
      subst hx
      exact ⟨[], (List.append_nil _).symm⟩
    | ok a =>
      obtain ⟨mismatch, tr1⟩ := a
      rw [hadd] at hx
      dsimp only [] at hx
      split at hx
      · subst hx
        exact ⟨_, rfl⟩
      · subst hx
        refine tail_trans (⟨_, rfl⟩ :
          ∃ t, (st.events ++ msgs.map
            (fun m => REvent.appliedMsgBlock (m.header.blockNumber : Int))) =
            st.events ++ t) ?_
        refine tail_trans (publishRead_tail _ _ _) (storeSeen_tail _)
  · subst hx
    exact ⟨[], (List.append_nil _).symm⟩

/-- One scan iteration only appends events, provided the continuation
does. -/
theorem scanIter_tail {σ : Type} (env : InboxEnv σ) (fmb ch : Int)
    (recurse : Bool → Bool → Bool → Bool → Bool → PassSt σ → ScanOut σ)
    (hrec : ∀ mD rD mS rS ra st, ∃ t,
      ((recurse mD rD mS rS ra st).state).events = st.events ++ t)
    (mD rD mS rS ra : Bool) (st : PassSt σ) :
    ∃ t, ((scanIter env fmb ch recurse mD rD mS rS ra st).state).events =
      st.events ++ t := by
  have main : ∀ x, scanIter env fmb ch recurse mD rD mS rS ra st = x →
      ∃ t, x.state.events = st.events ++ t := by
    intro x hx
    rw [scanIter] at hx
    dsimp only [] at hx
    generalize hTo : (if ch < st.fromBlock + 100 then ch else st.fromBlock + 100) = tB at hx
    have hq2 : ∃ t, (logQuery tB (logQuery st.fromBlock st)).events = st.events ++ t :=
      tail_trans (⟨_, rfl⟩ : ∃ t, (logQuery st.fromBlock st).events = st.events ++ t)
        ⟨_, rfl⟩
    cases hdb : env.dbLookupMessagesInRange st.fromBlock tB with
    | error e =>
      rw [hdb] at hx
      subst hx
      exact hq2
    | ok delayedMessages =>
      rw [hdb] at hx
      dsimp only [] at hx
      cases hsb : env.siLookupBatchesInRange st.fromBlock tB with
      | error e =>
        rw [hsb] at hx
        subst hx
        exact hq2
      | ok sequencerBatches0 =>
        rw [hsb] at hx
        dsimp only [] at hx
        set st2 := logQuery tB (logQuery st.fromBlock st) with hst2
        generalize hst3 : (if !st2.pub.caughtUp && decide (tB = ch) then
            { st2 with
              pub := { st2.pub with caughtUp := true },
              events := st2.events ++ [.caughtUpSent tB ch] }
          else st2) = st3 at hx
        have hb3 : ∃ t, st3.events = st.events ++ t := by
          by_cases hcond : (!st2.pub.caughtUp && decide (tB = ch)) = true
          · rw [if_pos hcond] at hst3
            subst hst3
            exact tail_trans hq2 ⟨_, rfl⟩
          · rw [if_neg hcond] at hst3
            subst hst3
            exact hq2
        cases hse : analyzeSequencer env st3.tracker mS rS tB ch sequencerBatches0 with
        | error e =>
          rw [hse] at hx
          subst hx
          exact hb3
        | ok aS =>
          obtain ⟨mS2, rS2, sequencerBatches⟩ := aS
          rw [hse] at hx
          dsimp only [] at hx
          cases hde : analyzeDelayed env st3.tracker mD rD tB ch delayedMessages with
          | error e =>
            rw [hde] at hx
            subst hx
            exact hb3
          | ok aD =>
            obtain ⟨mD2, rD2⟩ := aD
            rw [hde] at hx
            dsimp only [] at hx
            cases hap : applyAndPublish env tB rD2 rS2 delayedMessages sequencerBatches
                ra st3 with
            | fail e st4 =>
              have hf := applyAndPublish_tail env tB rD2 rS2 delayedMessages
                sequencerBatches ra st3 _ hap
              rw [hap] at hx
              subst hx
              exact tail_trans hb3 hf
            | ok aA st4 =>
              obtain ⟨rD3, ra3⟩ := aA
              have hf := applyAndPublish_tail env tB rD2 rS2 delayedMessages
                sequencerBatches ra st3 _ hap
              rw [hap] at hx
              dsimp only [] at hx
              have hb4 : ∃ t, st4.events = st.events ++ t := tail_trans hb3 hf
              by_cases hflag : (rD3 || rS2) = true
              · rw [if_pos hflag] at hx
                cases hpr : getPrevBlockForReorg fmb st4.fromBlock with
                | error e =>
                  rw [hpr] at hx
                  subst hx
                  exact hb4
                | ok newFrom =>
                  rw [hpr] at hx
                  subst hx
                  refine tail_trans (tail_trans hb4 ?_) (hrec _ _ _ _ _ _)
                  exact ⟨_, rfl⟩
              · rw [if_neg hflag] at hx
                subst hx
                exact tail_trans hb4 (hrec _ _ _ _ _ _)
  exact main _ rfl

/-- The range scan only appends events. -/
theorem scanLoop_tail {σ : Type} (env : InboxEnv σ) (fmb ch : Int) (cd : Bool) :
    ∀ fuel mD rD mS rS ra (st : PassSt σ),
      ∃ t, ((scanLoop env fmb ch cd fuel mD rD mS rS ra st).state).events =
        st.events ++ t := by
  intro fuel
  induction fuel with
  | zero =>
    intro mD rD mS rS ra st
    exact ⟨[], (List.append_nil _).symm⟩
  | succ fuel ih =>
    intro mD rD mS rS ra st
    have main : ∀ x, scanLoop env fmb ch cd (fuel + 1) mD rD mS rS ra st = x →
        ∃ t, x.state.events = st.events ++ t := by
      intro x hx
      rw [scanLoop] at hx
      by_cases hcd : cd = true
      · rw [if_pos hcd] at hx
        subst hx
        exact ⟨[], (List.append_nil _).symm⟩
      · rw [if_neg hcd] at hx
        by_cases hlt : ch < st.fromBlock
        · rw [if_pos hlt] at hx
          dsimp only [] at hx
          by_cases hfl : (!(rD || mD) && !(rS || mS)) = true
          · rw [if_pos hfl] at hx
            subst hx
            exact ⟨[], (List.append_nil _).symm⟩
          · rw [if_neg hfl] at hx
            subst hx
            exact scanIter_tail env fmb ch _ ih mD (rD || mD) mS (rS || mS) ra
              { st with fromBlock := ch }
        · rw [if_neg hlt] at hx
          subst hx
          exact scanIter_tail env fmb ch _ ih mD rD mS rS ra st
    exact main _ rfl

/-- One pass only appends events. -/
theorem runPass_tail {σ : Type} (env : InboxEnv σ) (cfg : InboxReaderConfig)
    (fmb : Int) (lh : Except InboxErr Int) (we : List WaitEvent) (cd : Bool)
    (fuel : Nat) (st : PassSt σ) :
    ∃ t, ((runPass env cfg fmb lh we cd fuel st).state).events = st.events ++ t := by
  have main : ∀ x, runPass env cfg fmb lh we cd fuel st = x →
      ∃ t, x.state.events = st.events ++ t := by
    intro x hx
    rw [runPass] at hx
    cases hp : passProbe env cfg fmb lh we st with
    | fail e st1 =>
      have hpt := ((passProbe_more env cfg fmb lh we st).1 _ hp).2
      rw [hp] at hx
      subst hx
      exact tail_trans ⟨hpt.choose, hpt.choose_spec.1⟩ (storeSeen_tail _)
    | shutdown st1 =>
      have hpt := ((passProbe_more env cfg fmb lh we st).1 _ hp).2
      rw [hp] at hx
      subst hx
      exact tail_trans ⟨hpt.choose, hpt.choose_spec.1⟩ (storeSeen_tail _)
    | go ch mD rD mS rS cbc st1 =>
      have hpt := ((passProbe_more env cfg fmb lh we st).1 _ hp).2
      have hpt2 : ∃ t, st1.events = st.events ++ t := ⟨hpt.choose, hpt.choose_spec.1⟩
      rw [hp] at hx
      dsimp only [] at hx
      by_cases hflag : (!mD && !rD && !mS && !rS) = true
      · rw [if_pos hflag] at hx
        subst hx
        refine tail_trans (tail_trans hpt2 (publishRead_tail _ _ _)) (storeSeen_tail _)
      · rw [if_neg hflag] at hx
        have hsl := scanLoop_tail env fmb ch cd fuel mD rD mS rS false st1
        cases hs : scanLoop env fmb ch cd fuel mD rD mS rS false st1 with
        | fail e st4 =>
          rw [hs] at hsl hx
          subst hx
          exact tail_trans (tail_trans hpt2 hsl) (storeSeen_tail _)
        | shutdown st4 =>
          rw [hs] at hsl hx
          subst hx
          exact tail_trans (tail_trans hpt2 hsl) (storeSeen_tail _)
        | fuelOut st4 =>
          rw [hs] at hsl hx
          subst hx
          exact tail_trans hpt2 hsl
        | done ra2 st4 =>
          rw [hs] at hsl hx
          dsimp only [] at hx
          by_cases hra : ra2 = true
          · rw [if_pos hra] at hx
            subst hx
            exact tail_trans hpt2 hsl
          · rw [if_neg hra] at hx
            subst hx
            refine tail_trans (tail_trans (tail_trans hpt2 hsl)
              (publishRead_tail _ _ _)) (storeSeen_tail _)
  exact main _ rfl

/-- A run of passes only appends events. -/
theorem runSeq_tail {σ : Type} (env : InboxEnv σ) (cfg : InboxReaderConfig)
    (fmb : Int) : ∀ (inputs : List PassInput) (st : PassSt σ),
      ∃ t, (runSeq env cfg fmb inputs st).events = st.events ++ t := by
  intro inputs
  induction inputs with
  | nil =>
    intro st
    exact ⟨[], (List.append_nil _).symm⟩
  | cons inp rest ih =>
    intro st
    rw [runSeq]
    have hp := runPass_tail env cfg fmb inp.lastHeader inp.waitEvents inp.ctxDone
      inp.fuel st
    cases hr : runPass env cfg fmb inp.lastHeader inp.waitEvents inp.ctxDone
        inp.fuel st with
    | nextPass st2 =>
      rw [hr] at hp
      exact tail_trans hp (ih st2)
    | shutdown st2 =>
      rw [hr] at hp
      exact hp
    | fail e st2 =>
      rw [hr] at hp
      exact hp
    | fuelOut st2 =>
      rw [hr] at hp
      exact hp

/-- The apply step keeps the run-local seen count and the mirror
invariant, and once it has published anything the published seen counter
equals the chain batch count at the effective height and bounds the
published read count. -/
theorem applyAndPublishSeen {σ : Type} {env : InboxEnv σ} (hcoh : SeqCoherent env)
    (n : Nat) (ch toBlock : Int) (rD rS : Bool)
    (msgs : List DelayedInboxMessage) (batches : List SequencerInboxBatch)
    (ra : Bool) (st : PassSt σ)
    (htbch : toBlock ≤ ch) (hn : env.siGetBatchCount ch = .ok n)
    (hbs : ∀ b ∈ batches, ∀ h m, toBlock ≤ h → env.siGetBatchCount h = .ok m →
      b.sequenceNumber + 1 ≤ m)
    (hseen : st.seenBatchCount = n) (hsm : SeenMirror st)
    (hra : ra = true → st.pub.lastSeenBatchCount = n ∧
      st.pub.lastReadBatchCount ≤ n) :
    ∀ rD2 ra2 st2, applyAndPublish env toBlock rD rS msgs batches ra st =
        .ok (rD2, ra2) st2 →
      st2.seenBatchCount = n ∧ SeenMirror st2 ∧
      (ra2 = true → st2.pub.lastSeenBatchCount = n ∧
        st2.pub.lastReadBatchCount ≤ n) := by
  intro rD2 ra2 st2 hx
  rw [applyAndPublish] at hx
  by_cases hg : (!rD && !rS && (!msgs.isEmpty || !batches.isEmpty)) = true
  · rw [if_pos hg] at hx
    cases hadd : addMessages env st.tracker batches msgs with
    | error e =>
      rw [hadd] at hx
      exact PRes.noConfusion hx
    | ok a =>
      obtain ⟨mismatch, tr1⟩ := a
      rw [hadd] at hx
      dsimp only [] at hx
      by_cases hbe : batches.isEmpty = true
      · rw [if_pos hbe] at hx
        injection hx with hx1 hx2
        injection hx1 with hx1a hx1b
        subst hx2
        subst hx1b
        exact ⟨hseen, hsm, fun h2 => hra h2⟩
      · rw [if_neg hbe] at hx
        injection hx with hx1 hx2
        injection hx1 with hx1a hx1b
        subst hx2
        subst hx1b
        have hbne : batches ≠ [] := by
          intro hcon
          rw [hcon] at hbe
          exact hbe rfl
        have hnne : n ≠ maxUint64 := Nat.ne_of_lt (hcoh.countBound ch n hn)
        have hlast : (batches.getLastD default).sequenceNumber + 1 ≤ n :=
          hbs _ (getLastD_mem batches default hbne) ch n htbch hn
        set stMid : PassSt σ := { st with
            tracker := tr1,
            events := st.events ++ msgs.map
              (fun m => REvent.appliedMsgBlock (m.header.blockNumber : Int)) }
          with hstMid
        have hsmMid : SeenMirror stMid := hsm
        have hP : SeenMirror (publishRead (toUint64 toBlock)
            ((batches.getLastD default).sequenceNumber + 1) stMid) :=
          SeenMirror.afterPublish hsmMid
        have hPne : (publishRead (toUint64 toBlock)
            ((batches.getLastD default).sequenceNumber + 1) stMid).seenBatchCount ≠
            maxUint64 := by
          show st.seenBatchCount ≠ maxUint64
          rw [hseen]
          exact hnne
        refine ⟨?_, ?_, fun _ => ⟨?_, ?_⟩⟩
        · rw [(storeSeen_preserves _).2.2.2.2.2]
          show st.seenBatchCount = n
          exact hseen
        · exact SeenMirror.afterStore hP
        · have h2 := storeSeen_pubSeen hP hPne
          rw [h2]
          show st.seenBatchCount = n
          exact hseen
        · rw [(storeSeen_preserves _).2.1]
          show (batches.getLastD default).sequenceNumber + 1 ≤ n
          exact hlast
  · rw [if_neg hg] at hx
    injection hx with hx1 hx2
    injection hx1 with hx1a hx1b
    subst hx2
    subst hx1b
    exact ⟨hseen, hsm, fun h2 => hra h2⟩

/-- One scan iteration keeps the seen bookkeeping coherent, provided the
continuation does. -/
theorem scanIterSeen {σ : Type} {env : InboxEnv σ} (hcoh : SeqCoherent env)
    (fmb ch : Int) (n : Nat) (hn : env.siGetBatchCount ch = .ok n)
    (recurse : Bool → Bool → Bool → Bool → Bool → PassSt σ → ScanOut σ)
    (hrec : ∀ mD rD mS rS ra (st : PassSt σ),
      st.seenBatchCount = n → SeenMirror st →
      (ra = true → st.pub.lastSeenBatchCount = n ∧
        st.pub.lastReadBatchCount ≤ n) →
      ∀ ra2 st2, recurse mD rD mS rS ra st = .done ra2 st2 →
        st2.seenBatchCount = n ∧ SeenMirror st2 ∧
        (ra2 = true → st2.pub.lastSeenBatchCount = n ∧
          st2.pub.lastReadBatchCount ≤ n))
    (mD rD mS rS ra : Bool) (st : PassSt σ)
    (hseen : st.seenBatchCount = n) (hsm : SeenMirror st)
    (hra : ra = true → st.pub.lastSeenBatchCount = n ∧
      st.pub.lastReadBatchCount ≤ n) :
    ∀ ra2 st2, scanIter env fmb ch recurse mD rD mS rS ra st = .done ra2 st2 →
      st2.seenBatchCount = n ∧ SeenMirror st2 ∧
      (ra2 = true → st2.pub.lastSeenBatchCount = n ∧
        st2.pub.lastReadBatchCount ≤ n) := by
  intro ra2 st2 hx
  rw [scanIter] at hx
  dsimp only [] at hx
  generalize hTo : (if ch < st.fromBlock + 100 then ch else st.fromBlock + 100) = tB at hx
  have hto : tB ≤ ch := by
    rw [← hTo]
    split
    · exact le_refl ch
    · omega
  cases hdb : env.dbLookupMessagesInRange st.fromBlock tB with
  | error e =>
    rw [hdb] at hx
    exact ScanOut.noConfusion hx
  | ok delayedMessages =>
    rw [hdb] at hx
    dsimp only [] at hx
    cases hsb : env.siLookupBatchesInRange st.fromBlock tB with
    | error e =>
      rw [hsb] at hx
      exact ScanOut.noConfusion hx
    | ok sequencerBatches0 =>
      rw [hsb] at hx
      dsimp only [] at hx
      set stq := logQuery tB (logQuery st.fromBlock st) with hstq
      generalize hst3 : (if !stq.pub.caughtUp && decide (tB = ch) then
          { stq with
            pub := { stq.pub with caughtUp := true },
            events := stq.events ++ [.caughtUpSent tB ch] }
        else stq) = st3 at hx
      have hf3 : st3.seenBatchCount = st.seenBatchCount ∧
          st3.seenBatchCountStored = st.seenBatchCountStored ∧
          st3.pub.lastSeenBatchCount = st.pub.lastSeenBatchCount ∧
          st3.pub.lastReadBatchCount = st.pub.lastReadBatchCount := by
        by_cases hcond : (!stq.pub.caughtUp && decide (tB = ch)) = true
        · rw [if_pos hcond] at hst3
          subst hst3
          exact ⟨rfl, rfl, rfl, rfl⟩
        · rw [if_neg hcond] at hst3
          subst hst3
          exact ⟨rfl, rfl, rfl, rfl⟩
      have hseen3 : st3.seenBatchCount = n := by rw [hf3.1]; exact hseen
      have hsm3 : SeenMirror st3 := by
        intro hne
        rw [hf3.2.1] at hne
        rw [hf3.2.2.1, hf3.2.1]
        exact hsm hne
      have hra3 : ra = true → st3.pub.lastSeenBatchCount = n ∧
          st3.pub.lastReadBatchCount ≤ n := by
        intro h2
        rw [hf3.2.2.1, hf3.2.2.2]
        exact hra h2
      cases hse : analyzeSequencer env st3.tracker mS rS tB ch sequencerBatches0 with
      | error e =>
        rw [hse] at hx
        exact ScanOut.noConfusion hx
      | ok aS =>
        obtain ⟨mS2, rS2, sequencerBatches⟩ := aS
        rw [hse] at hx
        dsimp only [] at hx
        cases hde : analyzeDelayed env st3.tracker mD rD tB ch delayedMessages with
        | error e =>
          rw [hde] at hx
          exact ScanOut.noConfusion hx
        | ok aD =>
          obtain ⟨mD2, rD2⟩ := aD
          rw [hde] at hx
          dsimp only [] at hx
          have hbs : ∀ b ∈ sequencerBatches, ∀ h m, tB ≤ h →
              env.siGetBatchCount h = .ok m → b.sequenceNumber + 1 ≤ m := by
            intro b hb h m hth hm
            exact hcoh.rangeCounted st.fromBlock tB sequencerBatches0 hsb b
              (analyzeSequencer_subset env st3.tracker mS rS tB ch sequencerBatches0
                mS2 rS2 sequencerBatches hse b hb) h m hth hm
          cases hap : applyAndPublish env tB rD2 rS2 delayedMessages sequencerBatches
              ra st3 with
          | fail e st4 =>
            rw [hap] at hx
            exact ScanOut.noConfusion hx
          | ok aA st4 =>
            obtain ⟨rD3, ra3⟩ := aA
            have hf4 := applyAndPublishSeen hcoh n ch tB rD2 rS2 delayedMessages
              sequencerBatches ra st3 hto hn hbs hseen3 hsm3 hra3 rD3 ra3 st4 hap
            rw [hap] at hx
            dsimp only [] at hx
            by_cases hflag : (rD3 || rS2) = true
            · rw [if_pos hflag] at hx
              cases hpr : getPrevBlockForReorg fmb st4.fromBlock with
              | error e =>
                rw [hpr] at hx
                exact ScanOut.noConfusion hx
              | ok newFrom =>
                rw [hpr] at hx
                exact hrec mD2 rD3 mS2 rS2 ra3
                  { st4 with
                    fromBlock := newFrom,
                    events := st4.events ++ [.retreatForReorg newFrom] }
                  hf4.1 hf4.2.1 hf4.2.2 ra2 st2 hx
            · rw [if_neg hflag] at hx
              exact hrec mD2 rD3 mS2 rS2 ra3 { st4 with fromBlock := tB + 1 }
                hf4.1 hf4.2.1 hf4.2.2 ra2 st2 hx

/-- The range scan keeps the seen bookkeeping coherent. -/
theorem scanLoopSeen {σ : Type} {env : InboxEnv σ} (hcoh : SeqCoherent env)
    (fmb ch : Int) (cd : Bool) (n : Nat)
    (hn : env.siGetBatchCount ch = .ok n) :
    ∀ fuel mD rD mS rS ra (st : PassSt σ),
      st.seenBatchCount = n → SeenMirror st →
      (ra = true → st.pub.lastSeenBatchCount = n ∧
        st.pub.lastReadBatchCount ≤ n) →
      ∀ ra2 st2, scanLoop env fmb ch cd fuel mD rD mS rS ra st = .done ra2 st2 →
        st2.seenBatchCount = n ∧ SeenMirror st2 ∧
        (ra2 = true → st2.pub.lastSeenBatchCount = n ∧
          st2.pub.lastReadBatchCount ≤ n) := by
  intro fuel
  induction fuel with
  | zero =>
    intro mD rD mS rS ra st hseen hsm hra ra2 st2 hx
    rw [scanLoop] at hx
    exact ScanOut.noConfusion hx
  | succ fuel ih =>
    intro mD rD mS rS ra st hseen hsm hra ra2 st2 hx
    rw [scanLoop] at hx
    by_cases hcd : cd = true
    · rw [if_pos hcd] at hx
      exact ScanOut.noConfusion hx
    · rw [if_neg hcd] at hx
      by_cases hlt : ch < st.fromBlock
      · rw [if_pos hlt] at hx
        dsimp only [] at hx
        by_cases hfl : (!(rD || mD) && !(rS || mS)) = true
        · rw [if_pos hfl] at hx
          injection hx with hx1 hx2
          subst hx1
          subst hx2
          exact ⟨hseen, hsm, hra⟩
        · rw [if_neg hfl] at hx
          exact scanIterSeen hcoh fmb ch n hn _ ih mD (rD || mD) mS (rS || mS) ra
            { st with fromBlock := ch } hseen hsm hra ra2 st2 hx
      · rw [if_neg hlt] at hx
        exact scanIterSeen hcoh fmb ch n hn _ ih mD rD mS rS ra st
          hseen hsm hra ra2 st2 hx

/-- A pass that continues into the next pass ends with the published seen
counter at least the published read count. -/
theorem runPassSeen {σ : Type} {env : InboxEnv σ} (hcoh : SeqCoherent env)
    (cfg : InboxReaderConfig) (fmb : Int) (lh : Except InboxErr Int)
    (we : List WaitEvent) (cd : Bool) (fuel : Nat) (st : PassSt σ)
    (hsm : SeenMirror st) :
    ∀ st2, runPass env cfg fmb lh we cd fuel st = .nextPass st2 →
      st2.pub.lastReadBatchCount ≤ st2.pub.lastSeenBatchCount := by
  intro st2 hx
  rw [runPass] at hx
  cases hp : passProbe env cfg fmb lh we st with
  | fail e st1 =>
    rw [hp] at hx
    exact PassOut.noConfusion hx
  | shutdown st1 =>
    rw [hp] at hx
    exact PassOut.noConfusion hx
  | go ch mD rD mS rS cbc st1 =>
    have hf := passProbe_facts env cfg fmb lh we st _ hp
    have hfp : st1.pub = st.pub := hf.1
    have hfs : st1.seenBatchCountStored = st.seenBatchCountStored := hf.2.2.1
    have hgo := (passProbe_more env cfg fmb lh we st).2 ch mD rD mS rS cbc st1 hp
    obtain ⟨n, hn, hseen1, hcbcn, hpack⟩ := hgo
    have hnne : n ≠ maxUint64 := Nat.ne_of_lt (hcoh.countBound ch n hn)
    have hsm1 : SeenMirror st1 := by
      intro hne
      rw [hfs] at hne
      rw [hfp, hfs]
      exact hsm hne
    rw [hp] at hx
    dsimp only [] at hx
    by_cases hflag : (!mD && !rD && !mS && !rS) = true
    · rw [if_pos hflag] at hx
      injection hx with hx1
      subst hx1
      have hps : SeenMirror (publishRead (toUint64 ch) cbc
          { st1 with fromBlock := ch + 1 }) := SeenMirror.afterPublish hsm1
      have h2 := storeSeen_pubSeen hps
        (show ({ st1 with fromBlock := ch + 1 } : PassSt σ).seenBatchCount ≠ maxUint64
          from by
            show st1.seenBatchCount ≠ maxUint64
            rw [hseen1]
            exact hnne)
      rw [(storeSeen_preserves _).2.1, h2]
      show cbc ≤ st1.seenBatchCount
      rw [hseen1]
      exact hcbcn
    · rw [if_neg hflag] at hx
      cases hs : scanLoop env fmb ch cd fuel mD rD mS rS false st1 with
      | fail e st4 =>
        rw [hs] at hx
        exact PassOut.noConfusion hx
      | shutdown st4 =>
        rw [hs] at hx
        exact PassOut.noConfusion hx
      | fuelOut st4 =>
        rw [hs] at hx
        exact PassOut.noConfusion hx
      | done ra2 st4 =>
        have h4 := scanLoopSeen hcoh fmb ch cd n hn fuel mD rD mS rS false st1
          hseen1 hsm1 (fun hcon => Bool.noConfusion hcon) ra2 st4 hs
        rw [hs] at hx
        dsimp only [] at hx
        by_cases hra : ra2 = true
        · rw [if_pos hra] at hx
          injection hx with hx1
          subst hx1
          have h5 := h4.2.2 hra
          rw [h5.1]
          exact h5.2
        · rw [if_neg hra] at hx
          injection hx with hx1
          subst hx1
          have hps : SeenMirror (publishRead (toUint64 ch) cbc st4) :=
            SeenMirror.afterPublish h4.2.1
          have h2 := storeSeen_pubSeen hps
            (show (publishRead (toUint64 ch) cbc st4).seenBatchCount ≠ maxUint64
              from by
                show st4.seenBatchCount ≠ maxUint64
                rw [h4.1]
                exact hnne)
          rw [(storeSeen_preserves _).2.1, h2]
          show cbc ≤ st4.seenBatchCount
          rw [h4.1]
          exact hcbcn

/-- The scan-phase invariant relative to the anchor pair, the chain batch
count n at the effective height ch and the checking count cbc: the trace
is snapshot-monotone and anchored at the published read counters; the
published read count is bounded by the tracker batch count and by every
chain batch count at or beyond ch, and cbc is bounded by the tracker
batch count; the published read block is bounded by the scan cursor
capped at ch; the cursor stays in range; the run-local seen count is n
and the stored-seen mirror holds. -/
def ScanInv {σ : Type} (env : InboxEnv σ) (b0 c0 n cbc : Nat) (ch : Int)
    (st : PassSt σ) : Prop :=
  SnapInv b0 c0 st ∧
  (∀ m, env.trGetBatchCount st.tracker = .ok m → st.pub.lastReadBatchCount ≤ m) ∧
  (∀ h m, ch ≤ h → env.siGetBatchCount h = .ok m →
    st.pub.lastReadBatchCount ≤ m) ∧
  (∀ m, env.trGetBatchCount st.tracker = .ok m → cbc ≤ m) ∧
  st.pub.lastReadBlock ≤ toUint64 (min st.fromBlock ch) ∧
  0 ≤ st.fromBlock ∧ st.fromBlock ≤ ch + 1 ∧
  st.seenBatchCount = n ∧ SeenMirror st

/-- The apply step preserves the scan-phase counting invariants: a
publish it performs dominates the previously published counters and
re-establishes the bounds against the extended tracker. -/
theorem applyAndPublishMono {σ : Type} {env : InboxEnv σ} (hcoh : SeqCoherent env)
    (b0 c0 b1 c1 n cbc : Nat) (ch toBlock : Int) (rD rS : Bool)
    (msgs : List DelayedInboxMessage) (batches : List SequencerInboxBatch)
    (ra : Bool) (st : PassSt σ)
    (htbch : toBlock ≤ ch)
    (hn : env.siGetBatchCount ch = .ok n)
    (hbs : ∀ b ∈ batches, ∀ h m, toBlock ≤ h → env.siGetBatchCount h = .ok m →
      b.sequenceNumber + 1 ≤ m)
    (hsi : SnapInv b0 c0 st)
    (hjt : ∀ m, env.trGetBatchCount st.tracker = .ok m →
      st.pub.lastReadBatchCount ≤ m)
    (hkc : ∀ h m, ch ≤ h → env.siGetBatchCount h = .ok m →
      st.pub.lastReadBatchCount ≤ m)
    (hqt : ∀ m, env.trGetBatchCount st.tracker = .ok m → cbc ≤ m)
    (hlb : st.pub.lastReadBlock ≤ toUint64 toBlock)
    (hseen : st.seenBatchCount = n) (hsm : SeenMirror st)
    (hra : ra = true → st.pub.lastSeenBatchCount = n)
    (hrb : ra = false → st.pub.lastReadBlock = b1 ∧
      st.pub.lastReadBatchCount = c1) :
    (∀ e st2, applyAndPublish env toBlock rD rS msgs batches ra st = .fail e st2 →
      SnapInv b0 c0 st2) ∧
    (∀ rD2 ra2 st2, applyAndPublish env toBlock rD rS msgs batches ra st =
        .ok (rD2, ra2) st2 →
      st2.fromBlock = st.fromBlock ∧ st2.seenBatchCount = n ∧ SeenMirror st2 ∧
      SnapInv b0 c0 st2 ∧
      (rD2 = false →
        (∀ m, env.trGetBatchCount st2.tracker = .ok m →
          st2.pub.lastReadBatchCount ≤ m) ∧
        (∀ h m, ch ≤ h → env.siGetBatchCount h = .ok m →
          st2.pub.lastReadBatchCount ≤ m) ∧
        (∀ m, env.trGetBatchCount st2.tracker = .ok m → cbc ≤ m) ∧
        st2.pub.lastReadBlock ≤ toUint64 toBlock ∧
        (ra2 = true → st2.pub.lastSeenBatchCount = n) ∧
        (ra2 = false → st2.pub.lastReadBlock = b1 ∧
          st2.pub.lastReadBatchCount = c1))) := by
  have main : ∀ x, applyAndPublish env toBlock rD rS msgs batches ra st = x →
      (∀ e st2, x = .fail e st2 → SnapInv b0 c0 st2) ∧
      (∀ rD2 ra2 st2, x = .ok (rD2, ra2) st2 →
        st2.fromBlock = st.fromBlock ∧ st2.seenBatchCount = n ∧ SeenMirror st2 ∧
        SnapInv b0 c0 st2 ∧
        (rD2 = false →
          (∀ m, env.trGetBatchCount st2.tracker = .ok m →
            st2.pub.lastReadBatchCount ≤ m) ∧
          (∀ h m, ch ≤ h → env.siGetBatchCount h = .ok m →
            st2.pub.lastReadBatchCount ≤ m) ∧
          (∀ m, env.trGetBatchCount st2.tracker = .ok m → cbc ≤ m) ∧
          st2.pub.lastReadBlock ≤ toUint64 toBlock ∧
          (ra2 = true → st2.pub.lastSeenBatchCount = n) ∧
          (ra2 = false → st2.pub.lastReadBlock = b1 ∧
            st2.pub.lastReadBatchCount = c1))) := by
    intro x hx
    rw [applyAndPublish] at hx
    by_cases hg : (!rD && !rS && (!msgs.isEmpty || !batches.isEmpty)) = true
    · rw [if_pos hg] at hx
      have hrd : rD = false := by
        cases rD with
        | false => rfl
        | true => simp at hg
      cases hadd : addMessages env st.tracker batches msgs with
      | error e =>
        rw [hadd] at hx
        subst hx
        refine ⟨?_, fun rD2 ra2 st2 h => PRes.noConfusion h⟩
        intro e2 st2 h
        injection h with h1 h2
        rw [← h2]
        exact hsi
      | ok a =>
        obtain ⟨mismatch, tr1⟩ := a
        have hmf : mismatch = false := addMessages_noMismatch hcoh st.tracker
          batches msgs mismatch tr1 hadd
        subst hmf
        rw [hadd] at hx
        dsimp only [] at hx
        set stMid : PassSt σ := { st with
            tracker := tr1,
            events := st.events ++ msgs.map
              (fun m => REvent.appliedMsgBlock (m.header.blockNumber : Int)) }
          with hstMid
        have hsiMid : SnapInv b0 c0 stMid :=
          SnapInv.extendNosnap hsi
            (msgs.map (fun m => REvent.appliedMsgBlock (m.header.blockNumber : Int)))
            rfl
            (by
              intro e he
              obtain ⟨m2, hm2, hme⟩ := List.mem_map.1 he
              rw [← hme]
              rfl)
            rfl rfl
        have hsmMid : SeenMirror stMid := hsm
        by_cases hbe : batches.isEmpty = true
        · rw [if_pos hbe] at hx
          subst hx
          have hbnil : batches = [] := by
            cases batches with
            | nil => rfl
            | cons a t => exact absurd hbe (by simp)
          have hcnt : env.trGetBatchCount tr1 = env.trGetBatchCount st.tracker := by
            rcases addMessages_count hcoh st.tracker batches msgs tr1 hadd with
              ⟨_, h2⟩ | ⟨hne, _⟩
            · exact h2
            · exact absurd hbnil hne
          refine ⟨fun e st2 h => PRes.noConfusion h, ?_⟩
          intro rD2 ra2 st2 h
          injection h with h1 h2
          injection h1 with h1a h1b
          subst h2
          subst h1b
          have hrd2 : rD = rD2 := h1a
          refine ⟨rfl, hseen, hsmMid, hsiMid, ?_⟩
          intro h0
          refine ⟨?_, ?_, ?_, hlb, ?_, ?_⟩
          · intro m hm
            have hm2 : env.trGetBatchCount st.tracker = .ok m := by
              rw [← hcnt]
              exact hm
            exact hjt m hm2
          · intro h m hh hm
            exact hkc h m hh hm
          · intro m hm
            have hm2 : env.trGetBatchCount st.tracker = .ok m := by
              rw [← hcnt]
              exact hm
            exact hqt m hm2
          · intro h2
            exact hra h2
          · intro h2
            exact hrb h2
        · rw [if_neg hbe] at hx
          subst hx
          have hbne : batches ≠ [] := by
            intro hcon
            rw [hcon] at hbe
            exact hbe rfl
          have hext : ∃ m, env.trGetBatchCount st.tracker = .ok m ∧
              m ≤ (batches.getLastD default).sequenceNumber + 1 ∧
              env.trGetBatchCount tr1 =
                .ok ((batches.getLastD default).sequenceNumber + 1) := by
            rcases addMessages_count hcoh st.tracker batches msgs tr1 hadd with
              ⟨hnil, _⟩ | ⟨_, h2⟩
            · exact absurd hnil hbne
            · exact h2
          obtain ⟨m0, hm0, hle0, hcnt1⟩ := hext
          have hnne : n ≠ maxUint64 := Nat.ne_of_lt (hcoh.countBound ch n hn)
          have hlast : (batches.getLastD default).sequenceNumber + 1 ≤ n :=
            hbs _ (getLastD_mem batches default hbne) ch n htbch hn
          have hP : SnapInv b0 c0 (publishRead (toUint64 toBlock)
              ((batches.getLastD default).sequenceNumber + 1) stMid) :=
            SnapInv.publishOk hsiMid
              (show st.pub.lastReadBlock ≤ toUint64 toBlock from hlb)
              (show st.pub.lastReadBatchCount ≤
                (batches.getLastD default).sequenceNumber + 1 from
                le_trans (hjt m0 hm0) hle0)
          have hPm : SeenMirror (publishRead (toUint64 toBlock)
              ((batches.getLastD default).sequenceNumber + 1) stMid) :=
            SeenMirror.afterPublish hsmMid
          have hPne : (publishRead (toUint64 toBlock)
              ((batches.getLastD default).sequenceNumber + 1) stMid).seenBatchCount ≠
              maxUint64 := by
            show st.seenBatchCount ≠ maxUint64
            rw [hseen]
            exact hnne
          refine ⟨fun e st2 h => PRes.noConfusion h, ?_⟩
          intro rD2 ra2 st2 h
          injection h with h1 h2
          injection h1 with h1a h1b
          subst h2
          subst h1b
          have hrv : (storeSeenBatchCount (publishRead (toUint64 toBlock)
              ((batches.getLastD default).sequenceNumber + 1)
              stMid)).pub.lastReadBatchCount =
              (batches.getLastD default).sequenceNumber + 1 :=
            (storeSeen_preserves _).2.1
          have hbv : (storeSeenBatchCount (publishRead (toUint64 toBlock)
              ((batches.getLastD default).sequenceNumber + 1)
              stMid)).pub.lastReadBlock = toUint64 toBlock :=
            (storeSeen_preserves _).1
          have htrv : (storeSeenBatchCount (publishRead (toUint64 toBlock)
              ((batches.getLastD default).sequenceNumber + 1)
              stMid)).tracker = tr1 :=
            (storeSeen_preserves _).2.2.2.2.1
          refine ⟨?_, ?_, SeenMirror.afterStore hPm, SnapInv.storeSeenOk hP, ?_⟩
          · rw [(storeSeen_preserves _).2.2.2.1]
            rfl
          · rw [(storeSeen_preserves _).2.2.2.2.2]
            show st.seenBatchCount = n
            exact hseen
          · intro h0
            refine ⟨?_, ?_, ?_, ?_, ?_, ?_⟩
            · intro m hm
              rw [htrv, hcnt1] at hm
              injection hm with hm
              rw [hrv, ← hm]
            · intro h m hh hm
              rw [hrv]
              exact hbs _ (getLastD_mem batches default hbne) h m
                (le_trans htbch hh) hm
            · intro m hm
              rw [htrv, hcnt1] at hm
              injection hm with hm
              rw [← hm]
              exact le_trans (hqt m0 hm0) hle0
            · rw [hbv]
            · intro _
              have h2 := storeSeen_pubSeen hPm hPne
              rw [h2]
              show st.seenBatchCount = n
              exact hseen
            · intro hcon
              exact Bool.noConfusion hcon
    · rw [if_neg hg] at hx
      subst hx
      refine ⟨fun e st2 h => PRes.noConfusion h, ?_⟩
      intro rD2 ra2 st2 h
      injection h with h1 h2
      injection h1 with h1a h1b
      subst h2
      subst h1b
      subst h1a
      refine ⟨rfl, hseen, hsm, hsi, ?_⟩
      intro h0
      exact ⟨hjt, hkc, hqt, hlb, fun h2 => hra h2, fun h2 => hrb h2⟩
  exact ⟨fun e st2 h => (main _ rfl).1 e st2 h,
    fun rD2 ra2 st2 h => (main _ rfl).2 rD2 ra2 st2 h⟩

/-- One scan iteration preserves the scan-phase invariant and the
snapshot monotonicity, provided the continuation does and the final trace
contains no reorg retreat. -/
theorem scanIterMono {σ : Type} {env : InboxEnv σ} (hcoh : SeqCoherent env)
    (fmb ch : Int) (b0 c0 b1 c1 n cbc : Nat)
    (hn : env.siGetBatchCount ch = .ok n)
    (hch0 : 0 ≤ ch) (hch64 : ch < 2 ^ 64)
    (recurse : Bool → Bool → Bool → Bool → Bool → PassSt σ → ScanOut σ)
    (hrec : ∀ mD rD mS rS ra (st1 : PassSt σ),
      ScanInv env b0 c0 n cbc ch st1 →
      (ra = true → st1.pub.lastSeenBatchCount = n) →
      (ra = false → st1.pub.lastReadBlock = b1 ∧
        st1.pub.lastReadBatchCount = c1) →
      ((recurse mD rD mS rS ra st1).state.events.all
        (fun e => ! e.isRetreat) = true) →
      SnapInv b0 c0 (recurse mD rD mS rS ra st1).state ∧
      ∀ ra2 st2, recurse mD rD mS rS ra st1 = .done ra2 st2 →
        ScanInv env b0 c0 n cbc ch st2 ∧ st2.fromBlock = ch + 1 ∧
        (ra2 = true → st2.pub.lastSeenBatchCount = n) ∧
        (ra2 = false → st2.pub.lastReadBlock = b1 ∧
          st2.pub.lastReadBatchCount = c1))
    (hrtail : ∀ mD rD mS rS ra (st1 : PassSt σ), ∃ t,
      ((recurse mD rD mS rS ra st1).state).events = st1.events ++ t)
    (mD rD mS rS ra : Bool) (st : PassSt σ)
    (hinv : ScanInv env b0 c0 n cbc ch st)
    (hra : ra = true → st.pub.lastSeenBatchCount = n)
    (hrb : ra = false → st.pub.lastReadBlock = b1 ∧
      st.pub.lastReadBatchCount = c1)
    (hfb : st.fromBlock ≤ ch)
    (hnr : (scanIter env fmb ch recurse mD rD mS rS ra st).state.events.all
      (fun e => ! e.isRetreat) = true) :
    SnapInv b0 c0 (scanIter env fmb ch recurse mD rD mS rS ra st).state ∧
    ∀ ra2 st2, scanIter env fmb ch recurse mD rD mS rS ra st = .done ra2 st2 →
      ScanInv env b0 c0 n cbc ch st2 ∧ st2.fromBlock = ch + 1 ∧
      (ra2 = true → st2.pub.lastSeenBatchCount = n) ∧
      (ra2 = false → st2.pub.lastReadBlock = b1 ∧
        st2.pub.lastReadBatchCount = c1) := by
  have main : ∀ x, scanIter env fmb ch recurse mD rD mS rS ra st = x →
      (x.state.events.all (fun e => ! e.isRetreat) = true) →
      SnapInv b0 c0 x.state ∧
      ∀ ra2 st2, x = .done ra2 st2 →
        ScanInv env b0 c0 n cbc ch st2 ∧ st2.fromBlock = ch + 1 ∧
        (ra2 = true → st2.pub.lastSeenBatchCount = n) ∧
        (ra2 = false → st2.pub.lastReadBlock = b1 ∧
          st2.pub.lastReadBatchCount = c1) := by
    intro x hx hnrx
    obtain ⟨s1, s2, s3, s4, s5, s6, s7, s8, s9⟩ := hinv
    rw [scanIter] at hx
    dsimp only [] at hx
    generalize hTo : (if ch < st.fromBlock + 100 then ch else st.fromBlock + 100) = tB
      at hx
    have hto : tB ≤ ch := by
      rw [← hTo]
      split
      · exact le_refl ch
      · omega
    have htb0 : 0 ≤ tB := by
      rw [← hTo]
      split <;> omega
    have htbfb : st.fromBlock ≤ tB := by
      rw [← hTo]
      split <;> omega
    have htb64 : tB < 2 ^ 64 := lt_of_le_of_lt hto hch64
    have hsnapq : SnapInv b0 c0 (logQuery tB (logQuery st.fromBlock st)) :=
      SnapInv.extendNosnap s1 [.queryBlock st.fromBlock, .queryBlock tB]
        (List.append_assoc _ _ _)
        (by
          intro e he
          rcases List.mem_cons.1 he with h1 | h1
          · rw [h1]
            rfl
          · rw [List.mem_singleton.1 h1]
            rfl)
        rfl rfl
    cases hdb : env.dbLookupMessagesInRange st.fromBlock tB with
    | error e =>
      rw [hdb] at hx
      subst hx
      exact ⟨hsnapq, fun ra2 st2 h => ScanOut.noConfusion h⟩
    | ok delayedMessages =>
      rw [hdb] at hx
      dsimp only [] at hx
      cases hsb : env.siLookupBatchesInRange st.fromBlock tB with
      | error e =>
        rw [hsb] at hx
        subst hx
        exact ⟨hsnapq, fun ra2 st2 h => ScanOut.noConfusion h⟩
      | ok sequencerBatches0 =>
        rw [hsb] at hx
        dsimp only [] at hx
        set stq := logQuery tB (logQuery st.fromBlock st) with hstq
        generalize hst3 : (if !stq.pub.caughtUp && decide (tB = ch) then
            { stq with
              pub := { stq.pub with caughtUp := true },
              events := stq.events ++ [.caughtUpSent tB ch] }
          else stq) = st3 at hx
        have h3 : SnapInv b0 c0 st3 ∧
            st3.fromBlock = st.fromBlock ∧
            st3.tracker = st.tracker ∧
            st3.pub.lastReadBlock = st.pub.lastReadBlock ∧
            st3.pub.lastReadBatchCount = st.pub.lastReadBatchCount ∧
            st3.pub.lastSeenBatchCount = st.pub.lastSeenBatchCount ∧
            st3.seenBatchCount = st.seenBatchCount ∧
            st3.seenBatchCountStored = st.seenBatchCountStored := by
          by_cases hcond : (!stq.pub.caughtUp && decide (tB = ch)) = true
          · rw [if_pos hcond] at hst3
            subst hst3
            refine ⟨SnapInv.extendNosnap hsnapq [.caughtUpSent tB ch] rfl ?_ rfl rfl,
              rfl, rfl, rfl, rfl, rfl, rfl, rfl⟩
            intro e he
            rw [List.mem_singleton.1 he]
            rfl
          · rw [if_neg hcond] at hst3
            subst hst3
            exact ⟨hsnapq, rfl, rfl, rfl, rfl, rfl, rfl, rfl⟩
        have hjt3 : ∀ m, env.trGetBatchCount st3.tracker = .ok m →
            st3.pub.lastReadBatchCount ≤ m := by
          intro m hm
          rw [h3.2.2.2.2.1]
          refine s2 m ?_
          rw [← h3.2.2.1]
          exact hm
        have hkc3 : ∀ h m, ch ≤ h → env.siGetBatchCount h = .ok m →
            st3.pub.lastReadBatchCount ≤ m := by
          intro h m hh hm
          rw [h3.2.2.2.2.1]
          exact s3 h m hh hm
        have hqt3 : ∀ m, env.trGetBatchCount st3.tracker = .ok m → cbc ≤ m := by
          intro m hm
          refine s4 m ?_
          rw [← h3.2.2.1]
          exact hm
        have hlb3 : st3.pub.lastReadBlock ≤ toUint64 tB := by
          rw [h3.2.2.2.1]
          refine le_trans s5 (toUint64_mono ?_ htb64)
          exact le_trans (min_le_left _ _) htbfb
        have hseen3 : st3.seenBatchCount = n := by
          rw [h3.2.2.2.2.2.2.1]
          exact s8
        have hsm3 : SeenMirror st3 := by
          intro hne
          rw [h3.2.2.2.2.2.2.2] at hne
          rw [h3.2.2.2.2.2.1, h3.2.2.2.2.2.2.2]
          exact s9 hne
        have hra3 : ra = true → st3.pub.lastSeenBatchCount = n := by
          intro h2
          rw [h3.2.2.2.2.2.1]
          exact hra h2
        have hrb3 : ra = false → st3.pub.lastReadBlock = b1 ∧
            st3.pub.lastReadBatchCount = c1 := by
          intro h2
          rw [h3.2.2.2.1, h3.2.2.2.2.1]
          exact hrb h2
        cases hse : analyzeSequencer env st3.tracker mS rS tB ch sequencerBatches0 with
        | error e =>
          rw [hse] at hx
          subst hx
          exact ⟨h3.1, fun ra2 st2 h => ScanOut.noConfusion h⟩
        | ok aS =>
          obtain ⟨mS2, rS2, sequencerBatches⟩ := aS
          rw [hse] at hx
          dsimp only [] at hx
          cases hde : analyzeDelayed env st3.tracker mD rD tB ch delayedMessages with
          | error e =>
            rw [hde] at hx
            subst hx
            exact ⟨h3.1, fun ra2 st2 h => ScanOut.noConfusion h⟩
          | ok aD =>
            obtain ⟨mD2, rD2⟩ := aD
            rw [hde] at hx
            dsimp only [] at hx
            have hbs : ∀ b ∈ sequencerBatches, ∀ h m, tB ≤ h →
                env.siGetBatchCount h = .ok m → b.sequenceNumber + 1 ≤ m := by
              intro b hb h m hth hm
              exact hcoh.rangeCounted st.fromBlock tB sequencerBatches0 hsb b
                (analyzeSequencer_subset env st3.tracker mS rS tB ch
                  sequencerBatches0 mS2 rS2 sequencerBatches hse b hb) h m hth hm
            have hAP := applyAndPublishMono hcoh b0 c0 b1 c1 n cbc ch tB rD2 rS2
              delayedMessages sequencerBatches ra st3 hto hn hbs h3.1
              hjt3 hkc3 hqt3 hlb3 hseen3 hsm3 hra3 hrb3
            cases hap : applyAndPublish env tB rD2 rS2 delayedMessages
                sequencerBatches ra st3 with
            | fail e st4 =>
              rw [hap] at hx
              subst hx
              exact ⟨hAP.1 e st4 hap, fun ra2 st2 h => ScanOut.noConfusion h⟩
            | ok aA st4 =>
              obtain ⟨rD3, ra4⟩ := aA
              have hA := hAP.2 rD3 ra4 st4 hap
              rw [hap] at hx
              dsimp only [] at hx
              by_cases hflag : (rD3 || rS2) = true
              · rw [if_pos hflag] at hx
                cases hpr : getPrevBlockForReorg fmb st4.fromBlock with
                | error e =>
                  rw [hpr] at hx
                  subst hx
                  exact ⟨hA.2.2.2.1, fun ra2 st2 h => ScanOut.noConfusion h⟩
                | ok newFrom =>
                  rw [hpr] at hx
                  subst hx
                  exfalso
                  have hall := all_of_tail (hrtail mD2 rD3 mS2 rS2 ra4
                    { st4 with
                      fromBlock := newFrom,
                      events := st4.events ++ [.retreatForReorg newFrom] }) hnrx
                  rw [List.all_eq_true] at hall
                  have hmem : REvent.retreatForReorg newFrom ∈
                      ({ st4 with
                        fromBlock := newFrom,
                        events := st4.events ++ [.retreatForReorg newFrom] } :
                        PassSt σ).events := by
                    show REvent.retreatForReorg newFrom ∈
                      st4.events ++ [.retreatForReorg newFrom]
                    exact List.mem_append_right _ (List.mem_singleton_self _)
                  have hcontra := hall _ hmem
                  simp [REvent.isRetreat] at hcontra
              · rw [if_neg hflag] at hx
                subst hx
                have hboth : rD3 = false ∧ rS2 = false := by
                  cases hD : rD3 with
                  | true =>
                    rw [hD] at hflag
                    simp at hflag
                  | false =>
                    cases hS : rS2 with
                    | true =>
                      rw [hD, hS] at hflag
                      simp at hflag
                    | false => exact ⟨rfl, rfl⟩
                obtain ⟨j4, k4, q4, bl4, rt4, rf4⟩ := hA.2.2.2.2 hboth.1
                have hinv4 : ScanInv env b0 c0 n cbc ch
                    ({ st4 with fromBlock := tB + 1 } : PassSt σ) := by
                  refine ⟨hA.2.2.2.1, j4, k4, q4, ?_, ?_, ?_, hA.2.1, hA.2.2.1⟩
                  · show st4.pub.lastReadBlock ≤ toUint64 (min (tB + 1) ch)
                    refine le_trans bl4 (toUint64_mono ?_ ?_)
                    · exact le_min (by omega) hto
                    · exact lt_of_le_of_lt (min_le_right _ _) hch64
                  · show (0 : Int) ≤ tB + 1
                    omega
                  · show tB + 1 ≤ ch + 1
                    omega
                have hra4 : ra4 = true →
                    ({ st4 with fromBlock := tB + 1 } :
                      PassSt σ).pub.lastSeenBatchCount = n := by
                  intro h2
                  exact rt4 h2
                have hrb4 : ra4 = false →
                    ({ st4 with fromBlock := tB + 1 } :
                      PassSt σ).pub.lastReadBlock = b1 ∧
                    ({ st4 with fromBlock := tB + 1 } :
                      PassSt σ).pub.lastReadBatchCount = c1 := by
                  intro h2
                  exact rf4 h2
                exact hrec mD2 rD3 mS2 rS2 ra4 { st4 with fromBlock := tB + 1 }
                  hinv4 hra4 hrb4 hnrx
  exact ⟨(main _ rfl hnr).1, (main _ rfl hnr).2⟩

/-- The range scan preserves the scan-phase invariant and the snapshot
monotonicity when the final trace contains no reorg retreat; a normal
exit leaves the cursor one past the effective height. -/
theorem scanLoopMono {σ : Type} {env : InboxEnv σ} (hcoh : SeqCoherent env)
    (fmb ch : Int) (cd : Bool) (b0 c0 b1 c1 n cbc : Nat)
    (hn : env.siGetBatchCount ch = .ok n)
    (hch0 : 0 ≤ ch) (hch64 : ch < 2 ^ 64) :
    ∀ fuel mD rD mS rS ra (st : PassSt σ),
      ScanInv env b0 c0 n cbc ch st →
      (ra = true → st.pub.lastSeenBatchCount = n) →
      (ra = false → st.pub.lastReadBlock = b1 ∧
        st.pub.lastReadBatchCount = c1) →
      ((scanLoop env fmb ch cd fuel mD rD mS rS ra st).state.events.all
        (fun e => ! e.isRetreat) = true) →
      SnapInv b0 c0 (scanLoop env fmb ch cd fuel mD rD mS rS ra st).state ∧
      ∀ ra2 st2, scanLoop env fmb ch cd fuel mD rD mS rS ra st = .done ra2 st2 →
        ScanInv env b0 c0 n cbc ch st2 ∧ st2.fromBlock = ch + 1 ∧
        (ra2 = true → st2.pub.lastSeenBatchCount = n) ∧
        (ra2 = false → st2.pub.lastReadBlock = b1 ∧
          st2.pub.lastReadBatchCount = c1) := by
  intro fuel
  induction fuel with
  | zero =>
    intro mD rD mS rS ra st hinv hra hrb hnr
    constructor
    · show SnapInv b0 c0 (ScanOut.fuelOut st).state
      exact hinv.1
    · intro ra2 st2 h
      exact ScanOut.noConfusion
        (show ScanOut.fuelOut st = ScanOut.done ra2 st2 from h)
  | succ fuel ih =>
    intro mD rD mS rS ra st hinv hra hrb hnr
    have main : ∀ x, scanLoop env fmb ch cd (fuel + 1) mD rD mS rS ra st = x →
        (x.state.events.all (fun e => ! e.isRetreat) = true) →
        SnapInv b0 c0 x.state ∧
        ∀ ra2 st2, x = .done ra2 st2 →
          ScanInv env b0 c0 n cbc ch st2 ∧ st2.fromBlock = ch + 1 ∧
          (ra2 = true → st2.pub.lastSeenBatchCount = n) ∧
          (ra2 = false → st2.pub.lastReadBlock = b1 ∧
            st2.pub.lastReadBatchCount = c1) := by
      intro x hx hnrx
      rw [scanLoop] at hx
      by_cases hcd : cd = true
      · rw [if_pos hcd] at hx
        subst hx
        exact ⟨hinv.1, fun ra2 st2 h => ScanOut.noConfusion h⟩
      · rw [if_neg hcd] at hx
        by_cases hlt : ch < st.fromBlock
        · rw [if_pos hlt] at hx
          dsimp only [] at hx
          by_cases hfl : (!(rD || mD) && !(rS || mS)) = true
          · rw [if_pos hfl] at hx
            subst hx
            refine ⟨hinv.1, ?_⟩
            intro ra2 st2 h
            injection h with h1 h2
            subst h1
            subst h2
            have h7 := hinv.2.2.2.2.2.2.1
            have hfbeq : st.fromBlock = ch + 1 := by omega
            exact ⟨hinv, hfbeq, hra, hrb⟩
          · rw [if_neg hfl] at hx
            subst hx
            have h7 := hinv.2.2.2.2.2.2.1
            have hfbeq : st.fromBlock = ch + 1 := by omega
            have hinvR : ScanInv env b0 c0 n cbc ch
                ({ st with fromBlock := ch } : PassSt σ) := by
              obtain ⟨s1, s2, s3, s4, s5, s6, s7b, s8, s9⟩ := hinv
              refine ⟨s1, s2, s3, s4, ?_, ?_, ?_, s8, s9⟩
              · show st.pub.lastReadBlock ≤ toUint64 (min ch ch)
                refine le_trans s5 ?_
                rw [hfbeq]
                have hm1 : min (ch + 1 : Int) ch = ch := min_eq_right (by omega)
                rw [hm1, min_self]
              · show (0 : Int) ≤ ch
                exact hch0
              · show ch ≤ ch + 1
                omega
            exact scanIterMono hcoh fmb ch b0 c0 b1 c1 n cbc hn hch0 hch64
              (scanLoop env fmb ch cd fuel) ih (scanLoop_tail env fmb ch cd fuel)
              mD (rD || mD) mS (rS || mS) ra { st with fromBlock := ch }
              hinvR hra hrb (le_refl ch) hnrx
        · rw [if_neg hlt] at hx
          subst hx
          exact scanIterMono hcoh fmb ch b0 c0 b1 c1 n cbc hn hch0 hch64
            (scanLoop env fmb ch cd fuel) ih (scanLoop_tail env fmb ch cd fuel)
            mD rD mS rS ra st hinv hra hrb (le_of_not_lt hlt) hnrx
    exact main _ rfl hnr

/-- The cross-pass invariant relative to the anchor pair: the trace is
snapshot-monotone and anchored at the published read counters, the
published read block is bounded by the resume cursor, the published read
count is bounded by the tracker batch count and by every chain batch
count from the resume cursor on, and the stored-seen mirror holds. -/
def CrossInv {σ : Type} (env : InboxEnv σ) (b0 c0 : Nat) (st : PassSt σ) : Prop :=
  SnapInv b0 c0 st ∧ 0 ≤ st.fromBlock ∧
  st.pub.lastReadBlock ≤ toUint64 (st.fromBlock - 1) ∧
  (∀ m, env.trGetBatchCount st.tracker = .ok m →
    st.pub.lastReadBatchCount ≤ m) ∧
  (∀ h m, st.fromBlock - 1 ≤ h → env.siGetBatchCount h = .ok m →
    st.pub.lastReadBatchCount ≤ m) ∧
  SeenMirror st

/-- One pass preserves the snapshot monotonicity on every outcome and the
cross-pass invariant on a continuing outcome, provided the trace stays
retreat-free and the heights this pass can observe lie in range at or
beyond the resume cursor. -/
theorem runPassMono {σ : Type} {env : InboxEnv σ} (hcoh : SeqCoherent env)
    (cfg : InboxReaderConfig) (fmb : Int) (lh : Except InboxErr Int)
    (we : List WaitEvent) (cd : Bool) (fuel : Nat) (st : PassSt σ) (b0 c0 : Nat)
    (hhr : cfg.hardReorg = false)
    (hfmb0 : 0 ≤ fmb) (hfmb64 : fmb < 2 ^ 64)
    (hci : CrossInv env b0 c0 st)
    (hH : ∀ v, (lh = .ok v ∨ v ∈ newHeaderVals we) →
      0 ≤ v ∧ v < 2 ^ 64 ∧ st.fromBlock - 1 ≤ applyDelayWindow cfg fmb v)
    (hnr : ((runPass env cfg fmb lh we cd fuel st).state).events.all
      (fun e => ! e.isRetreat) = true) :
    SnapInv b0 c0 (runPass env cfg fmb lh we cd fuel st).state ∧
    ∀ st2, runPass env cfg fmb lh we cd fuel st = .nextPass st2 →
      CrossInv env b0 c0 st2 ∧
      ∃ v, (lh = .ok v ∨ v ∈ newHeaderVals we) ∧
        st2.fromBlock ≤ applyDelayWindow cfg fmb v + 1 := by
  obtain ⟨c1s, c2s, c3s, c4s, c5s, c6s⟩ := hci
  have main : ∀ x, runPass env cfg fmb lh we cd fuel st = x →
      (x.state.events.all (fun e => ! e.isRetreat) = true) →
      SnapInv b0 c0 x.state ∧
      ∀ st2, x = .nextPass st2 →
        CrossInv env b0 c0 st2 ∧
        ∃ v, (lh = .ok v ∨ v ∈ newHeaderVals we) ∧
          st2.fromBlock ≤ applyDelayWindow cfg fmb v + 1 := by
    intro x hx hnrx
    rw [runPass] at hx
    cases hp : passProbe env cfg fmb lh we st with
    | fail e st1 =>
      rw [hp] at hx
      subst hx
      have hpm := (passProbe_more env cfg fmb lh we st).1 _ hp
      have hpf := passProbe_facts env cfg fmb lh we st _ hp
      have hpub : st1.pub = st.pub := hpf.1
      have hs1 : SnapInv b0 c0 st1 := by
        obtain ⟨t, htev, htns⟩ := hpm.2
        refine SnapInv.extendNosnap c1s t htev htns ?_ ?_
        · rw [hpub]
        · rw [hpub]
      exact ⟨SnapInv.storeSeenOk hs1, fun st2 h => PassOut.noConfusion h⟩
    | shutdown st1 =>
      rw [hp] at hx
      subst hx
      have hpm := (passProbe_more env cfg fmb lh we st).1 _ hp
      have hpf := passProbe_facts env cfg fmb lh we st _ hp
      have hpub : st1.pub = st.pub := hpf.1
      have hs1 : SnapInv b0 c0 st1 := by
        obtain ⟨t, htev, htns⟩ := hpm.2
        refine SnapInv.extendNosnap c1s t htev htns ?_ ?_
        · rw [hpub]
        · rw [hpub]
      exact ⟨SnapInv.storeSeenOk hs1, fun st2 h => PassOut.noConfusion h⟩
    | go ch mD rD mS rS cbc st1 =>
      rw [hp] at hx
      dsimp only [] at hx
      have hpf := passProbe_facts env cfg fmb lh we st _ hp
      have hpub : st1.pub = st.pub := hpf.1
      have hfb1 : st1.fromBlock = st.fromBlock := hpf.2.1
      have hstored : st1.seenBatchCountStored = st.seenBatchCountStored := hpf.2.2.1
      have hph : passHeight cfg fmb lh we st.fromBlock = some ch :=
        (hpf.2.2.2.2 ch mD rD mS rS cbc st1 rfl).1
      obtain ⟨v, hvin, hchv⟩ := passHeight_inv cfg fmb lh we st.fromBlock ch hph
      obtain ⟨hv0, hv64, hvfb⟩ := hH v hvin
      have hch0 : 0 ≤ ch := by
        rw [hchv]
        exact (applyDelayWindow_bounds cfg fmb v hfmb0 hfmb64 hv0 hv64).1
      have hch64 : ch < 2 ^ 64 := by
        rw [hchv]
        exact (applyDelayWindow_bounds cfg fmb v hfmb0 hfmb64 hv0 hv64).2
      have hfbch : st.fromBlock - 1 ≤ ch := by
        rw [hchv]
        exact hvfb
      have hpm := (passProbe_more env cfg fmb lh we st).1 _ hp
      have htr1 : st1.tracker = st.tracker := hpm.1 hhr
      have hs1 : SnapInv b0 c0 st1 := by
        obtain ⟨t, htev, htns⟩ := hpm.2
        refine SnapInv.extendNosnap c1s t htev htns ?_ ?_
        · rw [hpub]
        · rw [hpub]
      obtain ⟨n, hn, hseen1, hcbcn, hpack⟩ :=
        (passProbe_more env cfg fmb lh we st).2 ch mD rD mS rS cbc st1 hp
      obtain ⟨our, hour, hcbcour, hmsf, hmst⟩ := hpack hhr
      have hsm1 : SeenMirror st1 := by
        intro hne
        rw [hstored] at hne
        rw [hpub, hstored]
        exact c6s hne
      have hnne : n ≠ maxUint64 := Nat.ne_of_lt (hcoh.countBound ch n hn)
      have hb1le : st.pub.lastReadBlock ≤ toUint64 ch :=
        le_trans c3s (toUint64_mono hfbch hch64)
      have hc1le : st.pub.lastReadBatchCount ≤ cbc := by
        cases hms : mS with
        | false =>
          rw [hmsf hms]
          exact c5s ch n hfbch hn
        | true =>
          rw [hmst hms]
          exact c4s our hour
      by_cases hflag : (!mD && !rD && !mS && !rS) = true
      · rw [if_pos hflag] at hx
        subst hx
        have hms : mS = false := by
          cases mS with
          | false => rfl
          | true => simp at hflag
        have hcbceq : cbc = n := hmsf hms
        have hnour : n ≤ our := by
          rw [← hcbceq]
          exact hcbcour
        have hs1f : SnapInv b0 c0 ({ st1 with fromBlock := ch + 1 } : PassSt σ) := hs1
        have hsmf : SeenMirror ({ st1 with fromBlock := ch + 1 } : PassSt σ) := hsm1
        have hsP : SnapInv b0 c0 (publishRead (toUint64 ch) cbc
            ({ st1 with fromBlock := ch + 1 } : PassSt σ)) :=
          SnapInv.publishOk hs1f
            (show st1.pub.lastReadBlock ≤ toUint64 ch from by
              rw [hpub]
              exact hb1le)
            (show st1.pub.lastReadBatchCount ≤ cbc from by
              rw [hpub]
              exact hc1le)
        have hsP2 : SeenMirror (publishRead (toUint64 ch) cbc
            ({ st1 with fromBlock := ch + 1 } : PassSt σ)) :=
          SeenMirror.afterPublish hsmf
        refine ⟨SnapInv.storeSeenOk hsP, ?_⟩
        intro st2 h
        injection h with h2
        subst h2
        have hfbf : (storeSeenBatchCount (publishRead (toUint64 ch) cbc
            ({ st1 with fromBlock := ch + 1 } : PassSt σ))).fromBlock = ch + 1 :=
          (storeSeen_preserves _).2.2.2.1
        have hbv : (storeSeenBatchCount (publishRead (toUint64 ch) cbc
            ({ st1 with fromBlock := ch + 1 } : PassSt σ))).pub.lastReadBlock =
            toUint64 ch :=
          (storeSeen_preserves _).1
        have hcv : (storeSeenBatchCount (publishRead (toUint64 ch) cbc
            ({ st1 with fromBlock := ch + 1 } : PassSt σ))).pub.lastReadBatchCount =
            cbc :=
          (storeSeen_preserves _).2.1
        have htrv : (storeSeenBatchCount (publishRead (toUint64 ch) cbc
            ({ st1 with fromBlock := ch + 1 } : PassSt σ))).tracker = st.tracker := by
          rw [(storeSeen_preserves _).2.2.2.2.1]
          exact htr1
        refine ⟨⟨SnapInv.storeSeenOk hsP, ?_, ?_, ?_, ?_,
          SeenMirror.afterStore hsP2⟩, v, hvin, ?_⟩
        · rw [hfbf]
          omega
        · rw [hfbf, hbv]
          have hceq : (ch + 1 - 1 : Int) = ch := by omega
          rw [hceq]
        · intro m hm
          rw [htrv, hour] at hm
          injection hm with hm
          rw [hcv, hcbceq, ← hm]
          exact hnour
        · intro h m hh hm
          rw [hfbf] at hh
          rw [hcv, hcbceq]
          exact hcoh.countMono ch h n m (by omega) hn hm
        · rw [hfbf, hchv]
      · rw [if_neg hflag] at hx
        have hinv1 : ScanInv env b0 c0 n cbc ch st1 := by
          refine ⟨hs1, ?_, ?_, ?_, ?_, ?_, ?_, hseen1, hsm1⟩
          · intro m hm
            rw [htr1] at hm
            rw [hpub]
            exact c4s m hm
          · intro h m hh hm
            rw [hpub]
            exact c5s h m (le_trans hfbch hh) hm
          · intro m hm
            rw [htr1, hour] at hm
            injection hm with hm
            rw [← hm]
            exact hcbcour
          · rw [hpub, hfb1]
            refine le_trans c3s (toUint64_mono ?_ ?_)
            · refine le_min ?_ hfbch
              omega
            · exact lt_of_le_of_lt (min_le_right _ _) hch64
          · rw [hfb1]
            exact c2s
          · rw [hfb1]
            omega
        have hra0 : false = true → st1.pub.lastSeenBatchCount = n :=
          fun hcon => Bool.noConfusion hcon
        have hrb0 : false = false → st1.pub.lastReadBlock = st.pub.lastReadBlock ∧
            st1.pub.lastReadBatchCount = st.pub.lastReadBatchCount := by
          intro _
          rw [hpub]
          exact ⟨rfl, rfl⟩
        cases hs : scanLoop env fmb ch cd fuel mD rD mS rS false st1 with
        | fail e st4 =>
          rw [hs] at hx
          subst hx
          have hnrSL : ((scanLoop env fmb ch cd fuel mD rD mS rS false st1).state
              ).events.all (fun e => ! e.isRetreat) = true := by
            rw [hs]
            exact all_of_tail (storeSeen_tail st4) hnrx
          have hSL := scanLoopMono hcoh fmb ch cd b0 c0 st.pub.lastReadBlock
            st.pub.lastReadBatchCount n cbc hn hch0 hch64 fuel mD rD mS rS false st1
            hinv1 hra0 hrb0 hnrSL
          rw [hs] at hSL
          exact ⟨SnapInv.storeSeenOk (show SnapInv b0 c0 st4 from hSL.1),
            fun st2 h => PassOut.noConfusion h⟩
        | shutdown st4 =>
          rw [hs] at hx
          subst hx
          have hnrSL : ((scanLoop env fmb ch cd fuel mD rD mS rS false st1).state
              ).events.all (fun e => ! e.isRetreat) = true := by
            rw [hs]
            exact all_of_tail (storeSeen_tail st4) hnrx
          have hSL := scanLoopMono hcoh fmb ch cd b0 c0 st.pub.lastReadBlock
            st.pub.lastReadBatchCount n cbc hn hch0 hch64 fuel mD rD mS rS false st1
            hinv1 hra0 hrb0 hnrSL
          rw [hs] at hSL
          exact ⟨SnapInv.storeSeenOk (show SnapInv b0 c0 st4 from hSL.1),
            fun st2 h => PassOut.noConfusion h⟩
        | fuelOut st4 =>
          rw [hs] at hx
          subst hx
          have hnrSL : ((scanLoop env fmb ch cd fuel mD rD mS rS false st1).state
              ).events.all (fun e => ! e.isRetreat) = true := by
            rw [hs]
            exact hnrx
          have hSL := scanLoopMono hcoh fmb ch cd b0 c0 st.pub.lastReadBlock
            st.pub.lastReadBatchCount n cbc hn hch0 hch64 fuel mD rD mS rS false st1
            hinv1 hra0 hrb0 hnrSL
          rw [hs] at hSL
          exact ⟨show SnapInv b0 c0 st4 from hSL.1,
            fun st2 h => PassOut.noConfusion h⟩
        | done ra2 st4 =>
          rw [hs] at hx
          dsimp only [] at hx
          by_cases hraT : ra2 = true
          · rw [if_pos hraT] at hx
            subst hx
            have hnrSL : ((scanLoop env fmb ch cd fuel mD rD mS rS false st1).state
                ).events.all (fun e => ! e.isRetreat) = true := by
              rw [hs]
              exact hnrx
            have hSL := scanLoopMono hcoh fmb ch cd b0 c0 st.pub.lastReadBlock
              st.pub.lastReadBatchCount n cbc hn hch0 hch64 fuel mD rD mS rS false st1
              hinv1 hra0 hrb0 hnrSL
            rw [hs] at hSL
            obtain ⟨hSI, hfb4, hseenP, hreadP⟩ := hSL.2 ra2 st4 rfl
            obtain ⟨t1, t2, t3, t4, t5, t6, t7, t8, t9⟩ := hSI
            refine ⟨t1, ?_⟩
            intro st2 h
            injection h with h2
            subst h2
            refine ⟨⟨t1, ?_, ?_, t2, ?_, t9⟩, v, hvin, ?_⟩
            · rw [hfb4]
              omega
            · have hmeq : min (ch + 1 : Int) ch = ch := min_eq_right (by omega)
              have hceq : (ch + 1 - 1 : Int) = ch := by omega
              have ht5 := t5
              rw [hfb4, hmeq] at ht5
              rw [hfb4, hceq]
              exact ht5
            · intro h m hh hm
              rw [hfb4] at hh
              exact t3 h m (by omega) hm
            · rw [hfb4, hchv]
          · rw [if_neg hraT] at hx
            subst hx
            have hraF : ra2 = false := by
              cases ra2 with
              | false => rfl
              | true => exact absurd rfl hraT
            have hnrSL : ((scanLoop env fmb ch cd fuel mD rD mS rS false st1).state
                ).events.all (fun e => ! e.isRetreat) = true := by
              rw [hs]
              exact all_of_tail (tail_trans (publishRead_tail _ _ _)
                (storeSeen_tail _)) hnrx
            have hSL := scanLoopMono hcoh fmb ch cd b0 c0 st.pub.lastReadBlock
              st.pub.lastReadBatchCount n cbc hn hch0 hch64 fuel mD rD mS rS false st1
              hinv1 hra0 hrb0 hnrSL
            rw [hs] at hSL
            obtain ⟨hSI, hfb4, hseenP, hreadP⟩ := hSL.2 ra2 st4 rfl
            obtain ⟨hb4, hc4⟩ := hreadP hraF
            obtain ⟨t1, t2, t3, t4, t5, t6, t7, t8, t9⟩ := hSI
            have hs4f : SnapInv b0 c0 (publishRead (toUint64 ch) cbc st4) :=
              SnapInv.publishOk t1
                (by
                  rw [hb4]
                  exact hb1le)
                (by
                  rw [hc4]
                  exact hc1le)
            have hsm4P : SeenMirror (publishRead (toUint64 ch) cbc st4) :=
              SeenMirror.afterPublish t9
            refine ⟨SnapInv.storeSeenOk hs4f, ?_⟩
            intro st2 h
            injection h with h2
            subst h2
            have hfbF : (storeSeenBatchCount (publishRead (toUint64 ch) cbc
                st4)).fromBlock = ch + 1 := by
              rw [(storeSeen_preserves _).2.2.2.1]
              exact hfb4
            have hbvF : (storeSeenBatchCount (publishRead (toUint64 ch) cbc
                st4)).pub.lastReadBlock = toUint64 ch :=
              (storeSeen_preserves _).1
            have hcvF : (storeSeenBatchCount (publishRead (toUint64 ch) cbc
                st4)).pub.lastReadBatchCount = cbc :=
              (storeSeen_preserves _).2.1
            have htrF : (storeSeenBatchCount (publishRead (toUint64 ch) cbc
                st4)).tracker = st4.tracker :=
              (storeSeen_preserves _).2.2.2.2.1
            refine ⟨⟨SnapInv.storeSeenOk hs4f, ?_, ?_, ?_, ?_,
              SeenMirror.afterStore hsm4P⟩, v, hvin, ?_⟩
            · rw [hfbF]
              omega
            · rw [hfbF, hbvF]
              have hceq : (ch + 1 - 1 : Int) = ch := by omega
              rw [hceq]
            · intro m hm
              rw [htrF] at hm
              rw [hcvF]
              exact t4 m hm
            · intro h m hh hm
              rw [hfbF] at hh
              rw [hcvF]
              exact le_trans hcbcn (hcoh.countMono ch h n m (by omega) hn hm)
            · rw [hfbF, hchv]
  exact ⟨(main _ rfl hnr).1, (main _ rfl hnr).2⟩

/-- A retreat-free run against a coherent reorg-free parent chain keeps
the snapshot trace monotone from the initial anchor. -/
theorem runSeqMono {σ : Type} {env : InboxEnv σ} (hcoh : SeqCoherent env)
    (cfg : InboxReaderConfig) (fmb : Int) (b0 c0 : Nat)
    (hhr : cfg.hardReorg = false) (hfmb0 : 0 ≤ fmb) (hfmb64 : fmb < 2 ^ 64) :
    ∀ (inputs : List PassInput) (st : PassSt σ),
      CrossInv env b0 c0 st →
      (∀ v ∈ flattenHeights inputs, 0 ≤ v ∧ v < 2 ^ 64 ∧
        st.fromBlock - 1 ≤ applyDelayWindow cfg fmb v) →
      List.Pairwise (· ≤ ·) (flattenHeights inputs) →
      ((runSeq env cfg fmb inputs st).events.all (fun e => ! e.isRetreat) = true) →
      SnapInv b0 c0 (runSeq env cfg fmb inputs st) := by
  intro inputs
  induction inputs with
  | nil =>
    intro st hci hH hpw hnr
    exact hci.1
  | cons inp rest ih =>
    intro st hci hH hpw hnr
    rw [runSeq]
    rw [runSeq] at hnr
    have hHin : ∀ v, (inp.lastHeader = .ok v ∨ v ∈ newHeaderVals inp.waitEvents) →
        0 ≤ v ∧ v < 2 ^ 64 ∧ st.fromBlock - 1 ≤ applyDelayWindow cfg fmb v := by
      intro v hv
      refine hH v ?_
      show v ∈ headerVals inp ++ flattenHeights rest
      refine List.mem_append_left _ ?_
      rw [headerVals]
      rcases hv with h1 | h1
      · rw [h1]
        exact List.mem_append_left _ (List.mem_singleton_self _)
      · exact List.mem_append_right _ h1
    have hpwd := List.pairwise_append.1 (show List.Pairwise (· ≤ ·)
      (headerVals inp ++ flattenHeights rest) from hpw)
    cases hr : runPass env cfg fmb inp.lastHeader inp.waitEvents inp.ctxDone
        inp.fuel st with
    | nextPass st2 =>
      rw [hr] at hnr
      have hnr2 : (runSeq env cfg fmb rest st2).events.all
          (fun e => ! e.isRetreat) = true := hnr
      have hnrP : ((runPass env cfg fmb inp.lastHeader inp.waitEvents inp.ctxDone
          inp.fuel st).state).events.all (fun e => ! e.isRetreat) = true := by
        rw [hr]
        exact all_of_tail (runSeq_tail env cfg fmb rest st2) hnr2
      have hRP := runPassMono hcoh cfg fmb inp.lastHeader inp.waitEvents
        inp.ctxDone inp.fuel st b0 c0 hhr hfmb0 hfmb64
        hci hHin hnrP
      obtain ⟨hci2, v, hvin, hfb2⟩ := hRP.2 st2 hr
      have hHrest : ∀ w ∈ flattenHeights rest, 0 ≤ w ∧ w < 2 ^ 64 ∧
          st2.fromBlock - 1 ≤ applyDelayWindow cfg fmb w := by
        intro w hw
        have hmemAll : w ∈ flattenHeights (inp :: rest) := by
          show w ∈ headerVals inp ++ flattenHeights rest
          exact List.mem_append_right _ hw
        refine ⟨(hH w hmemAll).1, (hH w hmemAll).2.1, ?_⟩
        have hvmem : v ∈ headerVals inp := by
          rw [headerVals]
          rcases hvin with h1 | h1
          · rw [h1]
            exact List.mem_append_left _ (List.mem_singleton_self _)
          · exact List.mem_append_right _ h1
        have hvw : v ≤ w := hpwd.2.2 v hvmem w hw
        have hmono := applyDelayWindow_mono cfg fmb hvw
        omega
      show SnapInv b0 c0 (runSeq env cfg fmb rest st2)
      exact ih st2 hci2 hHrest hpwd.2.1 hnr2
    | shutdown st2 =>
      rw [hr] at hnr
      have hnr2 : st2.events.all (fun e => ! e.isRetreat) = true := hnr
      have hnrP : ((runPass env cfg fmb inp.lastHeader inp.waitEvents inp.ctxDone
          inp.fuel st).state).events.all (fun e => ! e.isRetreat) = true := by
        rw [hr]
        exact hnr2
      have hRP := runPassMono hcoh cfg fmb inp.lastHeader inp.waitEvents
        inp.ctxDone inp.fuel st b0 c0 hhr hfmb0 hfmb64 hci hHin hnrP
      have hs2 := hRP.1
      rw [hr] at hs2
      exact hs2
    | fail e st2 =>
      rw [hr] at hnr
      have hnr2 : st2.events.all (fun e => ! e.isRetreat) = true := hnr
      have hnrP : ((runPass env cfg fmb inp.lastHeader inp.waitEvents inp.ctxDone
          inp.fuel st).state).events.all (fun e => ! e.isRetreat) = true := by
        rw [hr]
        exact hnr2
      have hRP := runPassMono hcoh cfg fmb inp.lastHeader inp.waitEvents
        inp.ctxDone inp.fuel st b0 c0 hhr hfmb0 hfmb64 hci hHin hnrP
      have hs2 := hRP.1
      rw [hr] at hs2
      exact hs2
    | fuelOut st2 =>
      rw [hr] at hnr
      have hnr2 : st2.events.all (fun e => ! e.isRetreat) = true := hnr
      have hnrP : ((runPass env cfg fmb inp.lastHeader inp.waitEvents inp.ctxDone
          inp.fuel st).state).events.all (fun e => ! e.isRetreat) = true := by
        rw [hr]
        exact hnr2
      have hRP := runPassMono hcoh cfg fmb inp.lastHeader inp.waitEvents
        inp.ctxDone inp.fuel st b0 c0 hhr hfmb0 hfmb64 hci hHin hnrP
      have hs2 := hRP.1
      rw [hr] at hs2
      exact hs2

/-- C7 (amended): against a coherent reorg-free parent chain (observed
heights non-decreasing and within the uint64 range, batch counts
non-decreasing in the height, range lookups and tracker batch adds
consistent with the counts) and with hard reorgs disabled, a run whose
trace contains no reorg retreat never decreases the published read
counters: every counter snapshot written during the run dominates its
predecessor in last_read_block and last_read_batch_count, starting from
the initially published values, so the final published read counters are
at or above the initial ones; and every pass that continues into the next
pass ends with last_seen_batch_count at least last_read_batch_count. The
at-every-instant inequality of the original claim fails, because the seen
counter is stored only after the read counters are raised. -/
theorem c7_monotone_progress {σ : Type} (env : InboxEnv σ) (cfg : InboxReaderConfig)
    (fmb : Int) (inputs : List PassInput) (st : PassSt σ)
    (hcoh : SeqCoherent env)
    (hhr : cfg.hardReorg = false)
    (hfmb0 : 0 ≤ fmb) (hfmb64 : fmb < 2 ^ 64)
    (hev : st.events = [])
    (hfb : 0 ≤ st.fromBlock)
    (hrb : st.pub.lastReadBlock ≤ toUint64 (st.fromBlock - 1))
    (htr : ∀ m, env.trGetBatchCount st.tracker = .ok m →
      st.pub.lastReadBatchCount ≤ m)
    (hch : ∀ h m, st.fromBlock - 1 ≤ h → env.siGetBatchCount h = .ok m →
      st.pub.lastReadBatchCount ≤ m)
    (hsm : st.seenBatchCountStored ≠ maxUint64 →
      st.pub.lastSeenBatchCount = st.seenBatchCountStored)
    (hH : ∀ v ∈ flattenHeights inputs, 0 ≤ v ∧ v < 2 ^ 64 ∧
      st.fromBlock - 1 ≤ applyDelayWindow cfg fmb v)
    (hsort : List.Pairwise (· ≤ ·) (flattenHeights inputs))
    (hnr : (runSeq env cfg fmb inputs st).events.all
      (fun e => ! e.isRetreat) = true) :
    readSnapsMono st.pub.lastReadBlock st.pub.lastReadBatchCount
      (runSeq env cfg fmb inputs st).events = true ∧
    st.pub.lastReadBlock ≤ (runSeq env cfg fmb inputs st).pub.lastReadBlock ∧
    st.pub.lastReadBatchCount ≤
      (runSeq env cfg fmb inputs st).pub.lastReadBatchCount ∧
    ∀ (lh : Except InboxErr Int) (we : List WaitEvent) (cd : Bool) (fl : Nat)
      (st1 st2 : PassSt σ),
      (st1.seenBatchCountStored ≠ maxUint64 →
        st1.pub.lastSeenBatchCount = st1.seenBatchCountStored) →
      runPass env cfg fmb lh we cd fl st1 = .nextPass st2 →
      st2.pub.lastReadBatchCount ≤ st2.pub.lastSeenBatchCount := by
  have hci : CrossInv env st.pub.lastReadBlock st.pub.lastReadBatchCount st := by
    refine ⟨⟨?_, ?_⟩, hfb, hrb, htr, hch, hsm⟩
    · rw [hev]
      rfl
    · rw [hev]
      rfl
  have hfinal := runSeqMono hcoh cfg fmb st.pub.lastReadBlock
    st.pub.lastReadBatchCount hhr hfmb0 hfmb64 inputs st hci hH hsort hnr
  refine ⟨hfinal.1, (SnapInv.endpoint hfinal).1, (SnapInv.endpoint hfinal).2, ?_⟩
  intro lh we cd fl st1 st2 hsm1 hrp
  exact runPassSeen hcoh cfg fmb lh we cd fl st1 hsm1 st2 hrp

/-- The C7 witness environment satisfies the coherence contract. -/
theorem envC7w_coherent : SeqCoherent envC7w := by
  refine ⟨?_, ?_, ?_, ?_, ?_, ?_, ?_⟩
  · intro h1 h2 n1 n2 hle e1 e2
    injection e1 with e1
    injection e2 with e2
    omega
  · intro h n e
    injection e with e
    rw [← e]
    decide
  · intro f t bs e b hb
    injection e with e
    rw [← e] at hb
    exact absurd hb (List.not_mem_nil b)
  · intro tr msgs tr1 e
    injection e with e
    rw [← e]
  · intro tr tr1 e
    exact Except.noConfusion e
  · intro tr bs tr1 e
    exact Except.noConfusion e
  · intro tr bs e
    injection e with e
    exact InboxErr.noConfusion e

/-- Witness for C7 (amended): two no-work passes against the coherent
single-batch chain at heights 10 and 12 publish the counter pairs (10, 1)
and then (12, 1); the snapshot trace is monotone from the initial (0, 0)
anchor and the published read counters end at or above their initial
values. -/
theorem c7_monotone_witness :
    readSnapsMono 0 0 (runSeq envC7w cfg0 0
      [⟨.ok 10, [], false, 1⟩, ⟨.ok 12, [], false, 1⟩] stC7w).events = true ∧
    (0 : Nat) ≤ (runSeq envC7w cfg0 0
      [⟨.ok 10, [], false, 1⟩, ⟨.ok 12, [], false, 1⟩] stC7w).pub.lastReadBlock ∧
    (0 : Nat) ≤ (runSeq envC7w cfg0 0
      [⟨.ok 10, [], false, 1⟩, ⟨.ok 12, [], false, 1⟩]
        stC7w).pub.lastReadBatchCount := by
  have h := c7_monotone_progress envC7w cfg0 0
    [⟨.ok 10, [], false, 1⟩, ⟨.ok 12, [], false, 1⟩] stC7w
    envC7w_coherent rfl (by decide) (by decide) rfl (by decide) (by decide)
    (fun m _ => Nat.zero_le m) (fun h2 m _ _ => Nat.zero_le m)
    (fun hcon => absurd rfl hcon)
    (by decide) (by decide) (by decide)
  exact ⟨h.1, h.2.1, h.2.2.1⟩

/-- The divergence probe never raises a flag against this environment or
configuration: the tracker always matches the parent-chain view. -/
def ProbeClean {σ : Type} (env : InboxEnv σ) (cfg : InboxReaderConfig)
    (fmb : Int) : Prop :=
  ∀ lh evs (st : PassSt σ) ch mD rD mS rS cbc st1,
    passProbe env cfg fmb lh evs st = .go ch mD rD mS rS cbc st1 →
    mD = false ∧ rD = false ∧ mS = false ∧ rS = false

/-- Under a clean probe, a pass adds no caught-up event: the scan phase is
skipped, and the no-work publish adds only snapshots. -/
theorem runPass_clean_no_caughtUp {σ : Type} (env : InboxEnv σ)
    (cfg : InboxReaderConfig) (fmb : Int) (hc : ProbeClean env cfg fmb)
    (lh : Except InboxErr Int) (evs : List WaitEvent) (cd : Bool) (fuel : Nat)
    (st : PassSt σ) :
    ∀ x, runPass env cfg fmb lh evs cd fuel st = x →
      ∀ t c, REvent.caughtUpSent t c ∈ x.state.events →
        REvent.caughtUpSent t c ∈ st.events := by
  intro x hx t c hmem
  rw [runPass] at hx
  cases hpp : passProbe env cfg fmb lh evs st with
  | fail err st1 =>
    have hf := passProbe_facts env cfg fmb lh evs st _ hpp
    rw [hpp] at hx
    subst hx
    rcases mem_storeSeen st1 _ hmem with he2 | he2
    · rcases hf.2.2.2.1 _ he2 with he3 | he3
      · exact he3
      · obtain ⟨ch, _, hq⟩ := he3
        exact absurd hq (by simp)
    · exact absurd he2 (by simp [REvent.isSnap])
  | shutdown st1 =>
    have hf := passProbe_facts env cfg fmb lh evs st _ hpp
    rw [hpp] at hx
    subst hx
    rcases mem_storeSeen st1 _ hmem with he2 | he2
    · rcases hf.2.2.2.1 _ he2 with he3 | he3
      · exact he3
      · obtain ⟨ch, _, hq⟩ := he3
        exact absurd hq (by simp)
    · exact absurd he2 (by simp [REvent.isSnap])
  | go ch mD rD mS rS cbc st1 =>
    have hf := passProbe_facts env cfg fmb lh evs st _ hpp
    obtain ⟨hmD, hrD, hmS, hrS⟩ := hc lh evs st ch mD rD mS rS cbc st1 hpp
    subst hmD
    subst hrD
    subst hmS
    subst hrS
    rw [hpp] at hx
    dsimp only [] at hx
    have hcond : (!false && !false && !false && !false) = true := rfl
    rw [if_pos hcond] at hx
    subst hx
    rcases mem_storeSeen _ _ hmem with he2 | he2
    · rcases mem_publishRead _ _ _ _ he2 with he3 | he3
      · rcases hf.2.2.2.1 _ he3 with he4 | he4
        · exact he4
        · obtain ⟨ch2, _, hq⟩ := he4
          exact absurd hq (by simp)
      · exact absurd he3 (by simp [REvent.isSnap])
    · exact absurd he2 (by simp [REvent.isSnap])

/-- Under a clean probe, no pass of a run ever adds a caught-up event. -/
theorem runSeq_clean_no_caughtUp {σ : Type} (env : InboxEnv σ)
    (cfg : InboxReaderConfig) (fmb : Int) (hc : ProbeClean env cfg fmb) :
    ∀ inputs (st : PassSt σ) t c,
      REvent.caughtUpSent t c ∈ (runSeq env cfg fmb inputs st).events →
      REvent.caughtUpSent t c ∈ st.events := by
  intro inputs
  induction inputs with
  | nil =>
    intro st t c h
    exact h
  | cons inp rest ih =>
    intro st t c h
    rw [runSeq] at h
    cases hrp : runPass env cfg fmb inp.lastHeader inp.waitEvents inp.ctxDone
        inp.fuel st with
    | nextPass st2 =>
      rw [hrp] at h
      exact runPass_clean_no_caughtUp env cfg fmb hc _ _ _ _ st _ hrp t c (ih st2 t c h)
    | shutdown st2 =>
      rw [hrp] at h
      exact runPass_clean_no_caughtUp env cfg fmb hc _ _ _ _ st _ hrp t c h
    | fail err st2 =>
      rw [hrp] at h
      exact runPass_clean_no_caughtUp env cfg fmb hc _ _ _ _ st _ hrp t c h
    | fuelOut st2 =>
      rw [hrp] at h
      exact runPass_clean_no_caughtUp env cfg fmb hc _ _ _ _ st _ hrp t c h

/-- C10: the caught-up signal is sent only from inside the range-scan
phase, at a scan whose to equals the current height; a pass whose probe
raises no flag skips the scan, so an instance whose tracker always matches
the parent-chain view never sends the caught-up signal. -/
theorem c10_caught_up_signal {σ : Type} (env : InboxEnv σ)
    (cfg : InboxReaderConfig) (fmb : Int) :
    (∀ lh evs cd fuel (st : PassSt σ) x t c,
      runPass env cfg fmb lh evs cd fuel st = x →
      REvent.caughtUpSent t c ∈ x.state.events →
      REvent.caughtUpSent t c ∈ st.events ∨
        (t = c ∧ passHeight cfg fmb lh evs st.fromBlock = some c)) ∧
    (ProbeClean env cfg fmb →
      ∀ inputs (st : PassSt σ) t c,
        REvent.caughtUpSent t c ∈ (runSeq env cfg fmb inputs st).events →
        REvent.caughtUpSent t c ∈ st.events) := by
  constructor
  · intro lh evs cd fuel st x t c hx hmem
    rcases runPass_events env cfg fmb lh evs cd fuel st x hx _ hmem with h | h | h
    · exact Or.inl h
    · exact absurd h (by simp [REvent.isSnap])
    · obtain ⟨ch, hch, hw⟩ := h
      have hw2 : t = c ∧ c = ch := hw
      refine Or.inr ⟨hw2.1, ?_⟩
      rw [hw2.2]
      exact hch
  · intro hclean inputs st t c h
    exact runSeq_clean_no_caughtUp env cfg fmb hclean inputs st t c h

/-- The all-agreeing environment of the C10 witness has a clean probe. -/
theorem envC10_probeClean : ProbeClean envC10 cfg0 0 := by
  intro lh evs st ch mD rD mS rS cbc st1 h
  rw [passProbe.eq_def] at h
  cases lh with
  | error e => exact ProbeOut.noConfusion h
  | ok latest =>
    dsimp only [] at h
    cases hw : waitForHeight
        (st.fromBlock + ((cfg0.delayBlocks + (cfg0.minBlocksToRead - 1) : Nat) : Int))
        latest evs with
    | none =>
      rw [hw] at h
      exact ProbeOut.noConfusion h
    | some hgt =>
      rw [hw] at h
      dsimp only [] at h
      have h1 : probeDelayedCore envC10 cfg0 (applyDelayWindow cfg0 0 hgt) st =
          .ok (false, false) (logQuery (applyDelayWindow cfg0 0 hgt) st) := rfl
      rw [h1] at h
      dsimp only [] at h
      have h2 : probeSequencerCore envC10 cfg0 (applyDelayWindow cfg0 0 hgt)
          (logQuery (applyDelayWindow cfg0 0 hgt) st) =
          .ok (false, false, 0) (setSeenCount 0
            (logQuery (applyDelayWindow cfg0 0 hgt)
              (logQuery (applyDelayWindow cfg0 0 hgt) st))) := rfl
      rw [h2] at h
      dsimp only [] at h
      injection h with e1 e2 e3 e4 e5 e6 e7
      exact ⟨e2.symm, e3.symm, e4.symm, e5.symm⟩

/-- Witness for C10: a pass against a one-batch-behind tracker sends the
caught-up signal at to = height = 20, accounted for by the first part; and
against the always-agreeing environment no sequence of passes adds the
signal. -/
theorem c10_caught_up_witness :
    (REvent.caughtUpSent 20 20 ∈ stC10.events ∨
      ((20 : Int) = 20 ∧ passHeight cfg0 0 (.ok 20) [] stC10.fromBlock = some 20)) ∧
    (REvent.caughtUpSent 7 7 ∈
        (runSeq envC10 cfg0 0 [⟨.ok 9, [], false, 3⟩] stC10).events →
      REvent.caughtUpSent 7 7 ∈ stC10.events) :=
  ⟨(c10_caught_up_signal envC10sig cfg0 0).1 (.ok 20) [] false 5 stC10 _ 20 20 rfl
      (by decide),
   (c10_caught_up_signal envC10 cfg0 0).2 envC10_probeClean
      [⟨.ok 9, [], false, 3⟩] stC10 7 7⟩

end InboxReaderModel
